import Mathlib

/-!
Shallow embedding of `src/src/index.ts` (nebkat/http-parser-ts): an incremental
HTTP/1.x parser.  JavaScript numbers are modelled as exact rationals plus NaN
and the two infinities (exact for every integer the parser manipulates; IEEE
rounding above 2^53 is not modelled).  JavaScript strings are modelled as lists
of code units; `Buffer` contents as lists of byte values.  The `'ascii'`
decoding used by `Buffer.toString` maps each byte to `b % 128`, as in Node.
-/

namespace HttpTs

/-- A JavaScript number as it occurs in the parser: an exact rational,
NaN, or one of the infinities. -/
inductive JSNum where
  | num (q : ℚ)
  | nan
  | inf
  | negInf
deriving DecidableEq, Repr

namespace JSNum

/-- JavaScript `<` (false whenever NaN is involved). -/
def lt : JSNum → JSNum → Bool
  | num a, num b => decide (a < b)
  | num _, inf => true
  | negInf, num _ => true
  | negInf, inf => true
  | _, _ => false

/-- JavaScript `<=` (false whenever NaN is involved). -/
def le : JSNum → JSNum → Bool
  | num a, num b => decide (a ≤ b)
  | num _, inf => true
  | negInf, nan => false
  | negInf, _ => true
  | inf, inf => true
  | _, _ => false

/-- JavaScript addition. -/
def add : JSNum → JSNum → JSNum
  | num a, num b => num (a + b)
  | nan, _ => nan
  | _, nan => nan
  | inf, negInf => nan
  | negInf, inf => nan
  | inf, _ => inf
  | _, inf => inf
  | negInf, _ => negInf
  | _, negInf => negInf

/-- JavaScript subtraction. -/
def sub : JSNum → JSNum → JSNum
  | num a, num b => num (a - b)
  | nan, _ => nan
  | _, nan => nan
  | inf, inf => nan
  | negInf, negInf => nan
  | inf, _ => inf
  | negInf, _ => negInf
  | num _, inf => negInf
  | num _, negInf => inf

/-- JavaScript `Math.min` (NaN-propagating). -/
def min : JSNum → JSNum → JSNum
  | nan, _ => nan
  | _, nan => nan
  | num a, num b => num (Min.min a b)
  | negInf, _ => negInf
  | _, negInf => negInf
  | inf, b => b
  | a, inf => a

/-- JavaScript strict equality `===` on numbers: NaN equals nothing. -/
def seq : JSNum → JSNum → Bool
  | num a, num b => decide (a = b)
  | inf, inf => true
  | negInf, negInf => true
  | _, _ => false

/-- JavaScript truthiness of a number: `0` and NaN are falsy. -/
def truthy : JSNum → Bool
  | num q => decide (q ≠ 0)
  | nan => false
  | _ => true

end JSNum

/-- A JavaScript string, as a list of code units. -/
abbrev Str := List ℕ

/-- A Node `Buffer`, as a list of byte values. -/
abbrev Bytes := List ℕ

/-- Helper: a Lean string literal as a JavaScript string value. -/
def js (s : String) : Str := s.toList.map Char.toNat

/-- Node `'ascii'` decoding of one byte: the low seven bits. -/
def asciiByte (b : ℕ) : ℕ := b % 128

/-- `chunk.toString('ascii', start, stop)` where `start`, `stop` are already
clamped natural indices. -/
def asciiSliceNat (chunk : Bytes) (start stop : ℕ) : Str :=
  ((chunk.drop start).take (stop - start)).map asciiByte

/-- Clamp a rational buffer offset into `[0, len]`, taking the floor of
fractional values (model of the coercion Node applies to `Buffer.toString`
offsets). -/
def clampIdx (len : ℕ) (q : ℚ) : ℕ :=
  if q ≤ 0 then 0 else Min.min q.floor.toNat len

/-- `chunk.toString('ascii', start, stop)` for JavaScript-number offsets
(NaN is coerced to 0). -/
def asciiSlice (chunk : Bytes) (start stop : JSNum) : Str :=
  let s := match start with | .num q => clampIdx chunk.length q | _ => 0
  let e := match stop with | .num q => clampIdx chunk.length q | _ => 0
  asciiSliceNat chunk s e

/-- JavaScript `toLowerCase`, on the ASCII range the decoder can produce. -/
def lowerUnit (c : ℕ) : ℕ := if 65 ≤ c ∧ c ≤ 90 then c + 32 else c

/-- JavaScript `String.toLowerCase`. -/
def jsLower (s : Str) : Str := s.map lowerUnit

/-- JavaScript `s.indexOf(t) !== -1`: substring containment. -/
def jsContains (s t : Str) : Bool :=
  (List.range (s.length + 1)).any (fun i => t.isPrefixOf (s.drop i))

/-- Space or horizontal tab (the whitespace class of the header regexes). -/
def isHWs (c : ℕ) : Bool := c == 32 || c == 9

/-- Trim leading and trailing space/tab, as the header-value regex does. -/
def trimHWs (s : Str) : Str :=
  ((s.dropWhile isHWs).reverse.dropWhile isHWs).reverse

/-- JavaScript whitespace recognised by `parseInt` / `ToNumber`
(the ASCII-range part). -/
def isJsWs (c : ℕ) : Bool :=
  c == 9 || c == 10 || c == 11 || c == 12 || c == 13 || c == 32

/-- Trim JavaScript whitespace from both ends. -/
def trimJsWs (s : Str) : Str :=
  ((s.dropWhile isJsWs).reverse.dropWhile isJsWs).reverse

/-- Decimal digit value of a code unit, if any. -/
def decDigit? (c : ℕ) : Option ℕ :=
  if 48 ≤ c ∧ c ≤ 57 then some (c - 48) else none

/-- Hexadecimal digit value of a code unit, if any. -/
def hexDigit? (c : ℕ) : Option ℕ :=
  if 48 ≤ c ∧ c ≤ 57 then some (c - 48)
  else if 97 ≤ c ∧ c ≤ 102 then some (c - 87)
  else if 65 ≤ c ∧ c ≤ 70 then some (c - 55)
  else none

/-- Value of a list of decimal digits. -/
def decVal (ds : List ℕ) : ℕ := ds.foldl (fun a d => a * 10 + d) 0

/-- Take the maximal prefix of hexadecimal digits. -/
def takeHex (s : Str) : List ℕ × Str :=
  match s with
  | [] => ([], [])
  | c :: rest =>
    match hexDigit? c with
    | some d => let (ds, r) := takeHex rest; (d :: ds, r)
    | none => ([], c :: rest)

/-- Take the maximal prefix of decimal digits. -/
def takeDec (s : Str) : List ℕ × Str :=
  match s with
  | [] => ([], [])
  | c :: rest =>
    match decDigit? c with
    | some d => let (ds, r) := takeDec rest; (d :: ds, r)
    | none => ([], c :: rest)

/-- `parseInt(s, 16)`: skip whitespace, optional sign, optional `0x`/`0X`,
then the maximal hexadecimal-digit prefix; no digits gives NaN. -/
def parseIntHex (s : Str) : JSNum :=
  let s := s.dropWhile isJsWs
  let (sgn, s) : ℤ × Str :=
    match s with
    | 43 :: r => (1, r)
    | 45 :: r => (-1, r)
    | r => (1, r)
  let s := match s with
    | 48 :: 120 :: r => r
    | 48 :: 88 :: r => r
    | _ => s
  let (ds, _) := takeHex s
  if ds.isEmpty then .nan
  else .num (sgn * (ds.foldl (fun a d => a * 16 + d) 0 : ℕ))

/-- JavaScript `ToNumber` applied to a string (`+value`): whitespace-trimmed;
empty gives 0; `Infinity` forms; `0x`/`0X` integer literals; otherwise a
signed decimal literal with optional fraction and exponent; anything else is
NaN.  Exact rationals stand in for IEEE doubles; the octal/binary literal
forms, which no HTTP peer sends, are mapped to NaN. -/
def toNumber (s : Str) : JSNum :=
  let t := trimJsWs s
  if t.isEmpty then .num 0 else
  match t with
  | 48 :: 120 :: r => (if r.isEmpty then .nan else hexTail r)
  | 48 :: 88 :: r => (if r.isEmpty then .nan else hexTail r)
  | _ => signedDec t
where
  hexTail (r : Str) : JSNum :=
    let (ds, rest) := takeHex r
    if rest.isEmpty ∧ ¬ds.isEmpty then
      .num ((ds.foldl (fun a d => a * 16 + d) 0 : ℕ) : ℚ)
    else .nan
  signedDec (t : Str) : JSNum :=
    let (sgn, u) : ℚ × Str :=
      match t with
      | 43 :: r => (1, r)
      | 45 :: r => (-1, r)
      | r => (1, r)
    if u = js "Infinity" then (if sgn = 1 then .inf else .negInf) else
    let (ip, r1) := takeDec u
    let (fp, r2) : List ℕ × Str :=
      match r1 with
      | 46 :: r => takeDec r
      | _ => ([], r1)
    if ip.isEmpty ∧ fp.isEmpty then .nan else
    let mant : ℚ := (decVal ip : ℚ) + (decVal fp : ℚ) / ((10 : ℚ) ^ fp.length)
    match r2 with
    | [] => .num (sgn * mant)
    | 101 :: r => expTail sgn mant r
    | 69 :: r => expTail sgn mant r
    | _ => .nan
  expTail (sgn mant : ℚ) (r : Str) : JSNum :=
    let (esgn, r) : Bool × Str :=
      match r with
      | 43 :: r2 => (true, r2)
      | 45 :: r2 => (false, r2)
      | r2 => (true, r2)
    let (eds, rest) := takeDec r
    if rest.isEmpty ∧ ¬eds.isEmpty then
      .num (sgn * mant * (if esgn then (10 : ℚ) ^ decVal eds else ((10 : ℚ) ^ decVal eds)⁻¹))
    else .nan

/-- Match of `HEADER_REGEX = /^([^: \t]+):[ \t]*((?:.*[^ \t])|)/` against a
header line: a non-empty name free of colon, space and tab, a colon, then the
value with surrounding space/tab stripped. -/
def headerMatch (line : Str) : Option (Str × Str) :=
  match line.findIdx? (fun c => c == 58 || isHWs c) with
  | some i =>
    if line.getD i 0 = 58 ∧ 1 ≤ i then
      some (line.take i, trimHWs (line.drop (i + 1)))
    else none
  | none => none

/-- Match of `HEADER_CONTINUE_REGEX = /^[ \t]+(.*[^ \t])/`: a line starting
with space or tab whose trimmed contents are non-empty. -/
def contMatch (line : Str) : Option Str :=
  match line with
  | c :: _ =>
    if isHWs c then
      let t := trimHWs line
      if t.isEmpty then none else some t
    else none
  | [] => none

/-- A method code unit: `A`–`Z` or `-` (the class `[A-Z-]`). -/
def isMethTok (c : ℕ) : Bool := (65 ≤ c ∧ c ≤ 90) || c == 45

/-- Match of `REQUEST_REGEX = /^([A-Z-]+) ([^ ]+) HTTP\/(\d)\.(\d)$/`:
method token, space, non-empty space-free target, space, `HTTP/`, digit,
dot, digit, end of line. -/
def reqMatch (line : Str) : Option (Str × Str × ℕ × ℕ) :=
  let meth := line.takeWhile isMethTok
  match line.drop meth.length with
  | 32 :: r1 =>
    if meth.isEmpty then none else
    let tgt := r1.takeWhile (fun c => !(c == 32))
    if tgt.isEmpty then none else
    match r1.drop tgt.length with
    | [32, 72, 84, 84, 80, 47, d1, 46, d2] =>
      match decDigit? d1, decDigit? d2 with
      | some a, some b => some (meth, tgt, a, b)
      | _, _ => none
    | _ => none
  | _ => none

/-- Match of `RESPONSE_REGEX = /^HTTP\/(\d)\.(\d) (\d{3}) ?(.*)$/`. -/
def respMatch (line : Str) : Option (ℕ × ℕ × ℕ × Str) :=
  match line with
  | 72 :: 84 :: 84 :: 80 :: 47 :: d1 :: 46 :: d2 :: 32 :: s1 :: s2 :: s3 :: rest =>
    match decDigit? d1, decDigit? d2, decDigit? s1, decDigit? s2, decDigit? s3 with
    | some a, some b, some x, some y, some z =>
      let reason := match rest with | 32 :: r => r | r => r
      some (a, b, x * 100 + y * 10 + z, reason)
    | _, _, _, _, _ => none
  | _ => none

/-- The canonical method table (`HTTPParser.methods`). -/
def methods : List Str :=
  [js "DELETE", js "GET", js "HEAD", js "POST", js "PUT", js "CONNECT",
   js "OPTIONS", js "TRACE", js "COPY", js "LOCK", js "MKCOL", js "MOVE",
   js "PROPFIND", js "PROPPATCH", js "SEARCH", js "UNLOCK", js "BIND",
   js "REBIND", js "UNBIND", js "ACL", js "REPORT", js "MKACTIVITY",
   js "CHECKOUT", js "MERGE", js "M-SEARCH", js "NOTIFY", js "SUBSCRIBE",
   js "UNSUBSCRIBE", js "PATCH", js "PURGE", js "MKCALENDAR", js "LINK",
   js "UNLINK"]

/-- Stable parse-error codes. -/
inductive ECode where
  | HPE_INVALID_CONSTANT
  | HPE_INVALID_METHOD
  | HPE_LF_EXPECTED
  | HPE_UNEXPECTED_CONTENT_LENGTH
  | HPE_INVALID_CHUNK_SIZE
  | HPE_STRICT
  | HPE_HEADER_OVERFLOW
  | HPE_INVALID_EOF_STATE
deriving DecidableEq, Repr

/-- The parser mode (`HTTPParser.REQUEST` / `HTTPParser.RESPONSE`). -/
inductive PType where
  | request
  | response
deriving DecidableEq, Repr

/-- The parse states (`this.state`). -/
inductive SName where
  | REQUEST_LINE
  | RESPONSE_LINE
  | HEADER
  | BODY_CHUNK
  | BODY_CHUNKHEAD
  | BODY_CHUNKEND
  | BODY_CHUNKTRAILERS
  | BODY_SIZED
  | BODY_RAW
deriving DecidableEq, Repr

/-- `HTTPParser.HEADER_STATES`. -/
def HEADER_STATES : List SName := [.REQUEST_LINE, .RESPONSE_LINE, .HEADER]

/-- `HTTPParser.FINISH_STATES`. -/
def FINISH_STATES : List SName := [.REQUEST_LINE, .RESPONSE_LINE, .BODY_RAW]

/-- The in-progress message descriptor (`this.info`); `none` models
an `undefined` field. -/
structure Info where
  method : Option ℤ := none
  url : Option Str := none
  statusCode : Option ℕ := none
  statusMessage : Option Str := none
  versionMajor : Option ℕ := none
  versionMinor : Option ℕ := none
  headers : List Str := []
  trailers : List Str := []
  upgrade : Bool := false
  connection : Option Str := none
  shouldKeepAlive : Option Bool := none
deriving DecidableEq, Repr

/-- The parser fields that persist between `execute` calls.  `bodyBytes`
is `number | null`, modelled as `Option JSNum`. -/
structure PState where
  type : PType
  state : SName
  info : Info
  line : Str
  isChunked : Bool
  headerSize : ℚ
  bodyBytes : Option JSNum
  hadError : Bool
deriving DecidableEq, Repr

/-- `initialize(type)` (also run by `nextRequest`): everything is reset
except `this.line`, which `initialize` does not touch. -/
def initParser (t : PType) (carry : Str) : PState :=
  { type := t
    state := match t with | .request => .REQUEST_LINE | .response => .RESPONSE_LINE
    info := {}
    line := carry
    isChunked := false
    headerSize := 0
    bodyBytes := none
    hadError := false }

/-- A fresh parser after `initialize(type)` on a new instance. -/
def freshParser (t : PType) : PState := initParser t []

/-- The static tunables, plus the value the host's `onHeadersComplete`
callback returns (the `skipBody` directive). -/
structure Cfg where
  maxHeaderSize : ℚ := 80 * 1024
  directive : JSNum := .num 0
deriving DecidableEq, Repr

/-- One callback invocation, with its argument values. -/
inductive Ev where
  | onHeaders (headers : List Str) (url : Str)
  | onHeadersComplete (versionMajor versionMinor : Option ℕ) (headers : List Str)
      (method : Option ℤ) (url : Option Str) (statusCode : Option ℕ)
      (statusMessage : Option Str) (upgrade : Bool) (shouldKeepAlive : Bool)
  | onBody (buffer : Bytes) (start : JSNum) (len : JSNum)
  | onMessageComplete
deriving DecidableEq, Repr

/-- `nextRequest()`: emit `onMessageComplete`, then re-initialise. -/
def nextRequest (ps : PState) : PState × List Ev :=
  (initParser ps.type ps.line, [Ev.onMessageComplete])

/-- The in-`execute` machine: parser fields plus the cursor `this.offset`. -/
structure M where
  ps : PState
  offset : JSNum
deriving DecidableEq, Repr

/-- Outcome of one state-handler invocation: fall through, `return true`
(break), a thrown `ParseError`, or a thrown non-`ParseError` (a `TypeError`
from dereferencing `undefined`). -/
inductive Ctl where
  | next
  | brk
  | err (c : ECode)
  | crash
deriving DecidableEq, Repr

/-- Index of the first LF byte at an integer position at or beyond `off`
(positions below zero or fractional never hit a byte). -/
def findLF (chunk : Bytes) (off : ℚ) : Option ℕ :=
  if off.den = 1 then
    ((chunk.drop (if off ≤ 0 then 0 else off.floor.toNat)).findIdx? (fun b => b == 10)).map
      (fun k => (if off ≤ 0 then 0 else off.floor.toNat) + k)
  else none

/-- `consumeLine()`: scan for LF from the cursor; on a hit return the carry
plus the decoded window with a trailing CR stripped, else append the window
to the carry and report that more input is needed. -/
def consumeLine (chunk : Bytes) (m : M) : Option Str × M :=
  let len : ℕ := chunk.length
  match m.offset with
  | .num off =>
    match findLF chunk off with
    | some i =>
      let line0 := m.ps.line ++ asciiSliceNat chunk (clampIdx len off) i
      let line := if line0.getLast? = some 13 then line0.dropLast else line0
      (some line, { ps := { m.ps with line := [] }, offset := .num (i + 1) })
    | none =>
      (none, { ps := { m.ps with line := m.ps.line ++ asciiSliceNat chunk (clampIdx len off) len },
               offset := .num len })
  | _ =>
    -- unreachable from `execute` (the loop guard rejects a NaN cursor)
    (none, { ps := { m.ps with line := m.ps.line ++ asciiSliceNat chunk 0 len },
             offset := .num len })

/-- Append a continuation fragment to the previous header value
(single-space separator when the previous value is non-empty). -/
def appendCont (last v : Str) : Str :=
  last ++ (if last.length > 0 then [32] else []) ++ v

/-- `parseHeader(line, headers)`: stray CR throws `HPE_LF_EXPECTED`; a
name/value match appends both; otherwise a continuation line extends the
last value when one exists; anything else is silently ignored. -/
def parseHeader (line : Str) (headers : List Str) : Except ECode (List Str) :=
  if line.contains 13 then .error .HPE_LF_EXPECTED
  else match headerMatch line with
  | some (name, value) => .ok (headers ++ [name, value])
  | none =>
    match contMatch line with
    | some v =>
      if headers.length > 0 then
        .ok (headers.dropLast ++ [appendCont (headers.getLast?.getD []) v])
      else .ok headers
    | none => .ok headers

/-- The mutable fields touched by the header scan at end of headers. -/
structure ScanSt where
  isChunked : Bool
  bodyBytes : Option JSNum
  connection : Option Str
  hasContentLength : Bool
  hasUpgradeHeader : Bool
deriving DecidableEq, Repr

/-- Result of the header scan loop. -/
inductive ScanRes where
  | done
  | fail (c : ECode)
  | crashed
deriving DecidableEq, Repr

/-- One iteration of the end-of-headers scan.  `v? = none` models
`headers[i + 1]` being `undefined` (odd-length list): `toLowerCase` on it
throws a `TypeError`, while `+undefined` is NaN. -/
def scanOne (st : ScanSt) (name : Str) (v? : Option Str) : ScanSt × ScanRes :=
  let lname := jsLower name
  if lname = js "transfer-encoding" then
    match v? with
    | none => (st, .crashed)
    | some v => ({ st with isChunked := jsLower v == js "chunked" }, .done)
  else if lname = js "content-length" then
    let contentLength := match v? with | none => JSNum.nan | some v => toNumber v
    let neq : Bool := match st.bodyBytes with
      | none => true
      | some b => !JSNum.seq contentLength b
    if st.hasContentLength ∧ neq then (st, .fail .HPE_UNEXPECTED_CONTENT_LENGTH)
    else ({ st with hasContentLength := true, bodyBytes := some contentLength }, .done)
  else if lname = js "connection" then
    match v? with
    | none => (st, .crashed)
    | some v =>
      ({ st with connection := some ((st.connection.getD (js "undefined")) ++ jsLower v) }, .done)
  else if lname = js "upgrade" then
    ({ st with hasUpgradeHeader := true }, .done)
  else (st, .done)

/-- The end-of-headers scan over the flat name/value list. -/
def scanHeaders : List Str → ScanSt → ScanSt × ScanRes
  | [], st => (st, .done)
  | [n], st => scanOne st n none
  | n :: v :: rest, st =>
    match scanOne st n (some v) with
    | (st', .done) => scanHeaders rest st'
    | out => out

/-- `shouldKeepAlive()`.  With no `Connection` header, `this.info.connection`
is `undefined`, so `connection?.indexOf('close') !== -1` is
`undefined !== -1`, which is true, and `connection?.indexOf('keep-alive')
=== -1` is `undefined === -1`, which is false. -/
def shouldKeepAliveFn (info : Info) (bodyBytes : Option JSNum) (isChunked : Bool) : Bool :=
  if info.versionMajor.getD 0 > 0 ∧ info.versionMinor.getD 0 > 0 then
    if (match info.connection with
        | none => true
        | some c => jsContains c (js "close")) then false
    else bodyBytes.isSome || isChunked
  else
    if (match info.connection with
        | none => false
        | some c => !jsContains c (js "keep-alive")) then false
    else bodyBytes.isSome || isChunked

/-- `methods[info.method!] === 'CONNECT'` (an undefined or out-of-range
index reads `undefined`, which equals no string). -/
def isConnectMethod : Option ℤ → Bool
  | some i => if 0 ≤ i ∧ i.toNat < methods.length then methods.getD i.toNat [] == js "CONNECT" else false
  | none => false

/-- The `REQUEST_LINE` state handler. -/
def REQUEST_LINE (chunk : Bytes) (m : M) : M × List Ev × Ctl :=
  match consumeLine chunk m with
  | (none, m') => (m', [], .next)
  | (some line, m') =>
    if line.isEmpty then (m', [], .next) else
    match reqMatch line with
    | none => (m', [], .err .HPE_INVALID_CONSTANT)
    | some (meth, url, d1, d2) =>
      let idx : ℤ := match methods.findIdx? (fun x => x == meth) with
        | some i => (i : ℤ)
        | none => -1
      -- `this.info.method` is assigned before the `-1` check, so the store
      -- survives a thrown `HPE_INVALID_METHOD`
      let m1 := { m' with ps := { m'.ps with info := { m'.ps.info with method := some idx } } }
      if idx = -1 then (m1, [], .err .HPE_INVALID_METHOD)
      else
        let ps := m1.ps
        let ps := { ps with
          info := { ps.info with url := some url, versionMajor := some d1, versionMinor := some d2 }
          bodyBytes := some (.num 0)
          state := .HEADER }
        ({ m1 with ps := ps }, [], .next)

/-- The `RESPONSE_LINE` state handler. -/
def RESPONSE_LINE (chunk : Bytes) (m : M) : M × List Ev × Ctl :=
  match consumeLine chunk m with
  | (none, m') => (m', [], .next)
  | (some line, m') =>
    if line.isEmpty then (m', [], .next) else
    match respMatch line with
    | none => (m', [], .err .HPE_INVALID_CONSTANT)
    | some (d1, d2, status, reason) =>
      let ps := m'.ps
      let ps := { ps with
        info := { ps.info with
          versionMajor := some d1
          versionMinor := some d2
          statusCode := some status
          statusMessage := some reason } }
      -- `(statusCode / 100 | 0) === 1 || statusCode === 204 || statusCode === 304`
      let ps := if status / 100 = 1 ∨ status = 204 ∨ status = 304 then
          { ps with bodyBytes := some (.num 0) }
        else ps
      ({ m' with ps := { ps with state := .HEADER } }, [], .next)

/-- First stage of end-of-headers processing: run the scan and write the
mutated fields back (the loop mutates the instance as it runs, so the
partial writes survive a thrown error). -/
def hcScan (ps0 : PState) : PState × ScanSt × ScanRes :=
  let st0 : ScanSt :=
    { isChunked := ps0.isChunked, bodyBytes := ps0.bodyBytes,
      connection := ps0.info.connection, hasContentLength := false,
      hasUpgradeHeader := false }
  let (st, res) := scanHeaders ps0.info.headers st0
  ({ ps0 with
      isChunked := st.isChunked
      bodyBytes := st.bodyBytes
      info := { ps0.info with connection := st.connection } }, st, res)

/-- The chunked-wins conflict rule: if both chunked and a `Content-Length`
were seen, `bodyBytes` is cleared to `null`. -/
def hcChunkedWins (ps : PState) (hasCL : Bool) : PState :=
  if ps.isChunked ∧ hasCL then { ps with bodyBytes := none } else ps

/-- The upgrade decision.  `none` models the `TypeError` thrown by
`this.info.connection!.indexOf('upgrade')` when an `Upgrade` header was seen
but no `Connection` header. -/
def hcUpgrade (ps : PState) (st : ScanSt) : Option (PState × Bool) :=
  if st.hasUpgradeHeader ∧ ps.info.connection = none then none
  else
    let upg : Bool :=
      if st.hasUpgradeHeader ∧ jsContains (ps.info.connection.getD []) (js "upgrade") then
        decide (ps.type = .request) || ps.info.statusCode == some 101
      else isConnectMethod ps.info.method
    let ps := { ps with info := { ps.info with upgrade := upg } }
    some (if ps.isChunked ∧ upg then { ps with isChunked := false } else ps, upg)

/-- Keep-alive, the `onHeadersComplete` callback and the framing
transition. -/
def hcFinish (cfg : Cfg) (ps : PState) (upg : Bool) : PState × List Ev × Ctl :=
  let ska := shouldKeepAliveFn ps.info ps.bodyBytes ps.isChunked
  let ps := { ps with info := { ps.info with shouldKeepAlive := some ska } }
  let ev := Ev.onHeadersComplete ps.info.versionMajor ps.info.versionMinor ps.info.headers
    ps.info.method ps.info.url ps.info.statusCode ps.info.statusMessage upg ska
  let skipBody := cfg.directive
  if JSNum.seq skipBody (.num 2) then
    let (ps2, ev2) := nextRequest ps
    (ps2, ev :: ev2, .brk)
  else if ps.isChunked ∧ ¬skipBody.truthy then
    ({ ps with state := .BODY_CHUNKHEAD }, [ev], .next)
  else if JSNum.seq skipBody (.num 1) ∨ ps.bodyBytes = some (.num 0) then
    -- `return info.upgrade`: the flag captured before the reset decides
    -- whether the outer loop stops
    let (ps2, ev2) := nextRequest ps
    (ps2, ev :: ev2, if upg then .brk else .next)
  else if ps.bodyBytes = none then
    ({ ps with state := .BODY_RAW }, [ev], .next)
  else
    ({ ps with state := .BODY_SIZED }, [ev], .next)

/-- End-of-headers processing inside the `HEADER` handler: the header scan,
the chunked-wins rule, the upgrade decision, keep-alive, the
`onHeadersComplete` callback, and the framing transition. -/
def headersComplete (cfg : Cfg) (ps0 : PState) : PState × List Ev × Ctl :=
  match hcScan ps0 with
  | (ps1, _, .fail c) => (ps1, [], .err c)
  | (ps1, _, .crashed) => (ps1, [], .crash)
  | (ps1, st, .done) =>
    let ps2 := hcChunkedWins ps1 st.hasContentLength
    match hcUpgrade ps2 st with
    | none => (ps2, [], .crash)
    | some (ps3, upg) => hcFinish cfg ps3 upg

/-- The `HEADER` state handler. -/
def HEADER (cfg : Cfg) (chunk : Bytes) (m : M) : M × List Ev × Ctl :=
  match consumeLine chunk m with
  | (none, m') => (m', [], .next)
  | (some line, m') =>
    if line.length > 0 then
      match parseHeader line m'.ps.info.headers with
      | .error c => (m', [], .err c)
      | .ok hs =>
        ({ m' with ps := { m'.ps with info := { m'.ps.info with headers := hs } } }, [], .next)
    else
      match headersComplete cfg m'.ps with
      | (ps2, evs, ctl) => ({ m' with ps := ps2 }, evs, ctl)

/-- The `BODY_CHUNKHEAD` state handler. -/
def BODY_CHUNKHEAD (chunk : Bytes) (m : M) : M × List Ev × Ctl :=
  match consumeLine chunk m with
  | (none, m') => (m', [], .next)
  | (some line, m') =>
    let bb := parseIntHex line
    let ps := { m'.ps with bodyBytes := some bb }
    if bb = .nan then ({ m' with ps := ps }, [], .err .HPE_INVALID_CHUNK_SIZE)
    else if JSNum.seq bb (.num 0) then
      ({ m' with ps := { ps with state := .BODY_CHUNKTRAILERS } }, [], .next)
    else
      ({ m' with ps := { ps with state := .BODY_CHUNK } }, [], .next)

/-- The `BODY_CHUNK` state handler.  `this.bodyBytes!` being `null` coerces
to `0` in `Math.min` and in `-=`. -/
def BODY_CHUNK (chunk : Bytes) (m : M) : M × List Ev × Ctl :=
  let b0 := m.ps.bodyBytes.getD (.num 0)
  let l := JSNum.min (JSNum.sub (.num chunk.length) m.offset) b0
  let rem := JSNum.sub b0 l
  let ps := { m.ps with bodyBytes := some rem }
  let ps := if JSNum.seq rem (.num 0) then { ps with state := .BODY_CHUNKEND } else ps
  ({ ps := ps, offset := JSNum.add m.offset l }, [Ev.onBody chunk m.offset l], .next)

/-- The `BODY_CHUNKEND` state handler. -/
def BODY_CHUNKEND (chunk : Bytes) (m : M) : M × List Ev × Ctl :=
  match consumeLine chunk m with
  | (none, m') => (m', [], .next)
  | (some line, m') =>
    if line.length ≠ 0 then (m', [], .err .HPE_STRICT)
    else ({ m' with ps := { m'.ps with state := .BODY_CHUNKHEAD } }, [], .next)

/-- The `BODY_CHUNKTRAILERS` state handler. -/
def BODY_CHUNKTRAILERS (chunk : Bytes) (m : M) : M × List Ev × Ctl :=
  match consumeLine chunk m with
  | (none, m') => (m', [], .next)
  | (some line, m') =>
    if line.length > 0 then
      match parseHeader line m'.ps.info.trailers with
      | .error c => (m', [], .err c)
      | .ok ts =>
        ({ m' with ps := { m'.ps with info := { m'.ps.info with trailers := ts } } }, [], .next)
    else
      let evs := if m'.ps.info.trailers.length > 0 then
          [Ev.onHeaders m'.ps.info.trailers []]
        else []
      let (ps2, ev2) := nextRequest m'.ps
      ({ m' with ps := ps2 }, evs ++ ev2, .next)

/-- The `BODY_RAW` state handler. -/
def BODY_RAW (chunk : Bytes) (m : M) : M × List Ev × Ctl :=
  let l := JSNum.sub (.num chunk.length) m.offset
  ({ ps := m.ps, offset := .num chunk.length }, [Ev.onBody chunk m.offset l], .next)

/-- The `BODY_SIZED` state handler. -/
def BODY_SIZED (chunk : Bytes) (m : M) : M × List Ev × Ctl :=
  let b0 := m.ps.bodyBytes.getD (.num 0)
  let l := JSNum.min (JSNum.sub (.num chunk.length) m.offset) b0
  let rem := JSNum.sub b0 l
  let ps := { m.ps with bodyBytes := some rem }
  if JSNum.seq rem (.num 0) then
    let (ps2, ev2) := nextRequest ps
    ({ ps := ps2, offset := JSNum.add m.offset l }, Ev.onBody chunk m.offset l :: ev2, .next)
  else
    ({ ps := ps, offset := JSNum.add m.offset l }, [Ev.onBody chunk m.offset l], .next)

/-- Dispatch `this[this.state]()`. -/
def stepState (cfg : Cfg) (chunk : Bytes) (m : M) : M × List Ev × Ctl :=
  match m.ps.state with
  | .REQUEST_LINE => REQUEST_LINE chunk m
  | .RESPONSE_LINE => RESPONSE_LINE chunk m
  | .HEADER => HEADER cfg chunk m
  | .BODY_CHUNK => BODY_CHUNK chunk m
  | .BODY_CHUNKHEAD => BODY_CHUNKHEAD chunk m
  | .BODY_CHUNKEND => BODY_CHUNKEND chunk m
  | .BODY_CHUNKTRAILERS => BODY_CHUNKTRAILERS chunk m
  | .BODY_SIZED => BODY_SIZED chunk m
  | .BODY_RAW => BODY_RAW chunk m

/-- How the `while` loop of `execute` ended. -/
inductive LoopExit where
  | done
  | fuelOut
  | errored (c : ECode)
  | crashed
deriving DecidableEq, Repr

/-- The `while (this.offset < this.length)` loop of `execute`, fuelled
(the source can loop forever on adversarial negative sizes; every run that
terminates is reproduced by a large enough fuel). -/
def runLoop (cfg : Cfg) (chunk : Bytes) : ℕ → M → M × List Ev × LoopExit
  | 0, m => (m, [], .fuelOut)
  | f + 1, m =>
    if JSNum.lt m.offset (.num chunk.length) then
      match stepState cfg chunk m with
      | (m', evs, .next) =>
        let (m2, evs2, x) := runLoop cfg chunk f m'
        (m2, evs ++ evs2, x)
      | (m', evs, .brk) => (m', evs, .done)
      | (m', evs, .err c) => (m', evs, .errored c)
      | (m', evs, .crash) => (m', evs, .crashed)
    else (m, [], .done)

/-- What an `execute` call hands back to the host: a consumed count, a
returned `ParseError`, or a propagated non-`ParseError` exception. -/
inductive ExecResult where
  | consumed (n : JSNum)
  | parseError (c : ECode)
  | thrown
deriving DecidableEq, Repr

/-- `execute(chunk)`: run the loop, then do the header-size bookkeeping.
A thrown `ParseError` sets `hadError` and is returned; the
`HPE_HEADER_OVERFLOW` return path does not set `hadError`; a
non-`ParseError` is rethrown without setting `hadError`.  `none` means the
fuel ran out before the source loop ended. -/
def execute (cfg : Cfg) (fuel : ℕ) (ps : PState) (chunk : Bytes) :
    Option (ExecResult × PState × List Ev) :=
  let (m', evs, x) := runLoop cfg chunk fuel { ps := ps, offset := .num 0 }
  match x with
  | .fuelOut => none
  | .errored c => some (.parseError c, { m'.ps with hadError := true }, evs)
  | .crashed => some (.thrown, m'.ps, evs)
  | .done =>
    if m'.ps.state ∈ HEADER_STATES then
      let off : ℚ := match m'.offset with | .num q => q | _ => 0
      let hs := m'.ps.headerSize + off
      let ps2 := { m'.ps with headerSize := hs }
      if hs > cfg.maxHeaderSize then some (.parseError .HPE_HEADER_OVERFLOW, ps2, evs)
      else some (.consumed m'.offset, ps2, evs)
    else some (.consumed m'.offset, m'.ps, evs)

/-- `finish()`. -/
def finish (ps : PState) : Option ECode × List Ev :=
  if ps.hadError then (none, [])
  else if ps.state ∉ FINISH_STATES then (some .HPE_INVALID_EOF_STATE, [])
  else if ps.state = .BODY_RAW then (none, [Ev.onMessageComplete])
  else (none, [])

/-- Parser states reachable from a fresh parser by `execute` calls that ran
to completion (`finish` never mutates the instance). -/
inductive Reachable : PState → Prop where
  | fresh (t : PType) : Reachable (freshParser t)
  | step (cfg : Cfg) (fuel : ℕ) (chunk : Bytes) (ps : PState) (r : ExecResult)
      (ps' : PState) (evs : List Ev) : Reachable ps →
      execute cfg fuel ps chunk = some (r, ps', evs) → Reachable ps'

/-- The default configuration: `maxHeaderSize = 80 * 1024` and a host whose
`onHeadersComplete` returns 0 (parse the body normally). -/
def cfg0 : Cfg := {}

/-- The cursor is within bounds (or NaN). -/
def offOk (chunk : Bytes) (v : JSNum) : Prop :=
  v = .nan ∨ JSNum.le v (.num chunk.length) = true
/-- Flatten a list of header pairs into the parser's flat name/value list
(the shape `parseHeader` always produces). -/
def flatPairs (hs : List (Str × Str)) : List Str :=
  hs.bind (fun p => [p.1, p.2])
/-- The nonzero body-remaining invariant on the two counted body states. -/
def bodyInv (ps : PState) : Prop :=
  (ps.state = .BODY_CHUNK → ∃ q : ℚ, ps.bodyBytes = some (.num q) ∧ q ≠ 0) ∧
  (ps.state = .BODY_SIZED → ∃ v : JSNum, ps.bodyBytes = some v ∧ v ≠ .num 0)
/-- Feed a sequence of chunks to `execute` in order (the host keeps feeding
regardless of per-call return values, which the claim does not compare),
collecting all callbacks.  `fuel` bounds each call's loop; `none` means some
call's loop did not finish within it. -/
def executeSeq (cfg : Cfg) (fuel : ℕ) (ps : PState) : List Bytes → Option (PState × List Ev)
  | [] => some (ps, [])
  | c :: cs =>
    match execute cfg fuel ps c with
    | none => none
    | some (_, ps', evs) =>
      match executeSeq cfg fuel ps' cs with
      | none => none
      | some (ps'', evs') => some (ps'', evs ++ evs')
/-- Erase the header-size accounting — the only parser field whose final
value depends on how the input stream was cut into chunks (`execute` adds
the per-call cursor value to it at every call boundary). -/
def hsErase (ps : PState) : PState := { ps with headerSize := 0 }

/-- Override the header-size accounting field (what the `execute` epilogue
does between two calls). -/
def hsSet (ps : PState) (v : ℚ) : PState := { ps with headerSize := v }

/-- A callback normalised for comparison across partitions: `onBody`
arguments are replaced by the bytes `buffer.slice(start, start + len)`
delivers to the host; all other callbacks keep their argument values. -/
inductive NEv where
  | onHeaders (headers : List Str) (url : Str)
  | onHeadersComplete (versionMajor versionMinor : Option ℕ) (headers : List Str)
      (method : Option ℤ) (url : Option Str) (statusCode : Option ℕ)
      (statusMessage : Option Str) (upgrade : Bool) (shouldKeepAlive : Bool)
  | body (bytes : Bytes)
  | onMessageComplete
deriving DecidableEq, Repr

/-- The bytes a host reads from an `on_body(buffer, start, len)` callback. -/
def sliceArgs (buf : Bytes) (s l : JSNum) : Bytes :=
  match s, l with
  | .num sq, .num lq =>
    (buf.drop (clampIdx buf.length sq)).take (if lq ≤ 0 then 0 else lq.floor.toNat)
  | _, _ => []

/-- Normalise one callback. -/
def normEv : Ev → NEv
  | .onHeaders h u => .onHeaders h u
  | .onHeadersComplete a b c d e f g h i => .onHeadersComplete a b c d e f g h i
  | .onBody buf s l => .body (sliceArgs buf s l)
  | .onMessageComplete => .onMessageComplete

/-- Concatenate adjacent body deliveries: the partition of a message body
into `on_body` calls is an artifact of the input chunking. -/
def mergeBodies : List NEv → List NEv
  | [] => []
  | .body b :: rest =>
    match mergeBodies rest with
    | .body b2 :: r2 => .body (b ++ b2) :: r2
    | r => .body b :: r
  | e :: rest => e :: mergeBodies rest

/-- A benign declared body size: absent, or a nonnegative integer.  Hostile
`Content-Length` or chunk-size values (negative, fractional, NaN) drive the
cursor out of range and genuinely break partition invariance. -/
def goodBBb : Option JSNum → Bool
  | none => true
  | some (.num q) => decide (0 ≤ q) && decide (q.den = 1)
  | some _ => false

/-- The run of `execute`'s loop from machine state `m` is benign: the loop
guard fails within the fuel, every handler step falls through (no thrown
`ParseError`, no `TypeError`, no upgrade/skip-body break — all of which
strand the rest of the current chunk and so genuinely depend on the
partition), and the declared body size is benign after every step. -/
def goodRun (cfg : Cfg) (chunk : Bytes) : ℕ → M → Bool
  | 0, _ => false
  | f + 1, m =>
    if JSNum.lt m.offset (.num chunk.length) then
      match stepState cfg chunk m with
      | (m', _, .next) => goodBBb m'.ps.bodyBytes && goodRun cfg chunk f m'
      | _ => false
    else true

/-- The part of `REQUEST_LINE` that runs once `consumeLine` yields a line. -/
def RL_post (line : Str) (m : M) : M × List Ev × Ctl :=
  if line.isEmpty then (m, [], .next) else
  match reqMatch line with
  | none => (m, [], .err .HPE_INVALID_CONSTANT)
  | some (meth, url, d1, d2) =>
    let idx : ℤ := match methods.findIdx? (fun x => x == meth) with
      | some i => (i : ℤ)
      | none => -1
    let m1 := { m with ps := { m.ps with info := { m.ps.info with method := some idx } } }
    if idx = -1 then (m1, [], .err .HPE_INVALID_METHOD)
    else
      let ps := m1.ps
      let ps := { ps with
        info := { ps.info with url := some url, versionMajor := some d1, versionMinor := some d2 }
        bodyBytes := some (.num 0)
        state := .HEADER }
      ({ m1 with ps := ps }, [], .next)

/-- The part of `RESPONSE_LINE` that runs once `consumeLine` yields a line. -/
def RESP_post (line : Str) (m : M) : M × List Ev × Ctl :=
  if line.isEmpty then (m, [], .next) else
  match respMatch line with
  | none => (m, [], .err .HPE_INVALID_CONSTANT)
  | some (d1, d2, status, reason) =>
    let ps := m.ps
    let ps := { ps with
      info := { ps.info with
        versionMajor := some d1
        versionMinor := some d2
        statusCode := some status
        statusMessage := some reason } }
    let ps := if status / 100 = 1 ∨ status = 204 ∨ status = 304 then
        { ps with bodyBytes := some (.num 0) }
      else ps
    ({ m with ps := { ps with state := .HEADER } }, [], .next)

/-- The part of `HEADER` that runs once `consumeLine` yields a line. -/
def HEADER_post (cfg : Cfg) (line : Str) (m : M) : M × List Ev × Ctl :=
  if line.length > 0 then
    match parseHeader line m.ps.info.headers with
    | .error c => (m, [], .err c)
    | .ok hs =>
      ({ m with ps := { m.ps with info := { m.ps.info with headers := hs } } }, [], .next)
  else
    match headersComplete cfg m.ps with
    | (ps2, evs, ctl) => ({ m with ps := ps2 }, evs, ctl)

/-- The part of `BODY_CHUNKHEAD` that runs once `consumeLine` yields a
line. -/
def CHUNKHEAD_post (line : Str) (m : M) : M × List Ev × Ctl :=
  let bb := parseIntHex line
  let ps := { m.ps with bodyBytes := some bb }
  if bb = .nan then ({ m with ps := ps }, [], .err .HPE_INVALID_CHUNK_SIZE)
  else if JSNum.seq bb (.num 0) then
    ({ m with ps := { ps with state := .BODY_CHUNKTRAILERS } }, [], .next)
  else
    ({ m with ps := { ps with state := .BODY_CHUNK } }, [], .next)

/-- The part of `BODY_CHUNKEND` that runs once `consumeLine` yields a
line. -/
def CHUNKEND_post (line : Str) (m : M) : M × List Ev × Ctl :=
  if line.length ≠ 0 then (m, [], .err .HPE_STRICT)
  else ({ m with ps := { m.ps with state := .BODY_CHUNKHEAD } }, [], .next)

/-- The part of `BODY_CHUNKTRAILERS` that runs once `consumeLine` yields a
line. -/
def TRAILERS_post (line : Str) (m : M) : M × List Ev × Ctl :=
  if line.length > 0 then
    match parseHeader line m.ps.info.trailers with
    | .error c => (m, [], .err c)
    | .ok ts =>
      ({ m with ps := { m.ps with info := { m.ps.info with trailers := ts } } }, [], .next)
  else
    let evs := if m.ps.info.trailers.length > 0 then
        [Ev.onHeaders m.ps.info.trailers []]
      else []
    let (ps2, ev2) := nextRequest m.ps
    ({ m with ps := ps2 }, evs ++ ev2, .next)

/-- A line-handler tail is oblivious to the header-size field and to the
cursor: it passes the cursor through unchanged, and runs on a state whose
header size was overridden it produces the same callbacks and control with
a state equal up to the header size. -/
def PostOk (post : Str → M → M × List Ev × Ctl) : Prop :=
  ∀ (line : Str) (ps : PState) (v : ℚ) (o1 o2 : JSNum), ∃ ps1 ps2 evs ctl,
    post line ⟨ps, o2⟩ = (⟨ps2, o2⟩, evs, ctl) ∧
    post line ⟨hsSet ps v, o1⟩ = (⟨ps1, o1⟩, evs, ctl) ∧
    hsErase ps1 = hsErase ps2
/-- Strip one trailing CR, as `consumeLine` does before delivering a line. -/
def crStrip (l : Str) : Str := if l.getLast? = some 13 then l.dropLast else l

end HttpTs

namespace HttpTs

/-- C2: the code computes `should_keep_alive = false` for the minimal
HTTP/1.1 GET with no `Connection` header — `connection?.indexOf('close')
!== -1` evaluates to `undefined !== -1`, which is true.  The same run also
shows all other callback argument values of `on_headers_complete`.  The
second conjunct shows the converse inversion: an HTTP/1.0 request with no
`Connection` header gets `should_keep_alive = true`. -/
theorem C2_keepalive_inverted_eval :
    (execute cfg0 50 (freshParser .request) (js "GET / HTTP/1.1\r\nHost: x\r\n\r\n")).map
        (fun r => r.2.2) =
      some [Ev.onHeadersComplete (some 1) (some 1) [js "Host", js "x"] (some 1)
              (some (js "/")) none none false false,
            Ev.onMessageComplete] ∧
    (execute cfg0 50 (freshParser .request) (js "GET / HTTP/1.0\r\n\r\n")).map
        (fun r => r.2.2) =
      some [Ev.onHeadersComplete (some 1) (some 0) [] (some 1)
              (some (js "/")) none none false true,
            Ev.onMessageComplete] := by
  constructor <;> with_unfolding_all decide

/-- C3: a message with an `Upgrade` header but no `Connection` header makes
`execute` rethrow the `TypeError` raised by
`this.info.connection!.indexOf('upgrade')` — an exception does propagate
across the API boundary. -/
theorem C3_upgrade_without_connection_throws :
    (execute cfg0 50 (freshParser .request) (js "GET / HTTP/1.1\r\nUpgrade: ws\r\n\r\n")).map
      (fun r => r.1) = some .thrown := by with_unfolding_all decide

/-- C4 counterexample: after an error (`hadError = true`, state still
`REQUEST_LINE`), a further `execute` call is not a noop — it runs the state
handler, consumes 16 bytes and moves the parser to `HEADER`. -/
theorem C4_counterexample :
    ((execute cfg0 50 (freshParser .request) (js "bad\r\n")).bind (fun r =>
        (execute cfg0 50 r.2.1 (js "GET / HTTP/1.1\r\n")).map (fun r2 =>
          (r.2.1.hadError, r.2.1.state, r2.1, r2.2.1.state)))) =
      some (true, .REQUEST_LINE, .consumed (.num 16), .HEADER) ∧
    SName.HEADER ≠ SName.REQUEST_LINE := by
  constructor
  · with_unfolding_all decide
  · with_unfolding_all decide

/-- C5 counterexample: with the configurable `maxHeaderSize` set to 8, a
16-byte request line makes `execute` return `HPE_HEADER_OVERFLOW`, but that
return path never sets `hadError`, so a subsequent `finish` is not a noop
(it returns `HPE_INVALID_EOF_STATE`). -/
theorem C5_counterexample :
    (execute { maxHeaderSize := 8, directive := .num 0 } 50 (freshParser .request)
        (js "GET / HTTP/1.1\r\n")).map
      (fun r => (r.1, r.2.1.hadError, finish r.2.1)) =
    some (.parseError .HPE_HEADER_OVERFLOW, false, (some .HPE_INVALID_EOF_STATE, [])) := by
  with_unfolding_all decide

/-- C6 counterexample: `Content-Length: -1` leaves a completed-headers
parser in state `BODY_SIZED` with `body_remaining = -1`, which is not
strictly greater than zero. -/
theorem C6_counterexample :
    (execute cfg0 50 (freshParser .request)
        (js "POST / HTTP/1.1\r\nContent-Length: -1\r\n\r\n")).map
      (fun r => (r.2.1.state, r.2.1.bodyBytes)) =
      some (.BODY_SIZED, some (.num (-1))) ∧ ¬((0 : ℚ) < -1) := by
  constructor
  · with_unfolding_all decide
  · with_unfolding_all decide

/-- C7 counterexample: a non-numeric `Content-Length` drives the cursor to
NaN, and `execute` returns NaN — a number that is not at most the chunk
length (NaN compares false). -/
theorem C7_counterexample :
    (execute cfg0 50 (freshParser .request)
        (js "POST / HTTP/1.1\r\nContent-Length: x\r\n\r\nB")).map (fun r => r.1) =
      some (.consumed .nan) ∧
    JSNum.le .nan (.num (js "POST / HTTP/1.1\r\nContent-Length: x\r\n\r\nB").length) = false := by
  constructor
  · with_unfolding_all decide
  · with_unfolding_all decide

/-- C8 counterexample: two `Content-Length: 5` headers carry the same value
and the message is accepted, but because `Transfer-Encoding: chunked` is
also present the conflict rule clears `body_remaining` to `null` instead of
5. -/
theorem C8_counterexample :
    (execute cfg0 80 (freshParser .request)
        (js "POST / HTTP/1.1\r\nTransfer-Encoding: chunked\r\nContent-Length: 5\r\nContent-Length: 5\r\n\r\n")).map
      (fun r => ((match r.1 with | .parseError _ => true | _ => false), r.2.1.bodyBytes)) =
      some (false, none) ∧ (none : Option JSNum) ≠ some (.num 5) := by
  constructor
  · with_unfolding_all decide
  · with_unfolding_all decide

/-- C9 counterexample: the request line `FOO /` has a first token built only
from `A`–`Z` that is not in the method table, yet the error is
`HPE_INVALID_CONSTANT`, not `HPE_INVALID_METHOD` (the line as a whole fails
the request-line grammar first). -/
theorem C9_counterexample :
    (execute cfg0 50 (freshParser .request) (js "FOO /\r\n")).map (fun r => r.1) =
      some (.parseError .HPE_INVALID_CONSTANT) ∧
    (∀ c ∈ js "FOO", isMethTok c) ∧ js "FOO" ∉ methods := by
  refine ⟨by with_unfolding_all decide, by with_unfolding_all decide, by with_unfolding_all decide⟩

/-- C10 counterexample: a continuation line containing a stray CR, received
while the headers list is still empty, is not silently discarded — it
raises `HPE_LF_EXPECTED` (reached here from a fresh parser via the request
line). -/
theorem C10_counterexample :
    ((execute cfg0 50 (freshParser .request) (js "GET / HTTP/1.1\r\n")).bind (fun r =>
        (execute cfg0 50 r.2.1 (js " a\rb\r\n")).map (fun r2 =>
          (r.2.1.state, r.2.1.info.headers, r2.1)))) =
      some (.HEADER, [], .parseError .HPE_LF_EXPECTED) := by
  with_unfolding_all decide

/-- C4 (amended): a parser with `hadError = true` is a fixed point of
`finish`, which returns immediately: no error value, no callbacks, and
`finish` never mutates the instance.  (`execute`, by contrast, has no
`hadError` guard at all — see the counterexample.) -/
theorem C4_amended (ps : PState) (h : ps.hadError = true) : finish ps = (none, []) := by
  simp [finish, h]

/-- Concrete instance of `C4_amended` at a parser with the error flag set. -/
theorem C4_amended_witness :
    ({ freshParser .request with hadError := true } : PState).hadError = true ∧
      finish { freshParser .request with hadError := true } = (none, []) :=
  ⟨rfl, C4_amended _ rfl⟩

/-- Helper: `finish` short-circuits on the sticky error flag. -/
theorem finish_noop_of_hadError (ps : PState) (h : ps.hadError = true) :
    finish ps = (none, []) := by
  simp [finish, h]

/-- C5 (amended): every `ParseError` that `execute` returns from the
handler-thrown path — that is, with any code other than
`HPE_HEADER_OVERFLOW`, which is produced only by the post-loop return that
skips the flag — leaves `hadError = true`, so a subsequent `finish` is a
noop. -/
theorem C5_amended (cfg : Cfg) (fuel : ℕ) (ps : PState) (chunk : Bytes) (c : ECode)
    (ps' : PState) (evs : List Ev)
    (h : execute cfg fuel ps chunk = some (.parseError c, ps', evs))
    (hc : c ≠ .HPE_HEADER_OVERFLOW) :
    ps'.hadError = true ∧ finish ps' = (none, []) := by
  have hh : ps'.hadError = true := by
    unfold execute at h
    rcases hr : runLoop cfg chunk fuel { ps := ps, offset := .num 0 } with ⟨m', evs0, x⟩
    rw [hr] at h
    cases x with
    | fuelOut => simp at h
    | errored c2 =>
      simp only [Option.some.injEq, Prod.mk.injEq] at h
      rcases h with ⟨-, h2, -⟩
      rw [← h2]
    | crashed => simp at h
    | done =>
      simp only at h
      split at h
      · split at h
        · simp only [Option.some.injEq, Prod.mk.injEq] at h
          exact absurd (ExecResult.parseError.inj h.1).symm hc
        · simp at h
      · simp at h
  exact ⟨hh, finish_noop_of_hadError ps' hh⟩

/-- Concrete instance of `C5_amended`: a request line that is not a valid
constant leaves the flag set and `finish` nooping. -/
theorem C5_amended_witness :
    ({ freshParser .request with hadError := true } : PState).hadError = true ∧
      finish { freshParser .request with hadError := true } = (none, []) ∧
      ECode.HPE_INVALID_CONSTANT ≠ ECode.HPE_HEADER_OVERFLOW :=
  have h : execute cfg0 2 (freshParser .request) (js "bad\r\n") =
      some (.parseError .HPE_INVALID_CONSTANT, { freshParser .request with hadError := true }, []) := by
    with_unfolding_all decide
  ⟨(C5_amended cfg0 2 (freshParser .request) (js "bad\r\n") .HPE_INVALID_CONSTANT
      { freshParser .request with hadError := true } [] h (by decide)).1,
   (C5_amended cfg0 2 (freshParser .request) (js "bad\r\n") .HPE_INVALID_CONSTANT
      { freshParser .request with hadError := true } [] h (by decide)).2,
   by decide⟩

end HttpTs

namespace HttpTs

/-- An LF found by `findLF` lies inside the chunk. -/
theorem findLF_lt (chunk : Bytes) (off : ℚ) (i : ℕ) (h : findLF chunk off = some i) :
    i < chunk.length := by
  unfold findLF at h
  split at h
  · rcases hfi : (chunk.drop (if off ≤ 0 then 0 else off.floor.toNat)).findIdx?
        (fun b => b == 10) with _ | k
    · rw [hfi] at h; simp at h
    · rw [hfi] at h
      simp only [Option.map_some', Option.some.injEq] at h
      obtain ⟨hk, -, -⟩ := List.findIdx?_eq_some_iff_getElem.mp hfi
      rw [List.length_drop] at hk
      omega
  · simp at h

/-- After `consumeLine` the cursor is a natural number at most the chunk
length. -/
theorem consumeLine_offset_le (chunk : Bytes) (m : M) :
    ∃ k : ℕ, (consumeLine chunk m).2.offset = .num k ∧ k ≤ chunk.length := by
  rcases ho : m.offset with q | _ | _ | _
  case num =>
    rcases hf : findLF chunk q with _ | i
    · exact ⟨chunk.length, by simp [consumeLine, ho, hf], le_refl _⟩
    · exact ⟨i + 1, by simp [consumeLine, ho, hf], findLF_lt chunk q i hf⟩
  all_goals exact ⟨chunk.length, by simp [consumeLine, ho], le_refl _⟩

/-- The cursor value after the body-consumption arithmetic
`offset + Math.min(length - offset, b0)` is NaN or at most the length. -/
theorem bodyAdvance_le (len : ℕ) (off b0 : JSNum) :
    JSNum.add off (JSNum.min (JSNum.sub (.num len) off) b0) = .nan ∨
      JSNum.le (JSNum.add off (JSNum.min (JSNum.sub (.num len) off) b0)) (.num len) = true := by
  cases off <;> cases b0 <;>
    first
      | (left; rfl)
      | (right; rfl)
      | (right
         rename_i q b
         simp only [JSNum.sub, JSNum.min, JSNum.add, JSNum.le, decide_eq_true_iff]
         have h := min_le_left ((len : ℚ) - q) b
         linarith)
      | (right
         rename_i q
         simp only [JSNum.sub, JSNum.min, JSNum.add, JSNum.le, decide_eq_true_iff]
         linarith)


/-- The line-based handlers do not move the cursor beyond `consumeLine`. -/
theorem lineHandler_offset (cfg : Cfg) (chunk : Bytes) (m : M) :
    (REQUEST_LINE chunk m).1.offset = (consumeLine chunk m).2.offset ∧
    (RESPONSE_LINE chunk m).1.offset = (consumeLine chunk m).2.offset ∧
    (HEADER cfg chunk m).1.offset = (consumeLine chunk m).2.offset ∧
    (BODY_CHUNKHEAD chunk m).1.offset = (consumeLine chunk m).2.offset ∧
    (BODY_CHUNKEND chunk m).1.offset = (consumeLine chunk m).2.offset ∧
    (BODY_CHUNKTRAILERS chunk m).1.offset = (consumeLine chunk m).2.offset := by
  rcases hc : consumeLine chunk m with ⟨lo, m2⟩
  refine ⟨?_, ?_, ?_, ?_, ?_, ?_⟩ <;>
    (simp only [REQUEST_LINE, RESPONSE_LINE, HEADER, BODY_CHUNKHEAD, BODY_CHUNKEND,
      BODY_CHUNKTRAILERS, hc]) <;>
    (cases lo <;> dsimp only <;> repeat' first | rfl | split)

/-- Every handler leaves the cursor in bounds or NaN. -/
theorem stepState_offOk (cfg : Cfg) (chunk : Bytes) (m : M) :
    offOk chunk (stepState cfg chunk m).1.offset := by
  obtain ⟨h1, h2, h3, h4, h5, h6⟩ := lineHandler_offset cfg chunk m
  obtain ⟨k, hk, hkl⟩ := consumeLine_offset_le chunk m
  have hline : offOk chunk (consumeLine chunk m).2.offset := by
    right
    rw [hk]
    simp only [JSNum.le, decide_eq_true_iff]
    exact_mod_cast hkl
  unfold stepState
  cases hs : m.ps.state
  case REQUEST_LINE => rw [h1]; exact hline
  case RESPONSE_LINE => rw [h2]; exact hline
  case HEADER => rw [h3]; exact hline
  case BODY_CHUNKHEAD => rw [h4]; exact hline
  case BODY_CHUNKEND => rw [h5]; exact hline
  case BODY_CHUNKTRAILERS => rw [h6]; exact hline
  case BODY_CHUNK =>
    unfold BODY_CHUNK
    dsimp only
    first
      | exact bodyAdvance_le chunk.length m.offset (m.ps.bodyBytes.getD (.num 0))
      | (split <;> exact bodyAdvance_le chunk.length m.offset (m.ps.bodyBytes.getD (.num 0)))
  case BODY_SIZED =>
    unfold BODY_SIZED
    dsimp only
    first
      | exact bodyAdvance_le chunk.length m.offset (m.ps.bodyBytes.getD (.num 0))
      | (split <;> exact bodyAdvance_le chunk.length m.offset (m.ps.bodyBytes.getD (.num 0)))
  case BODY_RAW =>
    unfold BODY_RAW
    right; simp [JSNum.le]

/-- The loop preserves the cursor bound. -/
theorem runLoop_offOk (cfg : Cfg) (chunk : Bytes) :
    ∀ (f : ℕ) (m : M), offOk chunk m.offset →
      offOk chunk ((runLoop cfg chunk f m).1.offset) := by
  intro f
  induction f with
  | zero => intro m hm; exact hm
  | succ f ih =>
    intro m hm
    unfold runLoop
    split
    · rcases hs : stepState cfg chunk m with ⟨m', evs, ctl⟩
      have hst : offOk chunk m'.offset := by
        have := stepState_offOk cfg chunk m
        rw [hs] at this
        exact this
      cases ctl <;> dsimp only
      case next => exact ih m' hst
      all_goals exact hst
    · exact hm
end HttpTs

namespace HttpTs

/-- C7 (amended): whenever `execute` returns a number that is not NaN, that
number is at most the length of the chunk passed in, for every
configuration, fuel, parser state and chunk. -/
theorem C7_amended (cfg : Cfg) (fuel : ℕ) (ps : PState) (chunk : Bytes) (q : ℚ)
    (ps' : PState) (evs : List Ev)
    (h : execute cfg fuel ps chunk = some (.consumed (.num q), ps', evs)) :
    q ≤ (chunk.length : ℚ) := by
  unfold execute at h
  rcases hr : runLoop cfg chunk fuel { ps := ps, offset := .num 0 } with ⟨m', evs0, x⟩
  have hOk : offOk chunk m'.offset := by
    have h0 : offOk chunk (JSNum.num 0) := by
      right
      simp [JSNum.le, decide_eq_true_iff]
    have hh := runLoop_offOk cfg chunk fuel { ps := ps, offset := .num 0 } h0
    rw [hr] at hh
    exact hh
  rw [hr] at h
  cases x with
  | fuelOut => simp at h
  | errored c => simp at h
  | crashed => simp at h
  | done =>
    simp only at h
    have hoff : m'.offset = .num q := by
      split at h
      · split at h
        · simp at h
        · simp only [Option.some.injEq, Prod.mk.injEq, ExecResult.consumed.injEq] at h
          exact h.1
      · simp only [Option.some.injEq, Prod.mk.injEq, ExecResult.consumed.injEq] at h
        exact h.1
    rw [hoff] at hOk
    rcases hOk with h1 | h1
    · exact absurd h1 (by simp)
    · simpa [JSNum.le, decide_eq_true_iff] using h1

/-- Concrete instance of `C7_amended`: the minimal GET consumes 27 bytes of
its 27-byte chunk. -/
theorem C7_amended_witness :
    (27 : ℚ) ≤ ((js "GET / HTTP/1.1\r\nHost: x\r\n\r\n").length : ℚ) := by
  have h : execute cfg0 50 (freshParser .request) (js "GET / HTTP/1.1\r\nHost: x\r\n\r\n") =
      some (.consumed (.num 27), { freshParser .request with headerSize := 27 },
        [Ev.onHeadersComplete (some 1) (some 1) [js "Host", js "x"] (some 1) (some (js "/"))
           none none false false,
         Ev.onMessageComplete]) := by
    with_unfolding_all decide
  exact C7_amended cfg0 50 (freshParser .request) _ 27 _ _ h

end HttpTs

namespace HttpTs

/-- The first LF of `L ++ [10]` with `10 ∉ L` sits right after `L`. -/
theorem findLF_append_lf (L : Bytes) (hlf : 10 ∉ L) :
    findLF (L ++ [10]) 0 = some L.length := by
  have hnone : L.findIdx? (fun b => b == 10) = none := by
    rw [List.findIdx?_eq_none_iff]
    intro x hx
    simp only [beq_eq_false_iff_ne, ne_eq]
    exact fun hx10 => hlf (hx10 ▸ hx)
  simp only [findLF, List.findIdx?_append, hnone, List.findIdx?, List.drop_zero]
  norm_num
  right
  intro x hx hx10
  exact hlf (hx10 ▸ hx)

/-- Decoding an all-ASCII window is the identity. -/
theorem asciiSliceNat_id (L R : Bytes) (hascii : ∀ c ∈ L, c < 128) :
    asciiSliceNat (L ++ R) 0 L.length = L := by
  unfold asciiSliceNat
  rw [List.drop_zero, Nat.sub_zero, List.take_left]
  have hid : ∀ c ∈ L, asciiByte c = id c := fun c hc => by
    simpa [asciiByte] using Nat.mod_eq_of_lt (hascii c hc)
  rw [List.map_congr_left hid]
  exact List.map_id L

/-- `consumeLine` on a fresh cursor over `L ++ [10]`, where `L` is ASCII,
LF-free and does not end in CR, returns exactly `L` and consumes the whole
chunk. -/
theorem consumeLine_single (ps : PState) (L : Bytes) (hcarry : ps.line = [])
    (hascii : ∀ c ∈ L, c < 128) (hlf : 10 ∉ L) (hlast : L.getLast? ≠ some 13) :
    consumeLine (L ++ [10]) { ps := ps, offset := .num 0 } =
      (some L, { ps := { ps with line := [] }, offset := .num (L.length + 1) }) := by
  unfold consumeLine
  simp only [findLF_append_lf L hlf]
  have hclamp : clampIdx (L ++ [10]).length (0 : ℚ) = 0 := by
    simp [clampIdx]
  rw [hclamp, hcarry]
  simp only [List.nil_append, asciiSliceNat_id L [10] hascii]
  rw [if_neg (by simp [hlast])]

end HttpTs

namespace HttpTs

/-- One unfolding of the `execute` loop. -/
theorem runLoop_succ (cfg : Cfg) (chunk : Bytes) (f : ℕ) (m : M) :
    runLoop cfg chunk (f + 1) m =
      if JSNum.lt m.offset (.num chunk.length) then
        match stepState cfg chunk m with
        | (m', evs, .next) =>
          let (m2, evs2, x) := runLoop cfg chunk f m'
          (m2, evs ++ evs2, x)
        | (m', evs, .brk) => (m', evs, .done)
        | (m', evs, .err c) => (m', evs, .errored c)
        | (m', evs, .crash) => (m', evs, .crashed)
      else (m, [], .done) := rfl

/-- A CR-free line starting with space or tab and an empty headers list make
`parseHeader` a no-op. -/
theorem parseHeader_cont_empty (L : Str) (hne : L ≠ [])
    (hws : L.head? = some 32 ∨ L.head? = some 9) (hcr : 13 ∉ L) :
    parseHeader L [] = .ok [] := by
  cases L with
  | nil => exact absurd rfl hne
  | cons c t =>
    have hc : (c == 58 || isHWs c) = true := by
      rcases hws with h | h <;>
        · simp only [List.head?_cons, Option.some.injEq] at h
          subst h
          simp [isHWs]
    have hfi : (c :: t).findIdx? (fun x => x == 58 || isHWs x) = some 0 := by
      rw [List.findIdx?_cons, hc]
      rfl
    have hcontains : (c :: t).contains 13 = false := by
      simpa using hcr
    unfold parseHeader headerMatch
    rw [hcontains, hfi]
    simp only [Bool.false_eq_true, if_false, Nat.not_succ_le_zero, and_false, if_neg,
      not_false_eq_true]
    cases contMatch (c :: t) <;> simp

/-- C10 (amended): a continuation line containing no CR, received when the
headers list is still empty, is silently discarded — headers stay empty, no
error or callback occurs, the whole line is consumed and the parser remains
in the `HEADER` state (provided the line fits under the header-size cap). -/
theorem C10_amended (cfg : Cfg) (ps : PState) (L : Bytes)
    (hstate : ps.state = .HEADER) (hhdr : ps.info.headers = [])
    (hcarry : ps.line = []) (hne : L ≠ [])
    (hws : L.head? = some 32 ∨ L.head? = some 9)
    (hascii : ∀ c ∈ L, c < 128) (hlf : 10 ∉ L) (hcr : 13 ∉ L)
    (hsize : ps.headerSize + ((L.length : ℚ) + 1) ≤ cfg.maxHeaderSize) :
    ∃ ps', execute cfg 2 ps (L ++ [10]) =
        some (.consumed (.num (L.length + 1)), ps', []) ∧
      ps'.state = .HEADER ∧ ps'.info.headers = [] := by
  have hlast : L.getLast? ≠ some 13 := fun h => hcr (List.mem_of_mem_getLast? h)
  have hcl := consumeLine_single ps L hcarry hascii hlf hlast
  have hph : parseHeader L ps.info.headers = .ok ps.info.headers := by
    rw [hhdr]
    exact parseHeader_cont_empty L hne hws hcr
  have hlen : (L ++ [10]).length = L.length + 1 := by simp
  have hH : HEADER cfg (L ++ [10]) { ps := ps, offset := .num 0 } =
      ({ ps := { ps with line := [] }, offset := .num (L.length + 1) }, [], .next) := by
    unfold HEADER
    rw [hcl]
    dsimp only
    rw [if_pos (by simpa using List.length_pos.mpr hne)]
    rw [hph]
  have hdispatch : stepState cfg (L ++ [10]) { ps := ps, offset := .num 0 } =
      HEADER cfg (L ++ [10]) { ps := ps, offset := .num 0 } := by
    unfold stepState
    rw [hstate]
  have hstep : stepState cfg (L ++ [10]) { ps := ps, offset := .num 0 } =
      ({ ps := { ps with line := [] }, offset := .num (L.length + 1) }, [], .next) :=
    hdispatch.trans hH
  have hguard1 : JSNum.lt (.num 0) (.num (L ++ [10]).length) = true := by
    simp only [JSNum.lt, hlen, decide_eq_true_iff]
    exact_mod_cast Nat.succ_pos L.length
  have hguard2 : JSNum.lt (.num (L.length + 1)) (.num (L ++ [10]).length) = false := by
    simp [JSNum.lt, hlen]
  have hloop : runLoop cfg (L ++ [10]) 2 { ps := ps, offset := .num 0 } =
      ({ ps := { ps with line := [] }, offset := .num (L.length + 1) }, [], .done) := by
    rw [show (2 : ℕ) = 1 + 1 from rfl, runLoop_succ]
    rw [hguard1]
    simp only [eq_self_iff_true, if_true]
    rw [hstep]
    dsimp only
    rw [show (1 : ℕ) = 0 + 1 from rfl, runLoop_succ]
    rw [hguard2]
    simp
  refine ⟨{ ps with line := [], headerSize := ps.headerSize + ((L.length : ℚ) + 1) }, ?_, by rw [hstate], by rw [hhdr]⟩
  unfold execute
  rw [hloop]
  simp only
  rw [if_pos (by rw [hstate]; simp [HEADER_STATES])]
  rw [if_neg (by push_cast; exact not_lt.mpr (by push_cast at hsize; linarith))]

end HttpTs

namespace HttpTs

/-- `takeWhile` cuts exactly at the first failing element. -/
theorem takeWhile_append_cons (q : ℕ → Bool) (xs : List ℕ) (y : ℕ) (ys : List ℕ)
    (hxs : ∀ c ∈ xs, q c = true) (hy : q y = false) :
    (xs ++ y :: ys).takeWhile q = xs := by
  induction xs with
  | nil => simp [List.takeWhile_cons, hy]
  | cons a t ih =>
    simp only [List.cons_append, List.takeWhile_cons, hxs a (List.mem_cons_self a t), if_true]
    rw [ih (fun c hc => hxs c (List.mem_cons_of_mem a hc))]

/-- Dropping the `takeWhile` length is `dropWhile`. -/
theorem drop_length_takeWhile (p : ℕ → Bool) (l : List ℕ) :
    l.drop (l.takeWhile p).length = l.dropWhile p := by
  induction l with
  | nil => rfl
  | cons a t ih =>
    by_cases hp : p a
    · simp [List.takeWhile_cons, List.dropWhile_cons, hp, ih]
    · simp [List.takeWhile_cons, List.dropWhile_cons, hp]

/-- If the first space-delimited token of a request line contains any
character outside `[A-Z-]`, the request-line regex cannot match. -/
theorem reqMatch_none_of_bad_token (L : Bytes)
    (h : ∃ c ∈ L.takeWhile (fun c => !(c == 32)), isMethTok c = false) :
    reqMatch L = none := by
  obtain ⟨c0, hc0mem, hc0bad⟩ := h
  rcases hD : L.drop (L.takeWhile isMethTok).length with _ | ⟨d, r⟩
  · unfold reqMatch
    dsimp only
    rw [hD]
  · by_cases hd32 : d = 32
    · exfalso
      subst hd32
      have hdw : L.dropWhile isMethTok = 32 :: r := by
        rw [← drop_length_takeWhile isMethTok L]
        exact hD
      have hL : L.takeWhile isMethTok ++ 32 :: r = L := by
        rw [← hdw]
        exact List.takeWhile_append_dropWhile isMethTok L
      have hQ : L.takeWhile (fun c => !(c == 32)) = L.takeWhile isMethTok := by
        conv_lhs => rw [← hL]
        refine takeWhile_append_cons _ _ _ _ (fun c hc => ?_) (by decide)
        have h1 := List.mem_takeWhile_imp hc
        have h32 : c ≠ 32 := by
          intro hc32
          rw [hc32] at h1
          exact absurd h1 (by decide)
        simpa using h32
      rw [hQ] at hc0mem
      have := List.mem_takeWhile_imp hc0mem
      rw [hc0bad] at this
      exact absurd this (by decide)
    · unfold reqMatch
      dsimp only
      rw [hD]
      split
      · rename_i heq
        exact absurd (List.cons.inj heq).1 hd32
      · rfl

end HttpTs

namespace HttpTs

/-- An `execute` call whose first handler step throws a `ParseError`
returns it with the sticky flag set. -/
theorem execute_err_of_step (cfg : Cfg) (ps : PState) (chunk : Bytes) (m2 : M)
    (evs : List Ev) (c : ECode) (f : ℕ)
    (hguard : JSNum.lt (.num 0) (.num chunk.length) = true)
    (hstep : stepState cfg chunk { ps := ps, offset := .num 0 } = (m2, evs, .err c)) :
    execute cfg (f + 1) ps chunk = some (.parseError c, { m2.ps with hadError := true }, evs) := by
  unfold execute
  rw [runLoop_succ, hguard]
  simp only [eq_self_iff_true, if_true]
  rw [hstep]

/-- C9 (amended): for a request line fed as one chunk, a line matching the
grammar `METHOD SP TARGET SP HTTP/d.d` whose method token is not in the
method table yields `HPE_INVALID_METHOD`, while any line whose first
space-delimited token contains a character outside `A`–`Z`, `-` yields
`HPE_INVALID_CONSTANT` (the grammar cannot match), never
`HPE_INVALID_METHOD`. -/
theorem C9_amended (cfg : Cfg) (ps : PState) (L : Bytes)
    (hstate : ps.state = .REQUEST_LINE) (hcarry : ps.line = [])
    (hascii : ∀ c ∈ L, c < 128) (hlf : 10 ∉ L) (hlast : L.getLast? ≠ some 13) :
    (∀ meth tgt d1 d2, reqMatch L = some (meth, tgt, d1, d2) → meth ∉ methods →
      ∃ ps' evs, execute cfg 2 ps (L ++ [10]) =
        some (.parseError .HPE_INVALID_METHOD, ps', evs)) ∧
    ((∃ c ∈ L.takeWhile (fun c => !(c == 32)), isMethTok c = false) →
      ∃ ps' evs, execute cfg 2 ps (L ++ [10]) =
        some (.parseError .HPE_INVALID_CONSTANT, ps', evs)) := by
  have hcl := consumeLine_single ps L hcarry hascii hlf hlast
  have hguard : JSNum.lt (.num 0) (.num (L ++ [10]).length) = true := by
    simp only [JSNum.lt, List.length_append, List.length_singleton, decide_eq_true_iff]
    push_cast
    positivity
  have hdispatch : stepState cfg (L ++ [10]) { ps := ps, offset := .num 0 } =
      REQUEST_LINE (L ++ [10]) { ps := ps, offset := .num 0 } := by
    unfold stepState
    rw [hstate]
  constructor
  · intro meth tgt d1 d2 hm hnot
    have hne : L ≠ [] := by
      rintro rfl
      rw [show reqMatch [] = none from rfl] at hm
      exact Option.noConfusion hm
    have hidx : methods.findIdx? (fun x => x == meth) = none := by
      rw [List.findIdx?_eq_none_iff]
      intro x hx
      simp only [beq_eq_false_iff_ne, ne_eq]
      exact fun he => hnot (he ▸ hx)
    have hRL : REQUEST_LINE (L ++ [10]) { ps := ps, offset := .num 0 } =
        ({ ps := { ps with line := [], info := { ps.info with method := some (-1) } },
           offset := .num (L.length + 1) }, [], .err .HPE_INVALID_METHOD) := by
      unfold REQUEST_LINE
      rw [hcl]
      dsimp only
      rw [if_neg (by simp [hne])]
      rw [hm]
      dsimp only
      rw [hidx]
      dsimp only
      rw [if_pos rfl]
    exact ⟨_, _, execute_err_of_step cfg ps _ _ _ _ 1 hguard (hdispatch.trans hRL)⟩
  · intro hbad
    have hne : L ≠ [] := by
      rintro rfl
      obtain ⟨c, hc, -⟩ := hbad
      simp at hc
    have hnm := reqMatch_none_of_bad_token L hbad
    have hRL : REQUEST_LINE (L ++ [10]) { ps := ps, offset := .num 0 } =
        ({ ps := { ps with line := [] }, offset := .num (L.length + 1) }, [],
          .err .HPE_INVALID_CONSTANT) := by
      unfold REQUEST_LINE
      rw [hcl]
      dsimp only
      rw [if_neg (by simp [hne])]
      rw [hnm]
    exact ⟨_, _, execute_err_of_step cfg ps _ _ _ _ 1 hguard (hdispatch.trans hRL)⟩

end HttpTs

namespace HttpTs

/-- Concrete instances of `C9_amended`: `FOO / HTTP/1.1` yields
`HPE_INVALID_METHOD`, `get / HTTP/1.1` yields `HPE_INVALID_CONSTANT`. -/
theorem C9_amended_witness :
    (∃ ps' evs, execute cfg0 2 (freshParser .request) (js "FOO / HTTP/1.1" ++ [10]) =
        some (.parseError .HPE_INVALID_METHOD, ps', evs)) ∧
    (∃ ps' evs, execute cfg0 2 (freshParser .request) (js "get / HTTP/1.1" ++ [10]) =
        some (.parseError .HPE_INVALID_CONSTANT, ps', evs)) :=
  ⟨(C9_amended cfg0 (freshParser .request) (js "FOO / HTTP/1.1") rfl rfl (by decide)
        (by decide) (by decide)).1
      (js "FOO") (js "/") 1 1 (by decide) (by decide),
   (C9_amended cfg0 (freshParser .request) (js "get / HTTP/1.1") rfl rfl (by decide)
        (by decide) (by decide)).2
      ⟨103, by decide, by decide⟩⟩

/-- Concrete instance of `C10_amended`: the continuation line `"  folded"`
arriving with empty headers is dropped without error. -/
theorem C10_amended_witness :
    ∃ ps', execute cfg0 2 { freshParser .request with state := .HEADER }
        (js "  folded" ++ [10]) =
        some (.consumed (.num ((js "  folded").length + 1)), ps', []) ∧
      ps'.state = .HEADER ∧ ps'.info.headers = [] :=
  C10_amended cfg0 { freshParser .request with state := .HEADER } (js "  folded") rfl rfl rfl
    (by decide) (Or.inl (by decide)) (by decide) (by decide) (by decide)
    (by with_unfolding_all decide)

end HttpTs

namespace HttpTs


/-- One scan step on a flattened pair. -/
theorem scanHeaders_cons_pair (p : Str × Str) (t : List (Str × Str)) (st : ScanSt) :
    scanHeaders (flatPairs (p :: t)) st =
      match scanOne st p.1 (some p.2) with
      | (st', .done) => scanHeaders (flatPairs t) st'
      | out => out := rfl

/-- A non-`Content-Length` header never fails the scan step and leaves the
`Content-Length` bookkeeping untouched. -/
theorem scanOne_nonCL (st : ScanSt) (n v : Str) (h : jsLower n ≠ js "content-length") :
    ∃ st', scanOne st n (some v) = (st', .done) ∧ st'.bodyBytes = st.bodyBytes ∧
      st'.hasContentLength = st.hasContentLength := by
  unfold scanOne
  dsimp only
  repeat' split
  all_goals try exact ⟨_, rfl, rfl, rfl⟩
  all_goals exact absurd ‹jsLower n = js "content-length"› h

/-- A first `Content-Length` header records its value. -/
theorem scanOne_CL_first (st : ScanSt) (n v : Str) (hCL : jsLower n = js "content-length")
    (hhas : st.hasContentLength = false) :
    scanOne st n (some v) =
      ({ st with hasContentLength := true, bodyBytes := some (toNumber v) }, .done) := by
  unfold scanOne
  dsimp only
  rw [if_neg (by rw [hCL]; decide), if_pos hCL]
  rw [if_neg (by rw [hhas]; simp)]

/-- A duplicate `Content-Length` whose value strict-equals the stored one is
accepted and re-stored. -/
theorem scanOne_CL_dup (st : ScanSt) (n v : Str) (b : JSNum)
    (hCL : jsLower n = js "content-length") (hb : st.bodyBytes = some b)
    (heq : JSNum.seq (toNumber v) b = true) :
    scanOne st n (some v) =
      ({ st with hasContentLength := true, bodyBytes := some (toNumber v) }, .done) := by
  unfold scanOne
  dsimp only
  rw [if_neg (by rw [hCL]; decide), if_pos hCL]
  rw [if_neg (by rw [hb]; simp [heq])]

/-- A later `Content-Length` that differs from the stored value throws
`HPE_UNEXPECTED_CONTENT_LENGTH`. -/
theorem scanOne_CL_conflict (st : ScanSt) (n v : Str) (b : JSNum)
    (hCL : jsLower n = js "content-length") (hhas : st.hasContentLength = true)
    (hb : st.bodyBytes = some b) (hne : JSNum.seq (toNumber v) b = false) :
    scanOne st n (some v) = (st, .fail .HPE_UNEXPECTED_CONTENT_LENGTH) := by
  unfold scanOne
  dsimp only
  rw [if_neg (by rw [hCL]; decide), if_pos hCL]
  rw [if_pos (by rw [hb, hhas]; simp [hne])]

/-- All-equal `Content-Length` values thread through the scan. -/
theorem scanHeaders_all_eq (n : ℤ) :
    ∀ (hs : List (Str × Str)) (st : ScanSt),
      (∀ p ∈ hs, jsLower p.1 = js "content-length" → toNumber p.2 = .num n) →
      (st.hasContentLength = true → st.bodyBytes = some (.num n)) →
      ∃ st', scanHeaders (flatPairs hs) st = (st', .done) ∧
        st'.hasContentLength = (st.hasContentLength ||
          hs.any (fun p => jsLower p.1 == js "content-length")) ∧
        (st'.hasContentLength = true → st'.bodyBytes = some (.num n)) ∧
        (st'.hasContentLength = false → st'.bodyBytes = st.bodyBytes) := by
  intro hs
  induction hs with
  | nil =>
    intro st hvals hinv
    exact ⟨st, rfl, by simp, hinv, fun _ => rfl⟩
  | cons p t ih =>
    intro st hvals hinv
    rw [scanHeaders_cons_pair]
    by_cases hcl : jsLower p.1 = js "content-length"
    · have hv : toNumber p.2 = .num n := hvals p (List.mem_cons_self p t) hcl
      have hone : scanOne st p.1 (some p.2) =
          ({ st with hasContentLength := true, bodyBytes := some (toNumber p.2) }, .done) := by
        cases hhas : st.hasContentLength
        · exact scanOne_CL_first st p.1 p.2 hcl hhas
        · exact scanOne_CL_dup st p.1 p.2 (.num n) hcl (hinv hhas)
            (by rw [hv]; simp [JSNum.seq])
      rw [hone]
      obtain ⟨st', hscan, hhas', hbb', hbb2'⟩ := ih
        { st with hasContentLength := true, bodyBytes := some (toNumber p.2) }
        (fun q hq hql => hvals q (List.mem_cons_of_mem p hq) hql)
        (fun _ => by simp [hv])
      refine ⟨st', hscan, ?_, hbb', fun hf => absurd (hhas' ▸ hf) (by simp)⟩
      rw [hhas']
      simp [hcl]
    · obtain ⟨st2, hone, hbb, hhas⟩ := scanOne_nonCL st p.1 p.2 hcl
      rw [hone]
      obtain ⟨st', hscan, hhas', hbb', hbb2'⟩ := ih st2
        (fun q hq hql => hvals q (List.mem_cons_of_mem p hq) hql)
        (fun h => by rw [hbb]; exact hinv (hhas ▸ h))
      refine ⟨st', hscan, ?_, hbb', fun hf => (hbb2' hf).trans hbb⟩
      rw [hhas', hhas]
      have hf : (jsLower p.1 == js "content-length") = false := by
        rw [beq_eq_false_iff_ne]
        exact hcl
      simp [hf]

end HttpTs

namespace HttpTs

/-- Once an integer `Content-Length` is stored, a later differing integer
value makes the scan fail with `HPE_UNEXPECTED_CONTENT_LENGTH`. -/
theorem scanHeaders_conflict_from :
    ∀ (hs : List (Str × Str)) (st : ScanSt) (n0 : ℤ),
      (∀ p ∈ hs, jsLower p.1 = js "content-length" → ∃ k : ℤ, toNumber p.2 = .num k) →
      st.hasContentLength = true → st.bodyBytes = some (.num n0) →
      (∃ p ∈ hs, jsLower p.1 = js "content-length" ∧ toNumber p.2 ≠ .num n0) →
      ∃ st', scanHeaders (flatPairs hs) st = (st', .fail .HPE_UNEXPECTED_CONTENT_LENGTH) := by
  intro hs
  induction hs with
  | nil =>
    intro st n0 _ _ _ hdiff
    obtain ⟨p, hp, -⟩ := hdiff
    exact absurd hp (List.not_mem_nil p)
  | cons p t ih =>
    intro st n0 hints hhas hbb hdiff
    rw [scanHeaders_cons_pair]
    by_cases hcl : jsLower p.1 = js "content-length"
    · obtain ⟨k, hk⟩ := hints p (List.mem_cons_self p t) hcl
      by_cases hkn : toNumber p.2 = .num n0
      · have hone := scanOne_CL_dup st p.1 p.2 (.num n0) hcl hbb
          (by rw [hkn]; simp [JSNum.seq])
        rw [hone]
        refine ih _ n0 (fun q hq hql => hints q (List.mem_cons_of_mem p hq) hql) rfl
          (by simp [hkn]) ?_
        obtain ⟨q, hq, hqcl, hqne⟩ := hdiff
        rcases List.mem_cons.mp hq with rfl | hqt
        · exact absurd hkn hqne
        · exact ⟨q, hqt, hqcl, hqne⟩
      · have hone := scanOne_CL_conflict st p.1 p.2 (.num n0) hcl hhas hbb
          (by rw [hk]
              simp only [JSNum.seq, decide_eq_false_iff_not]
              intro he
              exact hkn (by rw [hk, he]))
        rw [hone]
        exact ⟨st, rfl⟩
    · obtain ⟨st2, hone, hbb2, hhas2⟩ := scanOne_nonCL st p.1 p.2 hcl
      rw [hone]
      refine ih st2 n0 (fun q hq hql => hints q (List.mem_cons_of_mem p hq) hql)
        (hhas2.trans hhas) (hbb2.trans hbb) ?_
      obtain ⟨q, hq, hqcl, hqne⟩ := hdiff
      rcases List.mem_cons.mp hq with rfl | hqt
      · exact absurd hqcl hcl
      · exact ⟨q, hqt, hqcl, hqne⟩

/-- Two different integer `Content-Length` values anywhere in the headers
make the scan fail with `HPE_UNEXPECTED_CONTENT_LENGTH`. -/
theorem scanHeaders_conflict :
    ∀ (hs : List (Str × Str)) (st : ScanSt),
      (∀ p ∈ hs, jsLower p.1 = js "content-length" → ∃ k : ℤ, toNumber p.2 = .num k) →
      st.hasContentLength = false →
      (∃ p ∈ hs, ∃ q ∈ hs, jsLower p.1 = js "content-length" ∧
        jsLower q.1 = js "content-length" ∧ toNumber p.2 ≠ toNumber q.2) →
      ∃ st', scanHeaders (flatPairs hs) st = (st', .fail .HPE_UNEXPECTED_CONTENT_LENGTH) := by
  intro hs
  induction hs with
  | nil =>
    intro st _ _ hdiff
    obtain ⟨p, hp, -⟩ := hdiff
    exact absurd hp (List.not_mem_nil p)
  | cons p t ih =>
    intro st hints hhas hdiff
    rw [scanHeaders_cons_pair]
    by_cases hcl : jsLower p.1 = js "content-length"
    · obtain ⟨k, hk⟩ := hints p (List.mem_cons_self p t) hcl
      rw [scanOne_CL_first st p.1 p.2 hcl hhas]
      refine scanHeaders_conflict_from t _ k
        (fun q hq hql => hints q (List.mem_cons_of_mem p hq) hql) rfl (by simp [hk]) ?_
      obtain ⟨a, ha, b, hb, hacl, hbcl, hne⟩ := hdiff
      rcases List.mem_cons.mp ha with rfl | hat
      · rcases List.mem_cons.mp hb with rfl | hbt
        · exact absurd rfl hne
        · exact ⟨b, hbt, hbcl, fun hbk => hne (by rw [hk, hbk])⟩
      · rcases List.mem_cons.mp hb with rfl | hbt
        · exact ⟨a, hat, hacl, fun hak => hne (by rw [hk, hak])⟩
        · by_cases hak : toNumber a.2 = .num k
          · exact ⟨b, hbt, hbcl, fun hbk => hne (by rw [hak, hbk])⟩
          · exact ⟨a, hat, hacl, hak⟩
    · obtain ⟨st2, hone, hbb2, hhas2⟩ := scanOne_nonCL st p.1 p.2 hcl
      rw [hone]
      refine ih st2 (fun q hq hql => hints q (List.mem_cons_of_mem p hq) hql)
        (hhas2.trans hhas) ?_
      obtain ⟨a, ha, b, hb, hacl, hbcl, hne⟩ := hdiff
      rcases List.mem_cons.mp ha with rfl | hat
      · exact absurd hacl hcl
      rcases List.mem_cons.mp hb with rfl | hbt
      · exact absurd hbcl hcl
      exact ⟨a, hat, b, hbt, hacl, hbcl, hne⟩

end HttpTs

namespace HttpTs

/-- C8 (amended): over any flat header list, (1) two `Content-Length`
headers with different integer values make the end-of-headers scan throw
`HPE_UNEXPECTED_CONTENT_LENGTH` (which `execute` returns — third conjunct
shows the wire-level run); (2) when all `Content-Length` headers carry the
same integer value the scan accepts and stores that value into
`body_remaining` (the chunked-wins rule can later clear it — see the
counterexample). -/
theorem C8_amended :
    (∀ (hs : List (Str × Str)) (st : ScanSt),
      (∀ p ∈ hs, jsLower p.1 = js "content-length" → ∃ k : ℤ, toNumber p.2 = .num k) →
      st.hasContentLength = false →
      (∃ p ∈ hs, ∃ q ∈ hs, jsLower p.1 = js "content-length" ∧
        jsLower q.1 = js "content-length" ∧ toNumber p.2 ≠ toNumber q.2) →
      ∃ st', scanHeaders (flatPairs hs) st = (st', .fail .HPE_UNEXPECTED_CONTENT_LENGTH)) ∧
    (∀ (hs : List (Str × Str)) (n : ℤ) (st : ScanSt),
      st.hasContentLength = false →
      (∀ p ∈ hs, jsLower p.1 = js "content-length" → toNumber p.2 = .num n) →
      (∃ p ∈ hs, jsLower p.1 = js "content-length") →
      ∃ st', scanHeaders (flatPairs hs) st = (st', .done) ∧ st'.bodyBytes = some (.num n)) ∧
    (execute cfg0 80 (freshParser .request)
        (js "POST / HTTP/1.1\r\nContent-Length: 5\r\nContent-Length: 6\r\n\r\n")).map
      (fun r => r.1) = some (.parseError .HPE_UNEXPECTED_CONTENT_LENGTH) := by
  refine ⟨scanHeaders_conflict, ?_, by with_unfolding_all decide⟩
  intro hs n st hst hvals hex
  obtain ⟨p0, hp0, hp0cl⟩ := hex
  obtain ⟨st', hscan, hhas, hbb, -⟩ :=
    scanHeaders_all_eq n hs st hvals (fun h => by simp [hst] at h)
  refine ⟨st', hscan, hbb ?_⟩
  rw [hhas, hst]
  simp only [Bool.false_or, List.any_eq_true]
  exact ⟨p0, hp0, by simp [hp0cl]⟩

/-- Concrete instances of `C8_amended`: `Content-Length: 5` plus
`Content-Length: 6` fail the scan; `Content-Length: 5` twice is accepted
with `body_remaining = 5`. -/
theorem C8_amended_witness :
    (∃ st', scanHeaders (flatPairs [(js "Content-Length", js "5"), (js "Content-Length", js "6")])
        ⟨false, some (.num 0), none, false, false⟩ =
        (st', .fail .HPE_UNEXPECTED_CONTENT_LENGTH)) ∧
    (∃ st', scanHeaders (flatPairs [(js "Content-Length", js "5"), (js "Content-Length", js "5")])
        ⟨false, some (.num 0), none, false, false⟩ = (st', .done) ∧
      st'.bodyBytes = some (.num (5 : ℤ))) := by
  constructor
  · refine C8_amended.1 _ _ ?_ rfl ?_
    · intro p hp hcl
      fin_cases hp
      · exact ⟨5, by with_unfolding_all decide⟩
      · exact ⟨6, by with_unfolding_all decide⟩
    · refine ⟨(js "Content-Length", js "5"), by simp, (js "Content-Length", js "6"), by simp,
        by decide, by decide, by with_unfolding_all decide⟩
  · refine C8_amended.2.1 _ 5 _ rfl ?_ ?_
    · intro p hp hcl
      fin_cases hp <;> with_unfolding_all decide
    · exact ⟨(js "Content-Length", js "5"), by simp, by decide⟩

end HttpTs

namespace HttpTs


/-- States other than the counted body states satisfy the invariant
vacuously. -/
theorem bodyInv_of_state (ps : PState) (h1 : ps.state ≠ .BODY_CHUNK)
    (h2 : ps.state ≠ .BODY_SIZED) : bodyInv ps :=
  ⟨fun h => absurd h h1, fun h => absurd h h2⟩

/-- Strict inequality with `0` transfers from `seq` to equality. -/
theorem ne_zero_of_seq_false (x : JSNum) (h : JSNum.seq x (.num 0) = false) :
    x ≠ .num 0 := by
  intro he
  rw [he] at h
  simp [JSNum.seq] at h

/-- `parseInt(line, 16)` yields NaN or a rational (never an infinity). -/
theorem parseIntHex_cases (s : Str) :
    parseIntHex s = .nan ∨ ∃ q : ℚ, parseIntHex s = .num q := by
  unfold parseIntHex
  dsimp only
  repeat' split
  all_goals first
    | (left; rfl)
    | (right; exact ⟨_, rfl⟩)

/-- `consumeLine` only ever touches the carry buffer of the parser
fields. -/
theorem consumeLine_ps (chunk : Bytes) (m : M) :
    ∃ l, (consumeLine chunk m).2.ps = { m.ps with line := l } := by
  rcases ho : m.offset with q | _ | _ | _
  case num =>
    rcases hf : findLF chunk q with _ | i
    · exact ⟨m.ps.line ++ asciiSliceNat chunk (clampIdx chunk.length q) chunk.length,
        by simp [consumeLine, ho, hf]⟩
    · exact ⟨[], by simp [consumeLine, ho, hf]⟩
  all_goals exact ⟨m.ps.line ++ asciiSliceNat chunk 0 chunk.length,
    by simp [consumeLine, ho]⟩

/-- `nextRequest` lands in a line state. -/
theorem nextRequest_state (ps : PState) :
    (nextRequest ps).1.state = .REQUEST_LINE ∨ (nextRequest ps).1.state = .RESPONSE_LINE := by
  unfold nextRequest initParser
  cases ps.type <;> simp

/-- The scan stage keeps the parse state. -/
theorem hcScan_state (ps0 : PState) : (hcScan ps0).1.state = ps0.state := rfl

/-- The chunked-wins stage keeps the parse state. -/
theorem hcChunkedWins_state (ps : PState) (b : Bool) :
    (hcChunkedWins ps b).state = ps.state := by
  unfold hcChunkedWins
  split <;> rfl

/-- The upgrade stage keeps the parse state. -/
theorem hcUpgrade_state (ps : PState) (st : ScanSt) (ps3 : PState) (upg : Bool)
    (h : hcUpgrade ps st = some (ps3, upg)) : ps3.state = ps.state := by
  unfold hcUpgrade at h
  split at h
  · exact Option.noConfusion h
  · dsimp only at h
    repeat' split at h
    all_goals
      (simp only [Option.some.injEq, Prod.mk.injEq] at h
       rw [← h.1])

/-- End-of-headers processing re-establishes the body invariant. -/
theorem headersComplete_bodyInv (cfg : Cfg) (ps0 : PState) (h : ps0.state = .HEADER) :
    bodyInv (headersComplete cfg ps0).1 := by
  unfold headersComplete
  rcases hsc : hcScan ps0 with ⟨ps1, st, res⟩
  have hst1 : ps1.state = .HEADER := by
    have h2 := hcScan_state ps0
    rw [hsc] at h2
    exact h2.trans h
  cases res with
  | fail c =>
    exact bodyInv_of_state ps1 (by rw [hst1]; decide) (by rw [hst1]; decide)
  | crashed =>
    exact bodyInv_of_state ps1 (by rw [hst1]; decide) (by rw [hst1]; decide)
  | done =>
    dsimp only
    have hst2 : (hcChunkedWins ps1 st.hasContentLength).state = .HEADER :=
      (hcChunkedWins_state ps1 st.hasContentLength).trans hst1
    rcases hup : hcUpgrade (hcChunkedWins ps1 st.hasContentLength) st with _ | ⟨ps3, upg⟩
    · exact bodyInv_of_state _ (by rw [hst2]; decide) (by rw [hst2]; decide)
    · have hst3 : ps3.state = .HEADER :=
        (hcUpgrade_state _ st ps3 upg hup).trans hst2
      unfold hcFinish
      dsimp only
      split
      · rcases nextRequest_state { ps3 with
            info := { ps3.info with
              shouldKeepAlive := some (shouldKeepAliveFn ps3.info ps3.bodyBytes ps3.isChunked) } }
          with h4 | h4 <;>
          exact bodyInv_of_state _ (by rw [h4]; decide) (by rw [h4]; decide)
      · split
        · exact bodyInv_of_state _ (by simpa using hst3) (by simpa using hst3)
        · split
          · rcases nextRequest_state { ps3 with
                info := { ps3.info with
                  shouldKeepAlive := some (shouldKeepAliveFn ps3.info ps3.bodyBytes ps3.isChunked) } }
              with h4 | h4 <;>
              exact bodyInv_of_state _ (by rw [h4]; decide) (by rw [h4]; decide)
          · split
            · exact bodyInv_of_state _ (by simpa using hst3) (by simpa using hst3)
            · rename_i hnot1 hnot2 hnot3
              refine ⟨fun hcontr => by simp at hcontr, fun _ => ?_⟩
              rcases hbb : ps3.bodyBytes with _ | v
              · exact absurd (by simpa using hbb) hnot3
              · refine ⟨v, by simpa using hbb, fun hv0 => ?_⟩
                apply hnot2
                right
                simpa [hv0] using hbb

end HttpTs

namespace HttpTs

/-- `nextRequest` re-establishes the body invariant. -/
theorem nextRequest_bodyInv (ps : PState) : bodyInv (nextRequest ps).1 := by
  rcases nextRequest_state ps with h | h <;>
    exact bodyInv_of_state _ (by simp [h]) (by simp [h])

/-- Every handler step preserves the body invariant (the loop guard rules
out a NaN or `+Infinity` cursor). -/
theorem stepState_bodyInv (cfg : Cfg) (chunk : Bytes) (m : M)
    (hguard : JSNum.lt m.offset (.num chunk.length) = true)
    (hinv : bodyInv m.ps) :
    bodyInv (stepState cfg chunk m).1.ps := by
  obtain ⟨l, hl⟩ := consumeLine_ps chunk m
  unfold stepState
  cases hs : m.ps.state
  case REQUEST_LINE =>
    unfold REQUEST_LINE
    rcases hc : consumeLine chunk m with ⟨lo, m2⟩
    rw [hc] at hl
    dsimp only at hl
    cases lo <;> dsimp only
    · exact bodyInv_of_state _ (by simp [hl, hs]) (by simp [hl, hs])
    · repeat' split
      all_goals exact bodyInv_of_state _ (by simp [hl, hs]) (by simp [hl, hs])
  case RESPONSE_LINE =>
    unfold RESPONSE_LINE
    rcases hc : consumeLine chunk m with ⟨lo, m2⟩
    rw [hc] at hl
    dsimp only at hl
    cases lo <;> dsimp only
    · exact bodyInv_of_state _ (by simp [hl, hs]) (by simp [hl, hs])
    · repeat' split
      all_goals exact bodyInv_of_state _ (by simp [hl, hs]) (by simp [hl, hs])
  case HEADER =>
    unfold HEADER
    rcases hc : consumeLine chunk m with ⟨lo, m2⟩
    rw [hc] at hl
    dsimp only at hl
    cases lo <;> dsimp only
    · exact bodyInv_of_state _ (by simp [hl, hs]) (by simp [hl, hs])
    · split
      · split
        · exact bodyInv_of_state _ (by simp [hl, hs]) (by simp [hl, hs])
        · exact bodyInv_of_state _ (by simp [hl, hs]) (by simp [hl, hs])
      · exact headersComplete_bodyInv cfg m2.ps (by simp [hl, hs])
  case BODY_CHUNKHEAD =>
    unfold BODY_CHUNKHEAD
    rcases hc : consumeLine chunk m with ⟨lo, m2⟩
    rw [hc] at hl
    dsimp only at hl
    cases lo <;> dsimp only
    · exact bodyInv_of_state _ (by simp [hl, hs]) (by simp [hl, hs])
    · rename_i line
      split
      · exact bodyInv_of_state _ (by simp [hl, hs]) (by simp [hl, hs])
      · split
        · exact bodyInv_of_state _ (by simp [hl, hs]) (by simp [hl, hs])
        · rename_i hnan hseq
          refine ⟨fun _ => ?_, fun hcontr => by simp at hcontr⟩
          rcases parseIntHex_cases line with hq | ⟨q, hq⟩
          · exact absurd hq hnan
          · refine ⟨q, by simp [hq], fun h0 => ?_⟩
            apply hseq
            rw [hq, h0]
            simp [JSNum.seq]
  case BODY_CHUNKEND =>
    unfold BODY_CHUNKEND
    rcases hc : consumeLine chunk m with ⟨lo, m2⟩
    rw [hc] at hl
    dsimp only at hl
    cases lo <;> dsimp only
    · exact bodyInv_of_state _ (by simp [hl, hs]) (by simp [hl, hs])
    · repeat' split
      all_goals exact bodyInv_of_state _ (by simp [hl, hs]) (by simp [hl, hs])
  case BODY_CHUNKTRAILERS =>
    unfold BODY_CHUNKTRAILERS
    rcases hc : consumeLine chunk m with ⟨lo, m2⟩
    rw [hc] at hl
    dsimp only at hl
    cases lo <;> dsimp only
    · exact bodyInv_of_state _ (by simp [hl, hs]) (by simp [hl, hs])
    · split
      · split
        · exact bodyInv_of_state _ (by simp [hl, hs]) (by simp [hl, hs])
        · exact bodyInv_of_state _ (by simp [hl, hs]) (by simp [hl, hs])
      · exact nextRequest_bodyInv _
  case BODY_RAW =>
    unfold BODY_RAW
    exact hinv
  case BODY_SIZED =>
    unfold BODY_SIZED
    dsimp only
    obtain ⟨v, hbv, hv0⟩ := hinv.2 hs
    split
    · exact nextRequest_bodyInv _
    · rename_i hseq
      exact ⟨fun hcontr => by simp [hs] at hcontr,
        fun _ => ⟨_, rfl, ne_zero_of_seq_false _ (by simpa using hseq)⟩⟩
  case BODY_CHUNK =>
    unfold BODY_CHUNK
    dsimp only
    obtain ⟨q, hbq, hq0⟩ := hinv.1 hs
    rcases ho : m.offset with o | _ | _ | _
    case nan => rw [ho] at hguard; simp [JSNum.lt] at hguard
    case inf => rw [ho] at hguard; simp [JSNum.lt] at hguard
    case num =>
      split
      · exact bodyInv_of_state _ (by simp) (by simp [hs])
      · rename_i hseq
        refine ⟨fun _ => ?_, fun hcontr => by simp [hs] at hcontr⟩
        dsimp only
        simp only [hbq, ho, Option.getD_some, JSNum.sub, JSNum.min] at hseq ⊢
        refine ⟨q - Min.min ((chunk.length : ℚ) - o) q, by simp, fun h0 => ?_⟩
        apply hseq
        simp [JSNum.seq, h0]
    case negInf =>
      split
      · exact bodyInv_of_state _ (by simp) (by simp [hs])
      · rename_i hseq
        exfalso
        simp only [hbq, ho, Option.getD_some] at hseq
        simp [JSNum.sub, JSNum.min, JSNum.seq] at hseq
  all_goals exact bodyInv_of_state _ (by simp [hl, hs]) (by simp [hl, hs])

end HttpTs

namespace HttpTs

/-- The `execute` loop preserves the body invariant. -/
theorem runLoop_bodyInv (cfg : Cfg) (chunk : Bytes) :
    ∀ (f : ℕ) (m : M), bodyInv m.ps → bodyInv ((runLoop cfg chunk f m).1.ps) := by
  intro f
  induction f with
  | zero => intro m hm; exact hm
  | succ f ih =>
    intro m hm
    rw [runLoop_succ]
    split
    · rename_i hguard
      rcases hstep : stepState cfg chunk m with ⟨m', evs, ctl⟩
      have hst : bodyInv m'.ps := by
        have := stepState_bodyInv cfg chunk m hguard hm
        rw [hstep] at this
        exact this
      cases ctl <;> dsimp only
      case next => exact ih m' hst
      all_goals exact hst
    · exact hm

/-- `execute` preserves the body invariant. -/
theorem execute_bodyInv (cfg : Cfg) (fuel : ℕ) (ps : PState) (chunk : Bytes)
    (r : ExecResult) (ps' : PState) (evs : List Ev)
    (h : execute cfg fuel ps chunk = some (r, ps', evs)) (hinv : bodyInv ps) :
    bodyInv ps' := by
  unfold execute at h
  rcases hr : runLoop cfg chunk fuel { ps := ps, offset := .num 0 } with ⟨m', evs0, x⟩
  rw [hr] at h
  have hm' : bodyInv m'.ps := by
    have hh := runLoop_bodyInv cfg chunk fuel { ps := ps, offset := .num 0 } hinv
    rw [hr] at hh
    exact hh
  cases x with
  | fuelOut => simp at h
  | errored c =>
    simp only [Option.some.injEq, Prod.mk.injEq] at h
    rw [← h.2.1]
    exact hm'
  | crashed =>
    simp only [Option.some.injEq, Prod.mk.injEq] at h
    rw [← h.2.1]
    exact hm'
  | done =>
    simp only at h
    split at h
    · split at h <;>
        · simp only [Option.some.injEq, Prod.mk.injEq] at h
          rw [← h.2.1]
          exact hm'
    · simp only [Option.some.injEq, Prod.mk.injEq] at h
      rw [← h.2.1]
      exact hm'

/-- Every reachable parser state satisfies the body invariant. -/
theorem reachable_bodyInv (ps : PState) (h : Reachable ps) : bodyInv ps := by
  induction h with
  | fresh t =>
    cases t <;> exact bodyInv_of_state _ (by decide) (by decide)
  | step cfg fuel chunk ps0 r ps' evs hre hex ih =>
    exact execute_bodyInv cfg fuel ps0 chunk r ps' evs hex ih

/-- `seq` against zero decides equality with the number zero. -/
theorem eq_zero_of_seq_true (x : JSNum) (h : JSNum.seq x (.num 0) = true) :
    x = .num 0 := by
  cases x <;> simp [JSNum.seq] at h ⊢
  exact h

end HttpTs

namespace HttpTs

/-- C6 (amended): in every reachable `BODY_CHUNK` or `BODY_SIZED` state,
`body_remaining` is a stored value that is neither the number 0 nor `null`
(a negative or NaN declared size makes it negative or NaN rather than
positive); and the `BODY_CHUNK` handler moves to `BODY_CHUNKEND` exactly
when the decremented `body_remaining` reaches 0, while the `BODY_SIZED`
handler completes the message exactly when the decrement
`bodyBytes - Math.min(length - offset, bodyBytes)` reaches 0. -/
theorem C6_amended (ps : PState) (h : Reachable ps) :
    ((ps.state = .BODY_CHUNK ∨ ps.state = .BODY_SIZED) →
      ps.bodyBytes ≠ some (.num 0) ∧ ps.bodyBytes ≠ none) ∧
    (∀ (chunk : Bytes) (m : M), m.ps.state = .BODY_CHUNK →
      ((BODY_CHUNK chunk m).1.ps.state = .BODY_CHUNKEND ↔
        (BODY_CHUNK chunk m).1.ps.bodyBytes = some (.num 0))) ∧
    (∀ (chunk : Bytes) (m : M), m.ps.state = .BODY_SIZED →
      (Ev.onMessageComplete ∈ (BODY_SIZED chunk m).2.1 ↔
        JSNum.seq (JSNum.sub (m.ps.bodyBytes.getD (.num 0))
          (JSNum.min (JSNum.sub (.num chunk.length) m.offset)
            (m.ps.bodyBytes.getD (.num 0)))) (.num 0) = true)) := by
  refine ⟨?_, ?_, ?_⟩
  · intro hst
    have hinv := reachable_bodyInv ps h
    rcases hst with hst | hst
    · obtain ⟨q, hb, hq⟩ := hinv.1 hst
      refine ⟨?_, by simp [hb]⟩
      rw [hb]
      intro hcontr
      simp only [Option.some.injEq, JSNum.num.injEq] at hcontr
      exact hq hcontr
    · obtain ⟨v, hb, hv⟩ := hinv.2 hst
      refine ⟨?_, by simp [hb]⟩
      rw [hb]
      intro hcontr
      simp only [Option.some.injEq] at hcontr
      exact hv hcontr
  · intro chunk m hm
    unfold BODY_CHUNK
    dsimp only
    split
    · rename_i hseq
      simp only [iff_true_intro rfl, true_iff]
      rw [eq_zero_of_seq_true _ hseq]
    · rename_i hseq
      constructor
      · intro hcontr
        rw [hm] at hcontr
        exact absurd hcontr (by simp at hcontr)
      · intro hcontr
        simp only [Option.some.injEq] at hcontr
        exact absurd hcontr (ne_zero_of_seq_false _ (by simpa using hseq))
  · intro chunk m hm
    unfold BODY_SIZED
    dsimp only
    split
    · rename_i hseq
      simp only [hseq, iff_true]
      unfold nextRequest
      simp
    · rename_i hseq
      simp only [List.mem_singleton, Bool.not_eq_true]
      constructor
      · intro hcontr
        simp at hcontr
      · intro hcontr
        exact absurd hcontr (by simpa using hseq)

/-- Concrete instance of `C6_amended` at the fresh request parser. -/
theorem C6_amended_witness :
    ((freshParser .request).state = .BODY_CHUNK ∨
        (freshParser .request).state = .BODY_SIZED →
      (freshParser .request).bodyBytes ≠ some (.num 0) ∧
        (freshParser .request).bodyBytes ≠ none) ∧
    (∀ (chunk : Bytes) (m : M), m.ps.state = .BODY_CHUNK →
      ((BODY_CHUNK chunk m).1.ps.state = .BODY_CHUNKEND ↔
        (BODY_CHUNK chunk m).1.ps.bodyBytes = some (.num 0))) ∧
    (∀ (chunk : Bytes) (m : M), m.ps.state = .BODY_SIZED →
      (Ev.onMessageComplete ∈ (BODY_SIZED chunk m).2.1 ↔
        JSNum.seq (JSNum.sub (m.ps.bodyBytes.getD (.num 0))
          (JSNum.min (JSNum.sub (.num chunk.length) m.offset)
            (m.ps.bodyBytes.getD (.num 0)))) (.num 0) = true)) :=
  C6_amended (freshParser .request) (Reachable.fresh .request)

end HttpTs

namespace HttpTs


/-- C1 counterexample: the 40-byte request `POST / HTTP/1.1` +
`Content-Length: 2` with body `ab`, fed whole versus split before the last
body byte.  The callback sequences differ: one `on_body` of length 2 versus
two `on_body` calls of length 1 with different buffer and start arguments
(all other callbacks agree). -/
theorem C1_counterexample :
    (execute cfg0 80 (freshParser .request)
        (js "POST / HTTP/1.1\r\nContent-Length: 2\r\n\r\nab")).map (fun r => r.2.2) ≠
      (executeSeq cfg0 80 (freshParser .request)
        [js "POST / HTTP/1.1\r\nContent-Length: 2\r\n\r\na", js "b"]).map (fun r => r.2) ∧
    (js "POST / HTTP/1.1\r\nContent-Length: 2\r\n\r\na" ++ js "b") =
      js "POST / HTTP/1.1\r\nContent-Length: 2\r\n\r\nab" := by
  constructor
  · with_unfolding_all decide
  · with_unfolding_all decide

end HttpTs

namespace HttpTs


end HttpTs

namespace HttpTs


/-- Overriding the header size does not change the erased state. -/
theorem hsErase_set (ps : PState) (v : ℚ) :
    hsErase { ps with headerSize := v } = hsErase ps := rfl

/-- Two states equal up to the header size differ only in that field. -/
theorem hsErase_elim {ps1 ps2 : PState} (h : hsErase ps1 = hsErase ps2) :
    ps1 = { ps2 with headerSize := ps1.headerSize } := by
  cases ps1; cases ps2
  simp only [hsErase, PState.mk.injEq] at h ⊢
  tauto

/-- The floor of a natural number cast into `ℚ`. -/
theorem natCast_floor_toNat (n : ℕ) : ((n : ℚ)).floor.toNat = n := by
  rw [Rat.floor_def']
  simp

/-- Clamping an in-range natural index is the identity. -/
theorem clampIdx_nat (len o : ℕ) (h : o ≤ len) : clampIdx len (o : ℚ) = o := by
  unfold clampIdx
  split
  · have h0 : o = 0 := by exact_mod_cast le_antisymm ‹((o : ℕ) : ℚ) ≤ 0› (by positivity)
    omega
  · rw [natCast_floor_toNat]
    exact Nat.min_eq_left h

/-- `findLF` from a natural cursor, phrased on the remaining suffix. -/
theorem findLF_nat (c : Bytes) (o : ℕ) :
    findLF c (o : ℚ) = ((c.drop o).findIdx? (fun b => b == 10)).map (fun k => o + k) := by
  unfold findLF
  rw [if_pos (Rat.den_natCast o)]
  have hsel : (if ((o : ℕ) : ℚ) ≤ 0 then 0 else ((o : ℕ) : ℚ).floor.toNat) = o := by
    split
    · have h0 : o = 0 := by exact_mod_cast le_antisymm ‹((o : ℕ) : ℚ) ≤ 0› (by positivity)
      omega
    · exact natCast_floor_toNat o
  rw [hsel]

/-- A found index lies inside the list. -/
theorem findIdx?_some_lt {l : List ℕ} {p : ℕ → Bool} {k : ℕ}
    (h : l.findIdx? p = some k) : k < l.length := by
  obtain ⟨hk, -, -⟩ := List.findIdx?_eq_some_iff_getElem.mp h
  exact hk

/-- `consumeLine` from an in-range natural cursor, phrased entirely on the
remaining suffix `c.drop o`. -/
theorem consumeLine_nat (c : Bytes) (ps : PState) (o : ℕ) (ho : o ≤ c.length) :
    consumeLine c ⟨ps, .num (o : ℚ)⟩ =
      match (c.drop o).findIdx? (fun b => b == 10) with
      | some k =>
        (some (crStrip (ps.line ++ ((c.drop o).take k).map asciiByte)),
         ⟨{ ps with line := [] }, .num (((o + k : ℕ) : ℚ) + 1)⟩)
      | none =>
        (none, ⟨{ ps with line := ps.line ++ (c.drop o).map asciiByte },
                .num ((c.length : ℕ) : ℚ)⟩) := by
  unfold consumeLine
  dsimp only
  rw [findLF_nat]
  rcases hfi : (c.drop o).findIdx? (fun b => b == 10) with _ | k
  · dsimp only [Option.map_none']
    unfold asciiSliceNat
    rw [clampIdx_nat c.length o ho]
    rw [List.take_of_length_le (by rw [List.length_drop])]
  · dsimp only [Option.map_some']
    unfold asciiSliceNat crStrip
    rw [clampIdx_nat c.length o ho]
    have hk : o + k - o = k := by omega
    rw [hk]

end HttpTs

namespace HttpTs

/-- `REQUEST_LINE` is `consumeLine` followed by its tail. -/
theorem REQUEST_LINE_eqn (chunk : Bytes) (m : M) :
    REQUEST_LINE chunk m =
      match consumeLine chunk m with
      | (none, m') => (m', [], .next)
      | (some line, m') => RL_post line m' := by
  unfold REQUEST_LINE RL_post
  rcases h : consumeLine chunk m with ⟨lo, m'⟩
  cases lo <;> rfl

/-- `RESPONSE_LINE` is `consumeLine` followed by its tail. -/
theorem RESPONSE_LINE_eqn (chunk : Bytes) (m : M) :
    RESPONSE_LINE chunk m =
      match consumeLine chunk m with
      | (none, m') => (m', [], .next)
      | (some line, m') => RESP_post line m' := by
  unfold RESPONSE_LINE RESP_post
  rcases h : consumeLine chunk m with ⟨lo, m'⟩
  cases lo <;> rfl

/-- `HEADER` is `consumeLine` followed by its tail. -/
theorem HEADER_eqn (cfg : Cfg) (chunk : Bytes) (m : M) :
    HEADER cfg chunk m =
      match consumeLine chunk m with
      | (none, m') => (m', [], .next)
      | (some line, m') => HEADER_post cfg line m' := by
  unfold HEADER HEADER_post
  rcases h : consumeLine chunk m with ⟨lo, m'⟩
  cases lo <;> rfl

/-- `BODY_CHUNKHEAD` is `consumeLine` followed by its tail. -/
theorem BODY_CHUNKHEAD_eqn (chunk : Bytes) (m : M) :
    BODY_CHUNKHEAD chunk m =
      match consumeLine chunk m with
      | (none, m') => (m', [], .next)
      | (some line, m') => CHUNKHEAD_post line m' := by
  unfold BODY_CHUNKHEAD CHUNKHEAD_post
  rcases h : consumeLine chunk m with ⟨lo, m'⟩
  cases lo <;> rfl

/-- `BODY_CHUNKEND` is `consumeLine` followed by its tail. -/
theorem BODY_CHUNKEND_eqn (chunk : Bytes) (m : M) :
    BODY_CHUNKEND chunk m =
      match consumeLine chunk m with
      | (none, m') => (m', [], .next)
      | (some line, m') => CHUNKEND_post line m' := by
  unfold BODY_CHUNKEND CHUNKEND_post
  rcases h : consumeLine chunk m with ⟨lo, m'⟩
  cases lo <;> rfl

/-- `BODY_CHUNKTRAILERS` is `consumeLine` followed by its tail. -/
theorem BODY_CHUNKTRAILERS_eqn (chunk : Bytes) (m : M) :
    BODY_CHUNKTRAILERS chunk m =
      match consumeLine chunk m with
      | (none, m') => (m', [], .next)
      | (some line, m') => TRAILERS_post line m' := by
  unfold BODY_CHUNKTRAILERS TRAILERS_post
  rcases h : consumeLine chunk m with ⟨lo, m'⟩
  cases lo <;> rfl

/-- One unfolding of the goodness check. -/
theorem goodRun_succ (cfg : Cfg) (chunk : Bytes) (f : ℕ) (m : M) :
    goodRun cfg chunk (f + 1) m =
      if JSNum.lt m.offset (.num chunk.length) then
        match stepState cfg chunk m with
        | (m', _, .next) => goodBBb m'.ps.bodyBytes && goodRun cfg chunk f m'
        | _ => false
      else true := rfl

/-- A benign body-size record coerces to a natural number. -/
theorem goodBB_getD {bb : Option JSNum} (h : goodBBb bb = true) :
    ∃ k : ℕ, bb.getD (.num 0) = .num ((k : ℕ) : ℚ) := by
  match bb with
  | none => exact ⟨0, by norm_num⟩
  | some (.num q) =>
    simp only [goodBBb, Bool.and_eq_true, decide_eq_true_eq] at h
    obtain ⟨h0, hden⟩ := h
    refine ⟨q.num.toNat, ?_⟩
    simp only [Option.getD_some, JSNum.num.injEq]
    have h1 : ((q.num.toNat : ℕ) : ℚ) = ((q.num : ℤ) : ℚ) := by
      exact_mod_cast congrArg (Int.cast : ℤ → ℚ) (Int.toNat_of_nonneg (Rat.num_nonneg.mpr h0))
    rw [h1]
    exact ((Rat.den_eq_one_iff q).mp hden).symm
  | some .nan => simp [goodBBb] at h
  | some .inf => simp [goodBBb] at h
  | some .negInf => simp [goodBBb] at h

end HttpTs

namespace HttpTs

/-- `hsSet` changes nothing under erasure. -/
theorem hsErase_hsSet (ps : PState) (v : ℚ) : hsErase (hsSet ps v) = hsErase ps := rfl

/-- Two states equal up to the header size are an `hsSet` of one another. -/
theorem hsSet_of_hsErase {ps1 ps2 : PState} (h : hsErase ps1 = hsErase ps2) :
    ps1 = hsSet ps2 ps1.headerSize := by
  cases ps1; cases ps2
  simp only [hsErase, hsSet, PState.mk.injEq] at h ⊢
  tauto

/-- The header scan ignores and passes through the header size. -/
theorem hcScan_hs (ps : PState) (v : ℚ) :
    ∃ ps1 st res, hcScan ps = (ps1, st, res) ∧
      hcScan (hsSet ps v) = (hsSet ps1 v, st, res) := by
  unfold hcScan hsSet
  dsimp only
  rcases h : scanHeaders ps.info.headers
      { isChunked := ps.isChunked, bodyBytes := ps.bodyBytes,
        connection := ps.info.connection, hasContentLength := false,
        hasUpgradeHeader := false } with ⟨st, res⟩
  exact ⟨_, _, _, rfl, rfl⟩

/-- The chunked-wins rule ignores and passes through the header size. -/
theorem hcChunkedWins_hs (ps : PState) (v : ℚ) (b : Bool) :
    hcChunkedWins (hsSet ps v) b = hsSet (hcChunkedWins ps b) v := by
  unfold hcChunkedWins hsSet
  dsimp only
  split <;> rfl

/-- The upgrade decision ignores and passes through the header size. -/
theorem hcUpgrade_hs (ps : PState) (v : ℚ) (st : ScanSt) :
    hcUpgrade (hsSet ps v) st =
      (hcUpgrade ps st).map (fun pu => (hsSet pu.1 v, pu.2)) := by
  unfold hcUpgrade hsSet
  dsimp only
  by_cases h1 : st.hasUpgradeHeader = true ∧ ps.info.connection = none
  · simp only [if_pos h1]
    rfl
  · simp only [if_neg h1]
    dsimp only [Option.map_some']
    by_cases hC : st.hasUpgradeHeader = true ∧
        jsContains (ps.info.connection.getD []) (js "upgrade") = true
    · simp only [if_pos hC]
      by_cases h2 : ps.isChunked = true ∧
          (decide (ps.type = PType.request) || ps.info.statusCode == some 101) = true
      · simp only [if_pos h2]
      · simp only [if_neg h2]
    · simp only [if_neg hC]
      by_cases h2 : ps.isChunked = true ∧ isConnectMethod ps.info.method = true
      · simp only [if_pos h2]
      · simp only [if_neg h2]

/-- The keep-alive/callback/framing stage never reads the header size and
either passes it through or resets it along with the rest of the state. -/
theorem hcFinish_hs (cfg : Cfg) (ps : PState) (v : ℚ) (upg : Bool) :
    ∃ p1 p2 evs ctl, hcFinish cfg ps upg = (p2, evs, ctl) ∧
      hcFinish cfg (hsSet ps v) upg = (p1, evs, ctl) ∧
      hsErase p1 = hsErase p2 := by
  unfold hcFinish nextRequest hsSet
  dsimp only
  by_cases h1 : JSNum.seq cfg.directive (JSNum.num 2) = true
  · simp only [if_pos h1]
    exact ⟨_, _, _, _, rfl, rfl, rfl⟩
  · simp only [if_neg h1]
    by_cases h2 : ps.isChunked = true ∧ ¬cfg.directive.truthy = true
    · simp only [if_pos h2]
      exact ⟨_, _, _, _, rfl, rfl, rfl⟩
    · simp only [if_neg h2]
      by_cases h3 : JSNum.seq cfg.directive (JSNum.num 1) = true ∨
          ps.bodyBytes = some (JSNum.num 0)
      · simp only [if_pos h3]
        exact ⟨_, _, _, _, rfl, rfl, rfl⟩
      · simp only [if_neg h3]
        by_cases h4 : ps.bodyBytes = none
        · simp only [if_pos h4]
          exact ⟨_, _, _, _, rfl, rfl, rfl⟩
        · simp only [if_neg h4]
          exact ⟨_, _, _, _, rfl, rfl, rfl⟩

/-- End-of-headers processing never reads the header size: on a state with
an overridden header size it yields the same callbacks and control, and a
state equal up to the header size. -/
theorem headersComplete_hs (cfg : Cfg) (ps : PState) (v : ℚ) :
    ∃ p1 p2 evs ctl, headersComplete cfg ps = (p2, evs, ctl) ∧
      headersComplete cfg (hsSet ps v) = (p1, evs, ctl) ∧
      hsErase p1 = hsErase p2 := by
  obtain ⟨ps1, st, res, hscan, hscanv⟩ := hcScan_hs ps v
  unfold headersComplete
  rw [hscan, hscanv]
  cases res with
  | fail c => exact ⟨_, _, _, _, rfl, rfl, rfl⟩
  | crashed => exact ⟨_, _, _, _, rfl, rfl, rfl⟩
  | done =>
    dsimp only
    rw [hcChunkedWins_hs, hcUpgrade_hs]
    rcases hup : hcUpgrade (hcChunkedWins ps1 st.hasContentLength) st with _ | ⟨ps3, upg⟩
    · exact ⟨_, _, _, _, rfl, rfl, rfl⟩
    · dsimp only [Option.map_some']
      obtain ⟨p1, p2, evs, ctl, hf, hfv, hrel⟩ := hcFinish_hs cfg ps3 v upg
      rw [hf, hfv]
      exact ⟨p1, p2, evs, ctl, rfl, rfl, hrel⟩

end HttpTs

namespace HttpTs

/-- The `REQUEST_LINE` tail ignores the header size and the cursor. -/
theorem RL_post_ok : PostOk RL_post := by
  intro line ps v o1 o2
  unfold RL_post hsSet
  dsimp only
  by_cases hE : line.isEmpty = true
  · simp only [if_pos hE]
    exact ⟨_, _, _, _, rfl, rfl, rfl⟩
  · simp only [if_neg hE]
    rcases hm : reqMatch line with _ | ⟨meth, url, d1, d2⟩
    · exact ⟨_, _, _, _, rfl, rfl, rfl⟩
    · dsimp only
      rcases hfi : methods.findIdx? (fun x => x == meth) with _ | i <;> dsimp only
      · simp only [if_pos rfl]
        exact ⟨_, _, _, _, rfl, rfl, rfl⟩
      · by_cases hi : (i : ℤ) = -1
        · simp only [if_pos hi]
          exact ⟨_, _, _, _, rfl, rfl, rfl⟩
        · simp only [if_neg hi]
          exact ⟨_, _, _, _, rfl, rfl, rfl⟩

/-- The `RESPONSE_LINE` tail ignores the header size and the cursor. -/
theorem RESP_post_ok : PostOk RESP_post := by
  intro line ps v o1 o2
  unfold RESP_post hsSet
  dsimp only
  by_cases hE : line.isEmpty = true
  · simp only [if_pos hE]
    exact ⟨_, _, _, _, rfl, rfl, rfl⟩
  · simp only [if_neg hE]
    rcases hm : respMatch line with _ | ⟨d1, d2, status, reason⟩
    · exact ⟨_, _, _, _, rfl, rfl, rfl⟩
    · dsimp only
      by_cases hs : status / 100 = 1 ∨ status = 204 ∨ status = 304
      · simp only [if_pos hs]
        exact ⟨_, _, _, _, rfl, rfl, rfl⟩
      · simp only [if_neg hs]
        exact ⟨_, _, _, _, rfl, rfl, rfl⟩

/-- The `HEADER` tail ignores the header size and the cursor. -/
theorem HEADER_post_ok (cfg : Cfg) : PostOk (HEADER_post cfg) := by
  intro line ps v o1 o2
  obtain ⟨p1, p2, evs, ctl, hc1, hc2, hrel⟩ := headersComplete_hs cfg ps v
  unfold HEADER_post hsSet
  dsimp only
  by_cases hL : line.length > 0
  · simp only [if_pos hL]
    rcases hph : parseHeader line ps.info.headers with c | hs2
    · exact ⟨_, _, _, _, rfl, rfl, rfl⟩
    · exact ⟨_, _, _, _, rfl, rfl, rfl⟩
  · simp only [if_neg hL]
    rw [hc1, show headersComplete cfg
        { type := ps.type, state := ps.state, info := ps.info, line := ps.line,
          isChunked := ps.isChunked, headerSize := v, bodyBytes := ps.bodyBytes,
          hadError := ps.hadError } = (p1, evs, ctl) from hc2]
    exact ⟨p1, p2, evs, ctl, rfl, rfl, hrel⟩

/-- The `BODY_CHUNKHEAD` tail ignores the header size and the cursor. -/
theorem CHUNKHEAD_post_ok : PostOk CHUNKHEAD_post := by
  intro line ps v o1 o2
  unfold CHUNKHEAD_post hsSet
  dsimp only
  by_cases hn : parseIntHex line = JSNum.nan
  · simp only [if_pos hn]
    exact ⟨_, _, _, _, rfl, rfl, rfl⟩
  · simp only [if_neg hn]
    by_cases h0 : JSNum.seq (parseIntHex line) (JSNum.num 0) = true
    · simp only [if_pos h0]
      exact ⟨_, _, _, _, rfl, rfl, rfl⟩
    · simp only [if_neg h0]
      exact ⟨_, _, _, _, rfl, rfl, rfl⟩

/-- The `BODY_CHUNKEND` tail ignores the header size and the cursor. -/
theorem CHUNKEND_post_ok : PostOk CHUNKEND_post := by
  intro line ps v o1 o2
  unfold CHUNKEND_post hsSet
  dsimp only
  by_cases hL : line.length ≠ 0
  · simp only [if_pos hL]
    exact ⟨_, _, _, _, rfl, rfl, rfl⟩
  · simp only [if_neg hL]
    exact ⟨_, _, _, _, rfl, rfl, rfl⟩

/-- The `BODY_CHUNKTRAILERS` tail ignores the header size and the cursor. -/
theorem TRAILERS_post_ok : PostOk TRAILERS_post := by
  intro line ps v o1 o2
  unfold TRAILERS_post nextRequest hsSet
  dsimp only
  by_cases hL : line.length > 0
  · simp only [if_pos hL]
    rcases hph : parseHeader line ps.info.trailers with c | ts
    · exact ⟨_, _, _, _, rfl, rfl, rfl⟩
    · exact ⟨_, _, _, _, rfl, rfl, rfl⟩
  · simp only [if_neg hL]
    by_cases hT : ps.info.trailers.length > 0
    · simp only [if_pos hT]
      exact ⟨_, _, _, _, rfl, rfl, rfl⟩
    · simp only [if_neg hT]
      exact ⟨_, _, _, _, rfl, rfl, rfl⟩

end HttpTs

namespace HttpTs

/-- The body-consumption length on natural inputs. -/
theorem jsnum_body_min (len o kb : ℕ) (ho : o ≤ len) :
    JSNum.min (JSNum.sub (.num (len : ℚ)) (.num (o : ℚ))) (.num ((kb : ℕ) : ℚ)) =
      .num (((min (len - o) kb : ℕ) : ℕ) : ℚ) := by
  unfold JSNum.sub JSNum.min
  dsimp only
  congr 1
  rw [← Nat.cast_sub ho]
  exact_mod_cast (Nat.cast_min (len - o) kb).symm


/-- Adding two natural cursor values. -/
theorem jsnum_add_nat (o l : ℕ) :
    JSNum.add (.num (o : ℚ)) (.num ((l : ℕ) : ℚ)) = .num (((o + l : ℕ) : ℕ) : ℚ) := by
  unfold JSNum.add
  dsimp only
  congr 1
  push_cast
  ring

/-- Subtracting natural values within range. -/
theorem jsnum_sub_nat (kb l : ℕ) (h : l ≤ kb) :
    JSNum.sub (.num ((kb : ℕ) : ℚ)) (.num ((l : ℕ) : ℚ)) = .num (((kb - l : ℕ) : ℕ) : ℚ) := by
  unfold JSNum.sub
  dsimp only
  congr 1
  rw [← Nat.cast_sub h]

/-- Strict equality of a natural value with zero. -/
theorem jsnum_seq_zero (n : ℕ) :
    JSNum.seq (.num ((n : ℕ) : ℚ)) (.num 0) = decide (n = 0) := by
  unfold JSNum.seq
  dsimp only
  simp

/-- The body slice delivered for natural start and length arguments. -/
theorem sliceArgs_nat (buf : Bytes) (s l : ℕ) (hs : s ≤ buf.length) :
    sliceArgs buf (.num (s : ℚ)) (.num ((l : ℕ) : ℚ)) = (buf.drop s).take l := by
  unfold sliceArgs
  dsimp only
  rw [clampIdx_nat buf.length s hs]
  split
  · have h0 : l = 0 := by exact_mod_cast le_antisymm ‹((l : ℕ) : ℚ) ≤ 0› (by positivity)
    rw [h0]
  · rw [natCast_floor_toNat]

/-- Generic line-handler step correspondence for two cursors whose remaining
input agrees: same lines are found at the same relative positions, the tails
run on states equal up to the header size, and the remaining input keeps
agreeing. -/
theorem lineStep_dropEq (post : Str → M → M × List Ev × Ctl) (hp : PostOk post)
    (c1 c2 : Bytes) (ps : PState) (w : ℚ) (o1 o2 : ℕ)
    (h1 : o1 ≤ c1.length) (h2 : o2 ≤ c2.length)
    (hdrop : c1.drop o1 = c2.drop o2) :
    ∃ (ps1' ps2' : PState) (o1' o2' : ℕ) (evs : List Ev) (ctl : Ctl),
      (match consumeLine c1 ⟨hsSet ps w, .num (o1 : ℚ)⟩ with
       | (none, m') => (m', [], Ctl.next)
       | (some line, m') => post line m') = (⟨ps1', .num ((o1' : ℕ) : ℚ)⟩, evs, ctl) ∧
      (match consumeLine c2 ⟨ps, .num (o2 : ℚ)⟩ with
       | (none, m') => (m', [], Ctl.next)
       | (some line, m') => post line m') = (⟨ps2', .num ((o2' : ℕ) : ℚ)⟩, evs, ctl) ∧
      hsErase ps1' = hsErase ps2' ∧ o1' ≤ c1.length ∧ o2' ≤ c2.length ∧
      c1.drop o1' = c2.drop o2' := by
  have hlen : c1.length - o1 = c2.length - o2 := by
    have := congrArg List.length hdrop
    rwa [List.length_drop, List.length_drop] at this
  rw [consumeLine_nat c1 (hsSet ps w) o1 h1, consumeLine_nat c2 ps o2 h2, hdrop]
  rcases hfi : (c2.drop o2).findIdx? (fun b => b == 10) with _ | k
  · refine ⟨_, _, c1.length, c2.length, [], .next, rfl, rfl, rfl, le_refl _, le_refl _, ?_⟩
    rw [List.drop_length, List.drop_length]
  · have hk : k < c2.length - o2 := by
      have := findIdx?_some_lt hfi
      rwa [List.length_drop] at this
    obtain ⟨q1, q2, evs, ctl, hpost2, hpost1, hrel⟩ :=
      hp (crStrip (ps.line ++ ((c2.drop o2).take k).map asciiByte)) { ps with line := [] } w
        (JSNum.num (((o1 + k : ℕ) : ℚ) + 1)) (JSNum.num (((o2 + k : ℕ) : ℚ) + 1))
    have e1 : ((o1 + k : ℕ) : ℚ) + 1 = ((o1 + k + 1 : ℕ) : ℚ) := by push_cast; ring
    have e2 : ((o2 + k : ℕ) : ℚ) + 1 = ((o2 + k + 1 : ℕ) : ℚ) := by push_cast; ring
    refine ⟨q1, q2, o1 + k + 1, o2 + k + 1, evs, ctl, ?_, ?_, hrel, by omega, by omega, ?_⟩
    · rw [← e1]
      exact hpost1
    · rw [← e2]
      exact hpost2
    · rw [show o1 + k + 1 = o1 + (k + 1) by ring, show o2 + k + 1 = o2 + (k + 1) by ring,
        ← List.drop_drop, ← List.drop_drop, hdrop]
      rw [List.drop_drop, List.drop_drop]

end HttpTs

namespace HttpTs

/-- One handler step from two cursors whose remaining input agrees, the
states equal up to the header size: same control outcome, same callbacks up
to normalisation, resulting states equal up to the header size, and the
remaining input still agrees. -/
theorem stepState_dropEq (cfg : Cfg) (c1 c2 : Bytes) (ps : PState) (w : ℚ) (o1 o2 : ℕ)
    (h1 : o1 ≤ c1.length) (h2 : o2 ≤ c2.length) (hdrop : c1.drop o1 = c2.drop o2)
    (hbb : goodBBb ps.bodyBytes = true) :
    ∃ (ps1' ps2' : PState) (o1' o2' : ℕ) (evs1 evs2 : List Ev) (ctl : Ctl),
      stepState cfg c1 ⟨hsSet ps w, .num (o1 : ℚ)⟩ = (⟨ps1', .num ((o1' : ℕ) : ℚ)⟩, evs1, ctl) ∧
      stepState cfg c2 ⟨ps, .num (o2 : ℚ)⟩ = (⟨ps2', .num ((o2' : ℕ) : ℚ)⟩, evs2, ctl) ∧
      hsErase ps1' = hsErase ps2' ∧ o1' ≤ c1.length ∧ o2' ≤ c2.length ∧
      c1.drop o1' = c2.drop o2' ∧ evs1.map normEv = evs2.map normEv := by
  have hlen : c1.length - o1 = c2.length - o2 := by
    have := congrArg List.length hdrop
    rwa [List.length_drop, List.length_drop] at this
  unfold stepState
  dsimp only
  rw [show (hsSet ps w).state = ps.state from rfl]
  cases hstate : ps.state
  case REQUEST_LINE =>
    rw [REQUEST_LINE_eqn, REQUEST_LINE_eqn]
    obtain ⟨ps1', ps2', o1', o2', evs, ctl, e1, e2, hrel, b1, b2, hd⟩ :=
      lineStep_dropEq RL_post RL_post_ok c1 c2 ps w o1 o2 h1 h2 hdrop
    exact ⟨ps1', ps2', o1', o2', evs, evs, ctl, e1, e2, hrel, b1, b2, hd, rfl⟩
  case RESPONSE_LINE =>
    rw [RESPONSE_LINE_eqn, RESPONSE_LINE_eqn]
    obtain ⟨ps1', ps2', o1', o2', evs, ctl, e1, e2, hrel, b1, b2, hd⟩ :=
      lineStep_dropEq RESP_post RESP_post_ok c1 c2 ps w o1 o2 h1 h2 hdrop
    exact ⟨ps1', ps2', o1', o2', evs, evs, ctl, e1, e2, hrel, b1, b2, hd, rfl⟩
  case HEADER =>
    rw [HEADER_eqn, HEADER_eqn]
    obtain ⟨ps1', ps2', o1', o2', evs, ctl, e1, e2, hrel, b1, b2, hd⟩ :=
      lineStep_dropEq (HEADER_post cfg) (HEADER_post_ok cfg) c1 c2 ps w o1 o2 h1 h2 hdrop
    exact ⟨ps1', ps2', o1', o2', evs, evs, ctl, e1, e2, hrel, b1, b2, hd, rfl⟩
  case BODY_CHUNKHEAD =>
    rw [BODY_CHUNKHEAD_eqn, BODY_CHUNKHEAD_eqn]
    obtain ⟨ps1', ps2', o1', o2', evs, ctl, e1, e2, hrel, b1, b2, hd⟩ :=
      lineStep_dropEq CHUNKHEAD_post CHUNKHEAD_post_ok c1 c2 ps w o1 o2 h1 h2 hdrop
    exact ⟨ps1', ps2', o1', o2', evs, evs, ctl, e1, e2, hrel, b1, b2, hd, rfl⟩
  case BODY_CHUNKEND =>
    rw [BODY_CHUNKEND_eqn, BODY_CHUNKEND_eqn]
    obtain ⟨ps1', ps2', o1', o2', evs, ctl, e1, e2, hrel, b1, b2, hd⟩ :=
      lineStep_dropEq CHUNKEND_post CHUNKEND_post_ok c1 c2 ps w o1 o2 h1 h2 hdrop
    exact ⟨ps1', ps2', o1', o2', evs, evs, ctl, e1, e2, hrel, b1, b2, hd, rfl⟩
  case BODY_CHUNKTRAILERS =>
    rw [BODY_CHUNKTRAILERS_eqn, BODY_CHUNKTRAILERS_eqn]
    obtain ⟨ps1', ps2', o1', o2', evs, ctl, e1, e2, hrel, b1, b2, hd⟩ :=
      lineStep_dropEq TRAILERS_post TRAILERS_post_ok c1 c2 ps w o1 o2 h1 h2 hdrop
    exact ⟨ps1', ps2', o1', o2', evs, evs, ctl, e1, e2, hrel, b1, b2, hd, rfl⟩
  case BODY_RAW =>
    unfold BODY_RAW
    dsimp only
    rw [show JSNum.sub (.num (c1.length : ℚ)) (.num (o1 : ℚ)) =
          .num (((c1.length - o1 : ℕ) : ℕ) : ℚ) by
        unfold JSNum.sub
        dsimp only
        congr 1
        rw [← Nat.cast_sub h1]]
    rw [show JSNum.sub (.num (c2.length : ℚ)) (.num (o2 : ℚ)) =
          .num (((c2.length - o2 : ℕ) : ℕ) : ℚ) by
        unfold JSNum.sub
        dsimp only
        congr 1
        rw [← Nat.cast_sub h2]]
    rw [hlen]
    refine ⟨hsSet ps w, ps, c1.length, c2.length, _, _, .next, rfl, rfl, rfl,
      le_refl _, le_refl _, by rw [List.drop_length, List.drop_length], ?_⟩
    simp only [List.map, normEv, NEv.body.injEq, List.cons.injEq, and_true]
    rw [sliceArgs_nat c1 o1 (c2.length - o2) h1, sliceArgs_nat c2 o2 (c2.length - o2) h2, hdrop]
  case BODY_CHUNK =>
    unfold BODY_CHUNK
    dsimp only
    rw [show (hsSet ps w).bodyBytes = ps.bodyBytes from rfl]
    obtain ⟨kb, hkb⟩ := goodBB_getD hbb
    rw [hkb]
    rw [jsnum_body_min c1.length o1 kb h1, jsnum_body_min c2.length o2 kb h2, hlen]
    rw [jsnum_sub_nat kb (min (c2.length - o2) kb) (min_le_right _ _)]
    rw [jsnum_seq_zero]
    rw [jsnum_add_nat o1 (min (c2.length - o2) kb), jsnum_add_nat o2 (min (c2.length - o2) kb)]
    have hln : min (c2.length - o2) kb ≤ c2.length - o2 := min_le_left _ _
    have hb1 : o1 + min (c2.length - o2) kb ≤ c1.length := by omega
    have hb2 : o2 + min (c2.length - o2) kb ≤ c2.length := by omega
    have hdrop' : c1.drop (o1 + min (c2.length - o2) kb) =
        c2.drop (o2 + min (c2.length - o2) kb) := by
      rw [← List.drop_drop, ← List.drop_drop, hdrop]
    have hevs : ([Ev.onBody c1 (.num (o1 : ℚ)) (.num ((min (c2.length - o2) kb : ℕ) : ℚ))]).map
          normEv =
        ([Ev.onBody c2 (.num (o2 : ℚ)) (.num ((min (c2.length - o2) kb : ℕ) : ℚ))]).map
          normEv := by
      simp only [List.map, normEv, NEv.body.injEq, List.cons.injEq, and_true]
      rw [sliceArgs_nat c1 o1 (min (c2.length - o2) kb) h1,
        sliceArgs_nat c2 o2 (min (c2.length - o2) kb) h2, hdrop]
    by_cases hz : kb - min (c2.length - o2) kb = 0
    · rw [if_pos (show decide (kb - min (c2.length - o2) kb = 0) = true by rw [hz]; rfl),
        if_pos (show decide (kb - min (c2.length - o2) kb = 0) = true by rw [hz]; rfl)]
      exact ⟨_, _, o1 + min (c2.length - o2) kb, o2 + min (c2.length - o2) kb, _, _, .next,
        rfl, rfl, rfl, hb1, hb2, hdrop', hevs⟩
    · rw [if_neg (show ¬decide (kb - min (c2.length - o2) kb = 0) = true by
          simp only [decide_eq_true_eq]; exact hz),
        if_neg (show ¬decide (kb - min (c2.length - o2) kb = 0) = true by
          simp only [decide_eq_true_eq]; exact hz)]
      exact ⟨_, _, o1 + min (c2.length - o2) kb, o2 + min (c2.length - o2) kb, _, _, .next,
        rfl, rfl, rfl, hb1, hb2, hdrop', hevs⟩
  case BODY_SIZED =>
    unfold BODY_SIZED nextRequest
    dsimp only
    rw [show (hsSet ps w).bodyBytes = ps.bodyBytes from rfl]
    obtain ⟨kb, hkb⟩ := goodBB_getD hbb
    rw [hkb]
    rw [jsnum_body_min c1.length o1 kb h1, jsnum_body_min c2.length o2 kb h2, hlen]
    rw [jsnum_sub_nat kb (min (c2.length - o2) kb) (min_le_right _ _)]
    rw [jsnum_seq_zero]
    rw [jsnum_add_nat o1 (min (c2.length - o2) kb), jsnum_add_nat o2 (min (c2.length - o2) kb)]
    have hln : min (c2.length - o2) kb ≤ c2.length - o2 := min_le_left _ _
    have hb1 : o1 + min (c2.length - o2) kb ≤ c1.length := by omega
    have hb2 : o2 + min (c2.length - o2) kb ≤ c2.length := by omega
    have hdrop' : c1.drop (o1 + min (c2.length - o2) kb) =
        c2.drop (o2 + min (c2.length - o2) kb) := by
      rw [← List.drop_drop, ← List.drop_drop, hdrop]
    have hslice : sliceArgs c1 (.num (o1 : ℚ)) (.num ((min (c2.length - o2) kb : ℕ) : ℚ)) =
        sliceArgs c2 (.num (o2 : ℚ)) (.num ((min (c2.length - o2) kb : ℕ) : ℚ)) := by
      rw [sliceArgs_nat c1 o1 (min (c2.length - o2) kb) h1,
        sliceArgs_nat c2 o2 (min (c2.length - o2) kb) h2, hdrop]
    by_cases hz : kb - min (c2.length - o2) kb = 0
    · rw [if_pos (show decide (kb - min (c2.length - o2) kb = 0) = true by rw [hz]; rfl),
        if_pos (show decide (kb - min (c2.length - o2) kb = 0) = true by rw [hz]; rfl)]
      refine ⟨_, _, o1 + min (c2.length - o2) kb, o2 + min (c2.length - o2) kb, _, _, .next,
        rfl, rfl, rfl, hb1, hb2, hdrop', ?_⟩
      simp only [List.map, normEv, List.cons.injEq, and_true]
      exact congrArg NEv.body hslice
    · rw [if_neg (show ¬decide (kb - min (c2.length - o2) kb = 0) = true by
          simp only [decide_eq_true_eq]; exact hz),
        if_neg (show ¬decide (kb - min (c2.length - o2) kb = 0) = true by
          simp only [decide_eq_true_eq]; exact hz)]
      refine ⟨_, _, o1 + min (c2.length - o2) kb, o2 + min (c2.length - o2) kb, _, _, .next,
        rfl, rfl, rfl, hb1, hb2, hdrop', ?_⟩
      simp only [List.map, normEv, List.cons.injEq, and_true]
      exact congrArg NEv.body hslice

end HttpTs

namespace HttpTs

/-- A natural cursor comparison. -/
theorem jsnum_lt_nat (a b : ℕ) :
    JSNum.lt (.num (a : ℚ)) (.num (b : ℚ)) = decide (a < b) := by
  unfold JSNum.lt
  dsimp only
  by_cases h : a < b
  · rw [decide_eq_true (by exact_mod_cast h : ((a : ℕ) : ℚ) < ((b : ℕ) : ℚ)),
      decide_eq_true h]
  · rw [decide_eq_false (by exact_mod_cast h : ¬((a : ℕ) : ℚ) < ((b : ℕ) : ℚ)),
      decide_eq_false h]

/-- Lockstep simulation of the `execute` loop from two cursors whose
remaining input agrees, on states equal up to the header size: assuming the
first run is benign, both loops consume to the end of their chunks with the
same exit, states equal up to the header size and the same normalised
callbacks; the second run is benign as well. -/
theorem runLoop_dropEq (cfg : Cfg) (c1 c2 : Bytes) :
    ∀ (f : ℕ) (ps : PState) (w : ℚ) (o1 o2 : ℕ),
      o1 ≤ c1.length → o2 ≤ c2.length → c1.drop o1 = c2.drop o2 →
      goodBBb ps.bodyBytes = true →
      goodRun cfg c1 f ⟨hsSet ps w, .num (o1 : ℚ)⟩ = true →
      ∃ (ps1' ps2' : PState) (evs1 evs2 : List Ev),
        runLoop cfg c1 f ⟨hsSet ps w, .num (o1 : ℚ)⟩ =
          (⟨ps1', .num (c1.length : ℚ)⟩, evs1, .done) ∧
        runLoop cfg c2 f ⟨ps, .num (o2 : ℚ)⟩ =
          (⟨ps2', .num (c2.length : ℚ)⟩, evs2, .done) ∧
        hsErase ps1' = hsErase ps2' ∧ evs1.map normEv = evs2.map normEv ∧
        goodRun cfg c2 f ⟨ps, .num (o2 : ℚ)⟩ = true ∧
        goodBBb ps2'.bodyBytes = true := by
  intro f
  induction f with
  | zero =>
    intro ps w o1 o2 h1 h2 hdrop hbb hgood
    exact absurd hgood (by simp [goodRun])
  | succ f ih =>
    intro ps w o1 o2 h1 h2 hdrop hbb hgood
    have hlen : c1.length - o1 = c2.length - o2 := by
      have := congrArg List.length hdrop
      rwa [List.length_drop, List.length_drop] at this
    rw [goodRun_succ] at hgood
    rw [runLoop_succ, runLoop_succ]
    by_cases hguard : JSNum.lt (.num (o1 : ℚ)) (.num (c1.length : ℚ)) = true
    · have ho1 : o1 < c1.length := by
        rw [jsnum_lt_nat] at hguard
        exact of_decide_eq_true hguard
      have ho2 : o2 < c2.length := by omega
      have hguard2 : JSNum.lt (.num (o2 : ℚ)) (.num (c2.length : ℚ)) = true := by
        rw [jsnum_lt_nat]
        exact decide_eq_true ho2
      rw [if_pos hguard] at hgood ⊢
      rw [if_pos hguard2]
      obtain ⟨ps1', ps2', o1', o2', evs1, evs2, ctl, e1, e2, hrel, b1, b2, hd, hne⟩ :=
        stepState_dropEq cfg c1 c2 ps w o1 o2 (le_of_lt ho1) (le_of_lt ho2) hdrop hbb
      rw [e1] at hgood ⊢
      rw [e2]
      cases ctl with
      | brk => exact absurd hgood (by simp)
      | err c => exact absurd hgood (by simp)
      | crash => exact absurd hgood (by simp)
      | next =>
        dsimp only at hgood ⊢
        rw [Bool.and_eq_true] at hgood
        obtain ⟨hbb1, hgood'⟩ := hgood
        have hbbeq : ps1'.bodyBytes = ps2'.bodyBytes := by
          have := congrArg PState.bodyBytes hrel
          simpa [hsErase] using this
        have hbb2 : goodBBb ps2'.bodyBytes = true := by rwa [hbbeq] at hbb1
        have hps1 : ps1' = hsSet ps2' ps1'.headerSize := hsSet_of_hsErase hrel
        rw [hps1] at hgood'
        obtain ⟨q1, q2, E1, E2, r1, r2, rrel, rne, rgood, rbb⟩ :=
          ih ps2' ps1'.headerSize o1' o2' b1 b2 hd hbb2 hgood'
        rw [hps1, r1, r2]
        refine ⟨q1, q2, evs1 ++ E1, evs2 ++ E2, rfl, rfl, rrel, ?_, ?_, rbb⟩
        · rw [List.map_append, List.map_append, hne, rne]
        · rw [goodRun_succ, if_pos hguard2, e2]
          dsimp only
          rw [Bool.and_eq_true]
          exact ⟨hbb2, rgood⟩
    · have ho1 : o1 = c1.length := by
        rw [jsnum_lt_nat] at hguard
        have := of_decide_eq_false (Bool.of_not_eq_true hguard)
        omega
      have ho2 : o2 = c2.length := by omega
      subst ho1
      subst ho2
      have hguard2 : ¬JSNum.lt (.num (c2.length : ℚ)) (.num (c2.length : ℚ)) = true := by
        rw [jsnum_lt_nat]
        simp
      rw [if_neg hguard, if_neg hguard2]
      exact ⟨hsSet ps w, ps, [], [], rfl, rfl, rfl, rfl,
        by rw [goodRun_succ, if_neg hguard2], hbb⟩

end HttpTs

namespace HttpTs

/-- Generic line-handler step at a cursor inside the first of two adjacent
chunks: either the line (or carry) stays within the first chunk and the
split run takes the identical step, or the step crosses the boundary, in
which case the first-chunk run carries the partial line with no callbacks
and the second-chunk run's first step — from the carried state with any
header-size override — reassembles the same line and produces the same
callbacks and control as the unsplit step, with the cursor shifted by the
first chunk's length. -/
theorem lineStep_prefix (post : Str → M → M × List Ev × Ctl) (hp : PostOk post)
    (a b : Bytes) (ps : PState) (o : ℕ) (ho : o < a.length) :
    (∃ (ps' : PState) (o' : ℕ) (evs : List Ev) (ctl : Ctl),
      (match consumeLine (a ++ b) ⟨ps, .num (o : ℚ)⟩ with
       | (none, m') => (m', [], Ctl.next)
       | (some line, m') => post line m') = (⟨ps', .num ((o' : ℕ) : ℚ)⟩, evs, ctl) ∧
      (match consumeLine a ⟨ps, .num (o : ℚ)⟩ with
       | (none, m') => (m', [], Ctl.next)
       | (some line, m') => post line m') = (⟨ps', .num ((o' : ℕ) : ℚ)⟩, evs, ctl) ∧
      o' ≤ a.length) ∨
    (∃ psa : PState,
      (match consumeLine a ⟨ps, .num (o : ℚ)⟩ with
       | (none, m') => (m', [], Ctl.next)
       | (some line, m') => post line m') = (⟨psa, .num (a.length : ℚ)⟩, [], Ctl.next) ∧
      psa = { ps with line := ps.line ++ (a.drop o).map asciiByte } ∧
      ∀ h : ℚ, ∃ (psb psc : PState) (j : ℕ) (evs : List Ev) (ctl : Ctl),
        (match consumeLine b ⟨hsSet psa h, .num ((0 : ℕ) : ℚ)⟩ with
         | (none, m') => (m', [], Ctl.next)
         | (some line, m') => post line m') = (⟨psb, .num ((j : ℕ) : ℚ)⟩, evs, ctl) ∧
        (match consumeLine (a ++ b) ⟨ps, .num (o : ℚ)⟩ with
         | (none, m') => (m', [], Ctl.next)
         | (some line, m') => post line m') =
          (⟨psc, .num ((a.length + j : ℕ) : ℚ)⟩, evs, ctl) ∧
        hsErase psc = hsErase psb ∧ j ≤ b.length) := by
  have hoe : o ≤ a.length := le_of_lt ho
  have hoab : o ≤ (a ++ b).length := by
    rw [List.length_append]
    omega
  have hdropab : (a ++ b).drop o = a.drop o ++ b := List.drop_append_of_le_length hoe
  rw [consumeLine_nat (a ++ b) ps o hoab, consumeLine_nat a ps o hoe, hdropab,
    List.findIdx?_append]
  rcases hfa : (a.drop o).findIdx? (fun x => x == 10) with _ | k
  · rw [Option.none_or]
    right
    refine ⟨{ps with line := ps.line ++ (a.drop o).map asciiByte}, rfl, rfl, ?_⟩
    intro h
    rw [consumeLine_nat b
      (hsSet { ps with line := ps.line ++ (a.drop o).map asciiByte } h) 0 (Nat.zero_le _)]
    rw [List.drop_zero]
    rcases hfb : b.findIdx? (fun x => x == 10) with _ | jb
    · dsimp only [Option.map_none']
      refine ⟨{ { ps with headerSize := h } with
          line := (ps.line ++ (a.drop o).map asciiByte) ++ b.map asciiByte },
        { ps with line := ps.line ++ (a.drop o ++ b).map asciiByte },
        b.length, [], .next, rfl, ?_, ?_, le_refl _⟩
      · rw [show (((a ++ b).length : ℕ) : ℚ) = ((a.length + b.length : ℕ) : ℚ) by
          rw [List.length_append]]
      · simp [hsErase, hsSet, List.map_append, List.append_assoc]
    · dsimp only [Option.map_some']
      have hjb : jb < b.length := findIdx?_some_lt hfb
      have htake : (a.drop o ++ b).take (jb + (a.drop o).length) =
          a.drop o ++ b.take jb := by
        rw [Nat.add_comm, List.take_append]
      rw [htake]
      have hline : (hsSet { ps with line := ps.line ++ (a.drop o).map asciiByte } h).line ++
          (b.take jb).map asciiByte =
          ps.line ++ ((a.drop o) ++ b.take jb).map asciiByte := by
        simp [hsSet, List.map_append, List.append_assoc]
      rw [hline]
      have hstate : ({ hsSet { ps with line := ps.line ++ (a.drop o).map asciiByte } h
          with line := ([] : Str) }) = hsSet { ps with line := ([] : Str) } h := rfl
      rw [hstate]
      have hcast1 : ((0 + jb : ℕ) : ℚ) + 1 = ((jb + 1 : ℕ) : ℚ) := by push_cast; ring
      have hcast2 : ((o + (jb + (a.drop o).length) : ℕ) : ℚ) + 1 =
          ((a.length + (jb + 1) : ℕ) : ℚ) := by
        rw [List.length_drop]
        rw [show o + (jb + (a.length - o)) = a.length + jb by omega]
        push_cast
        ring
      rw [hcast1, hcast2]
      obtain ⟨q1, q2, evs, ctl, hpost2, hpost1, hrel⟩ :=
        hp (crStrip (ps.line ++ ((a.drop o) ++ b.take jb).map asciiByte))
          { ps with line := [] } h (.num ((jb + 1 : ℕ) : ℚ))
          (.num ((a.length + (jb + 1) : ℕ) : ℚ))
      exact ⟨q1, q2, jb + 1, evs, ctl, hpost1, hpost2, hrel.symm, hjb⟩
  · rw [show ((some k : Option ℕ).or ((b.findIdx? (fun x => x == 10)).map
        (fun i => i + (a.drop o).length))) = some k from rfl]
    left
    dsimp only
    have hk : k < a.length - o := by
      have := findIdx?_some_lt hfa
      rwa [List.length_drop] at this
    rw [List.take_append_of_le_length
      (show k ≤ (a.drop o).length by rw [List.length_drop]; omega)]
    have hcast : ((o + k : ℕ) : ℚ) + 1 = ((o + k + 1 : ℕ) : ℚ) := by push_cast; ring
    rw [hcast]
    obtain ⟨q1, q2, evs, ctl, hpost2, hpost1, hrel⟩ :=
      hp (crStrip (ps.line ++ ((a.drop o).take k).map asciiByte)) { ps with line := [] }
        ps.headerSize (.num ((o + k + 1 : ℕ) : ℚ)) (.num ((o + k + 1 : ℕ) : ℚ))
    exact ⟨q2, o + k + 1, evs, ctl, hpost2, hpost2, by omega⟩

end HttpTs

namespace HttpTs

/-- One handler step at a cursor strictly inside the first of two adjacent
chunks: either the step stays within the first chunk and the split run takes
the same step (same state and cursor; body callbacks may differ only in the
buffer argument, not the delivered bytes), or the step crosses the chunk
boundary, in which case the first-chunk run falls through consuming to its
end, and the second-chunk run's first step — with any header-size override —
continues exactly where the unsplit step lands, delivering the same bytes
split across the boundary. -/
theorem stepState_prefix (cfg : Cfg) (a b : Bytes) (ps : PState) (o : ℕ)
    (ho : o < a.length) (hb : b ≠ []) (hbb : goodBBb ps.bodyBytes = true) :
    (∃ (ps' : PState) (o' : ℕ) (evsC evsA : List Ev) (ctl : Ctl),
      stepState cfg (a ++ b) ⟨ps, .num (o : ℚ)⟩ = (⟨ps', .num ((o' : ℕ) : ℚ)⟩, evsC, ctl) ∧
      stepState cfg a ⟨ps, .num (o : ℚ)⟩ = (⟨ps', .num ((o' : ℕ) : ℚ)⟩, evsA, ctl) ∧
      o' ≤ a.length ∧ evsC.map normEv = evsA.map normEv) ∨
    (∃ (psa : PState) (evsA : List Ev),
      stepState cfg a ⟨ps, .num (o : ℚ)⟩ = (⟨psa, .num (a.length : ℚ)⟩, evsA, .next) ∧
      goodBBb psa.bodyBytes = true ∧
      ∀ h : ℚ, ∃ (psb psc : PState) (j : ℕ) (evsB evsC : List Ev) (ctl : Ctl),
        stepState cfg b ⟨hsSet psa h, .num ((0 : ℕ) : ℚ)⟩ =
          (⟨psb, .num ((j : ℕ) : ℚ)⟩, evsB, ctl) ∧
        stepState cfg (a ++ b) ⟨ps, .num (o : ℚ)⟩ =
          (⟨psc, .num ((a.length + j : ℕ) : ℚ)⟩, evsC, ctl) ∧
        hsErase psc = hsErase psb ∧ j ≤ b.length ∧
        ((evsA = [] ∧ evsC.map normEv = evsB.map normEv) ∨
          (∃ (u v : Bytes) (t : List NEv), evsC.map normEv = .body (u ++ v) :: t ∧
            evsA.map normEv = [.body u] ∧ evsB.map normEv = .body v :: t))) := by
  have hoe : o ≤ a.length := le_of_lt ho
  have hdab : o ≤ (a ++ b).length := by
    rw [List.length_append]
    omega
  have hdisp : ∀ (c : Bytes) (m : M), m.ps.state = ps.state →
      stepState cfg c m = stepState cfg c m := fun _ _ _ => rfl
  cases hstate : ps.state
  case REQUEST_LINE =>
    have hd1 : stepState cfg (a ++ b) ⟨ps, .num (o : ℚ)⟩ =
        REQUEST_LINE (a ++ b) ⟨ps, .num (o : ℚ)⟩ := by
      unfold stepState
      dsimp only
      rw [hstate]
    have hd2 : stepState cfg a ⟨ps, .num (o : ℚ)⟩ = REQUEST_LINE a ⟨ps, .num (o : ℚ)⟩ := by
      unfold stepState
      dsimp only
      rw [hstate]
    rcases lineStep_prefix RL_post RL_post_ok a b ps o ho with
      ⟨ps', o', evs, ctl, e1, e2, hle⟩ | ⟨psa, ea, hpsa, hall⟩
    · exact Or.inl ⟨ps', o', evs, evs, ctl, by rw [hd1, REQUEST_LINE_eqn]; exact e1,
        by rw [hd2, REQUEST_LINE_eqn]; exact e2, hle, rfl⟩
    · refine Or.inr ⟨psa, [], by rw [hd2, REQUEST_LINE_eqn]; exact ea,
        by rw [hpsa]; exact hbb, ?_⟩
      intro h
      obtain ⟨psb, psc, j, evs, ctl, eb, ec, hrel, hj⟩ := hall h
      have hdb : stepState cfg b ⟨hsSet psa h, .num ((0 : ℕ) : ℚ)⟩ =
          REQUEST_LINE b ⟨hsSet psa h, .num ((0 : ℕ) : ℚ)⟩ := by
        unfold stepState
        dsimp only
        rw [show (hsSet psa h).state = SName.REQUEST_LINE by rw [hpsa]; exact hstate]
      exact ⟨psb, psc, j, evs, evs, ctl, by rw [hdb, REQUEST_LINE_eqn]; exact eb,
        by rw [hd1, REQUEST_LINE_eqn]; exact ec, hrel, hj, Or.inl ⟨rfl, rfl⟩⟩
  case RESPONSE_LINE =>
    have hd1 : stepState cfg (a ++ b) ⟨ps, .num (o : ℚ)⟩ =
        RESPONSE_LINE (a ++ b) ⟨ps, .num (o : ℚ)⟩ := by
      unfold stepState
      dsimp only
      rw [hstate]
    have hd2 : stepState cfg a ⟨ps, .num (o : ℚ)⟩ = RESPONSE_LINE a ⟨ps, .num (o : ℚ)⟩ := by
      unfold stepState
      dsimp only
      rw [hstate]
    rcases lineStep_prefix RESP_post RESP_post_ok a b ps o ho with
      ⟨ps', o', evs, ctl, e1, e2, hle⟩ | ⟨psa, ea, hpsa, hall⟩
    · exact Or.inl ⟨ps', o', evs, evs, ctl, by rw [hd1, RESPONSE_LINE_eqn]; exact e1,
        by rw [hd2, RESPONSE_LINE_eqn]; exact e2, hle, rfl⟩
    · refine Or.inr ⟨psa, [], by rw [hd2, RESPONSE_LINE_eqn]; exact ea,
        by rw [hpsa]; exact hbb, ?_⟩
      intro h
      obtain ⟨psb, psc, j, evs, ctl, eb, ec, hrel, hj⟩ := hall h
      have hdb : stepState cfg b ⟨hsSet psa h, .num ((0 : ℕ) : ℚ)⟩ =
          RESPONSE_LINE b ⟨hsSet psa h, .num ((0 : ℕ) : ℚ)⟩ := by
        unfold stepState
        dsimp only
        rw [show (hsSet psa h).state = SName.RESPONSE_LINE by rw [hpsa]; exact hstate]
      exact ⟨psb, psc, j, evs, evs, ctl, by rw [hdb, RESPONSE_LINE_eqn]; exact eb,
        by rw [hd1, RESPONSE_LINE_eqn]; exact ec, hrel, hj, Or.inl ⟨rfl, rfl⟩⟩
  case HEADER =>
    have hd1 : stepState cfg (a ++ b) ⟨ps, .num (o : ℚ)⟩ =
        HEADER cfg (a ++ b) ⟨ps, .num (o : ℚ)⟩ := by
      unfold stepState
      dsimp only
      rw [hstate]
    have hd2 : stepState cfg a ⟨ps, .num (o : ℚ)⟩ = HEADER cfg a ⟨ps, .num (o : ℚ)⟩ := by
      unfold stepState
      dsimp only
      rw [hstate]
    rcases lineStep_prefix (HEADER_post cfg) (HEADER_post_ok cfg) a b ps o ho with
      ⟨ps', o', evs, ctl, e1, e2, hle⟩ | ⟨psa, ea, hpsa, hall⟩
    · exact Or.inl ⟨ps', o', evs, evs, ctl, by rw [hd1, HEADER_eqn]; exact e1,
        by rw [hd2, HEADER_eqn]; exact e2, hle, rfl⟩
    · refine Or.inr ⟨psa, [], by rw [hd2, HEADER_eqn]; exact ea,
        by rw [hpsa]; exact hbb, ?_⟩
      intro h
      obtain ⟨psb, psc, j, evs, ctl, eb, ec, hrel, hj⟩ := hall h
      have hdb : stepState cfg b ⟨hsSet psa h, .num ((0 : ℕ) : ℚ)⟩ =
          HEADER cfg b ⟨hsSet psa h, .num ((0 : ℕ) : ℚ)⟩ := by
        unfold stepState
        dsimp only
        rw [show (hsSet psa h).state = SName.HEADER by rw [hpsa]; exact hstate]
      exact ⟨psb, psc, j, evs, evs, ctl, by rw [hdb, HEADER_eqn]; exact eb,
        by rw [hd1, HEADER_eqn]; exact ec, hrel, hj, Or.inl ⟨rfl, rfl⟩⟩
  case BODY_CHUNKHEAD =>
    have hd1 : stepState cfg (a ++ b) ⟨ps, .num (o : ℚ)⟩ =
        BODY_CHUNKHEAD (a ++ b) ⟨ps, .num (o : ℚ)⟩ := by
      unfold stepState
      dsimp only
      rw [hstate]
    have hd2 : stepState cfg a ⟨ps, .num (o : ℚ)⟩ = BODY_CHUNKHEAD a ⟨ps, .num (o : ℚ)⟩ := by
      unfold stepState
      dsimp only
      rw [hstate]
    rcases lineStep_prefix CHUNKHEAD_post CHUNKHEAD_post_ok a b ps o ho with
      ⟨ps', o', evs, ctl, e1, e2, hle⟩ | ⟨psa, ea, hpsa, hall⟩
    · exact Or.inl ⟨ps', o', evs, evs, ctl, by rw [hd1, BODY_CHUNKHEAD_eqn]; exact e1,
        by rw [hd2, BODY_CHUNKHEAD_eqn]; exact e2, hle, rfl⟩
    · refine Or.inr ⟨psa, [], by rw [hd2, BODY_CHUNKHEAD_eqn]; exact ea,
        by rw [hpsa]; exact hbb, ?_⟩
      intro h
      obtain ⟨psb, psc, j, evs, ctl, eb, ec, hrel, hj⟩ := hall h
      have hdb : stepState cfg b ⟨hsSet psa h, .num ((0 : ℕ) : ℚ)⟩ =
          BODY_CHUNKHEAD b ⟨hsSet psa h, .num ((0 : ℕ) : ℚ)⟩ := by
        unfold stepState
        dsimp only
        rw [show (hsSet psa h).state = SName.BODY_CHUNKHEAD by rw [hpsa]; exact hstate]
      exact ⟨psb, psc, j, evs, evs, ctl, by rw [hdb, BODY_CHUNKHEAD_eqn]; exact eb,
        by rw [hd1, BODY_CHUNKHEAD_eqn]; exact ec, hrel, hj, Or.inl ⟨rfl, rfl⟩⟩
  case BODY_CHUNKEND =>
    have hd1 : stepState cfg (a ++ b) ⟨ps, .num (o : ℚ)⟩ =
        BODY_CHUNKEND (a ++ b) ⟨ps, .num (o : ℚ)⟩ := by
      unfold stepState
      dsimp only
      rw [hstate]
    have hd2 : stepState cfg a ⟨ps, .num (o : ℚ)⟩ = BODY_CHUNKEND a ⟨ps, .num (o : ℚ)⟩ := by
      unfold stepState
      dsimp only
      rw [hstate]
    rcases lineStep_prefix CHUNKEND_post CHUNKEND_post_ok a b ps o ho with
      ⟨ps', o', evs, ctl, e1, e2, hle⟩ | ⟨psa, ea, hpsa, hall⟩
    · exact Or.inl ⟨ps', o', evs, evs, ctl, by rw [hd1, BODY_CHUNKEND_eqn]; exact e1,
        by rw [hd2, BODY_CHUNKEND_eqn]; exact e2, hle, rfl⟩
    · refine Or.inr ⟨psa, [], by rw [hd2, BODY_CHUNKEND_eqn]; exact ea,
        by rw [hpsa]; exact hbb, ?_⟩
      intro h
      obtain ⟨psb, psc, j, evs, ctl, eb, ec, hrel, hj⟩ := hall h
      have hdb : stepState cfg b ⟨hsSet psa h, .num ((0 : ℕ) : ℚ)⟩ =
          BODY_CHUNKEND b ⟨hsSet psa h, .num ((0 : ℕ) : ℚ)⟩ := by
        unfold stepState
        dsimp only
        rw [show (hsSet psa h).state = SName.BODY_CHUNKEND by rw [hpsa]; exact hstate]
      exact ⟨psb, psc, j, evs, evs, ctl, by rw [hdb, BODY_CHUNKEND_eqn]; exact eb,
        by rw [hd1, BODY_CHUNKEND_eqn]; exact ec, hrel, hj, Or.inl ⟨rfl, rfl⟩⟩
  case BODY_CHUNKTRAILERS =>
    have hd1 : stepState cfg (a ++ b) ⟨ps, .num (o : ℚ)⟩ =
        BODY_CHUNKTRAILERS (a ++ b) ⟨ps, .num (o : ℚ)⟩ := by
      unfold stepState
      dsimp only
      rw [hstate]
    have hd2 : stepState cfg a ⟨ps, .num (o : ℚ)⟩ =
        BODY_CHUNKTRAILERS a ⟨ps, .num (o : ℚ)⟩ := by
      unfold stepState
      dsimp only
      rw [hstate]
    rcases lineStep_prefix TRAILERS_post TRAILERS_post_ok a b ps o ho with
      ⟨ps', o', evs, ctl, e1, e2, hle⟩ | ⟨psa, ea, hpsa, hall⟩
    · exact Or.inl ⟨ps', o', evs, evs, ctl, by rw [hd1, BODY_CHUNKTRAILERS_eqn]; exact e1,
        by rw [hd2, BODY_CHUNKTRAILERS_eqn]; exact e2, hle, rfl⟩
    · refine Or.inr ⟨psa, [], by rw [hd2, BODY_CHUNKTRAILERS_eqn]; exact ea,
        by rw [hpsa]; exact hbb, ?_⟩
      intro h
      obtain ⟨psb, psc, j, evs, ctl, eb, ec, hrel, hj⟩ := hall h
      have hdb : stepState cfg b ⟨hsSet psa h, .num ((0 : ℕ) : ℚ)⟩ =
          BODY_CHUNKTRAILERS b ⟨hsSet psa h, .num ((0 : ℕ) : ℚ)⟩ := by
        unfold stepState
        dsimp only
        rw [show (hsSet psa h).state = SName.BODY_CHUNKTRAILERS by rw [hpsa]; exact hstate]
      exact ⟨psb, psc, j, evs, evs, ctl, by rw [hdb, BODY_CHUNKTRAILERS_eqn]; exact eb,
        by rw [hd1, BODY_CHUNKTRAILERS_eqn]; exact ec, hrel, hj, Or.inl ⟨rfl, rfl⟩⟩
  case BODY_RAW =>
    have hd1 : stepState cfg (a ++ b) ⟨ps, .num (o : ℚ)⟩ =
        BODY_RAW (a ++ b) ⟨ps, .num (o : ℚ)⟩ := by
      unfold stepState
      dsimp only
      rw [hstate]
    have hd2 : stepState cfg a ⟨ps, .num (o : ℚ)⟩ = BODY_RAW a ⟨ps, .num (o : ℚ)⟩ := by
      unfold stepState
      dsimp only
      rw [hstate]
    right
    refine ⟨ps, [Ev.onBody a (.num (o : ℚ)) (JSNum.sub (.num (a.length : ℚ)) (.num (o : ℚ)))],
      by rw [hd2]; rfl, hbb, ?_⟩
    intro h
    have hdb : stepState cfg b ⟨hsSet ps h, .num ((0 : ℕ) : ℚ)⟩ =
        BODY_RAW b ⟨hsSet ps h, .num ((0 : ℕ) : ℚ)⟩ := by
      unfold stepState
      dsimp only
      rw [show (hsSet ps h).state = SName.BODY_RAW from hstate]
    refine ⟨hsSet ps h, ps, b.length,
      [Ev.onBody b (.num ((0 : ℕ) : ℚ)) (JSNum.sub (.num (b.length : ℚ)) (.num ((0 : ℕ) : ℚ)))],
      [Ev.onBody (a ++ b) (.num (o : ℚ))
        (JSNum.sub (.num ((a ++ b).length : ℚ)) (.num (o : ℚ)))],
      .next, by rw [hdb]; rfl, ?_, rfl, le_refl _, ?_⟩
    · rw [hd1]
      unfold BODY_RAW
      dsimp only
      rw [show (((a ++ b).length : ℕ) : ℚ) = ((a.length + b.length : ℕ) : ℚ) by
        rw [List.length_append]]
    · refine Or.inr ⟨a.drop o, b, [], ?_, ?_, ?_⟩
      · simp only [List.map, normEv, List.cons.injEq, and_true]
        congr 1
        rw [show JSNum.sub (.num ((a ++ b).length : ℚ)) (.num (o : ℚ)) =
            .num ((((a ++ b).length - o : ℕ) : ℕ) : ℚ) by
          unfold JSNum.sub
          dsimp only
          congr 1
          rw [← Nat.cast_sub hdab]]
        rw [sliceArgs_nat (a ++ b) o ((a ++ b).length - o) hdab]
        rw [List.drop_append_of_le_length hoe]
        rw [List.take_of_length_le]
        rw [List.length_append, List.length_drop]
        rw [List.length_append]
        omega
      · simp only [List.map, normEv, List.cons.injEq, and_true]
        congr 1
        rw [show JSNum.sub (.num (a.length : ℚ)) (.num (o : ℚ)) =
            .num (((a.length - o : ℕ) : ℕ) : ℚ) by
          unfold JSNum.sub
          dsimp only
          congr 1
          rw [← Nat.cast_sub hoe]]
        rw [sliceArgs_nat a o (a.length - o) hoe]
        rw [List.take_of_length_le (by rw [List.length_drop])]
      · simp only [List.map, normEv, List.cons.injEq, and_true]
        congr 1
        rw [show JSNum.sub (.num (b.length : ℚ)) (.num ((0 : ℕ) : ℚ)) =
            .num (((b.length - 0 : ℕ) : ℕ) : ℚ) by
          unfold JSNum.sub
          dsimp only
          congr 1
          rw [← Nat.cast_sub (Nat.zero_le _)]]
        rw [sliceArgs_nat b 0 (b.length - 0) (Nat.zero_le _)]
        rw [List.drop_zero, Nat.sub_zero, List.take_length]
  case BODY_CHUNK =>
    obtain ⟨kb, hkb⟩ := goodBB_getD hbb
    have hd1 : stepState cfg (a ++ b) ⟨ps, .num (o : ℚ)⟩ =
        BODY_CHUNK (a ++ b) ⟨ps, .num (o : ℚ)⟩ := by
      unfold stepState
      dsimp only
      rw [hstate]
    have hd2 : stepState cfg a ⟨ps, .num (o : ℚ)⟩ = BODY_CHUNK a ⟨ps, .num (o : ℚ)⟩ := by
      unfold stepState
      dsimp only
      rw [hstate]
    have hlab : (a ++ b).length - o = (a.length - o) + b.length := by
      rw [List.length_append]
      omega
    by_cases hcr : kb ≤ a.length - o
    · left
      have e1 : BODY_CHUNK (a ++ b) ⟨ps, .num (o : ℚ)⟩ =
          (⟨{ { ps with bodyBytes := some (.num ((0 : ℕ) : ℚ)) } with
              state := SName.BODY_CHUNKEND }, .num ((o + kb : ℕ) : ℚ)⟩,
            [Ev.onBody (a ++ b) (.num (o : ℚ)) (.num ((kb : ℕ) : ℚ))], .next) := by
        unfold BODY_CHUNK
        dsimp only
        rw [hkb, jsnum_body_min (a ++ b).length o kb hdab, hlab,
          show min ((a.length - o) + b.length) kb = kb by omega,
          jsnum_sub_nat kb kb (le_refl _), Nat.sub_self, jsnum_seq_zero 0,
          if_pos (show decide (0 = 0) = true from rfl), jsnum_add_nat o kb]
      have e2 : BODY_CHUNK a ⟨ps, .num (o : ℚ)⟩ =
          (⟨{ { ps with bodyBytes := some (.num ((0 : ℕ) : ℚ)) } with
              state := SName.BODY_CHUNKEND }, .num ((o + kb : ℕ) : ℚ)⟩,
            [Ev.onBody a (.num (o : ℚ)) (.num ((kb : ℕ) : ℚ))], .next) := by
        unfold BODY_CHUNK
        dsimp only
        rw [hkb, jsnum_body_min a.length o kb hoe,
          show min (a.length - o) kb = kb by omega,
          jsnum_sub_nat kb kb (le_refl _), Nat.sub_self, jsnum_seq_zero 0,
          if_pos (show decide (0 = 0) = true from rfl), jsnum_add_nat o kb]
      refine ⟨_, o + kb, _, _, .next, by rw [hd1]; exact e1, by rw [hd2]; exact e2,
        by omega, ?_⟩
      simp only [List.map, normEv, List.cons.injEq, and_true]
      congr 1
      rw [sliceArgs_nat (a ++ b) o kb hdab, sliceArgs_nat a o kb hoe,
        List.drop_append_of_le_length hoe,
        List.take_append_of_le_length (show kb ≤ (a.drop o).length by
          rw [List.length_drop]; omega)]
    · have hd3 : a.length - o < kb := by omega
      right
      have ea : BODY_CHUNK a ⟨ps, .num (o : ℚ)⟩ =
          (⟨{ ps with bodyBytes := some (.num ((kb - (a.length - o) : ℕ) : ℚ)) },
            .num (a.length : ℚ)⟩,
            [Ev.onBody a (.num (o : ℚ)) (.num ((a.length - o : ℕ) : ℚ))], .next) := by
        unfold BODY_CHUNK
        dsimp only
        rw [hkb, jsnum_body_min a.length o kb hoe,
          show min (a.length - o) kb = a.length - o by omega,
          jsnum_sub_nat kb (a.length - o) (le_of_lt hd3), jsnum_seq_zero,
          if_neg (show ¬decide (kb - (a.length - o) = 0) = true by
            simp only [decide_eq_true_eq]; omega),
          jsnum_add_nat o (a.length - o), show o + (a.length - o) = a.length by omega]
      refine ⟨{ ps with bodyBytes := some (.num ((kb - (a.length - o) : ℕ) : ℚ)) }, _,
        by rw [hd2]; exact ea,
        by simp only [goodBBb, Bool.and_eq_true, decide_eq_true_eq]
           exact ⟨by positivity, Rat.den_natCast _⟩, ?_⟩
      intro h
      have hgetb : (hsSet { ps with
          bodyBytes := some (.num ((kb - (a.length - o) : ℕ) : ℚ)) } h).bodyBytes.getD
          (.num 0) = .num ((kb - (a.length - o) : ℕ) : ℚ) := rfl
      have hdb : stepState cfg b ⟨hsSet { ps with
          bodyBytes := some (.num ((kb - (a.length - o) : ℕ) : ℚ)) } h,
          .num ((0 : ℕ) : ℚ)⟩ = BODY_CHUNK b ⟨hsSet { ps with
          bodyBytes := some (.num ((kb - (a.length - o) : ℕ) : ℚ)) } h,
          .num ((0 : ℕ) : ℚ)⟩ := by
        unfold stepState
        dsimp only
        rw [show (hsSet { ps with
          bodyBytes := some (.num ((kb - (a.length - o) : ℕ) : ℚ)) } h).state =
          SName.BODY_CHUNK from hstate]
      have hlb : min b.length (kb - (a.length - o)) ≤ b.length := min_le_left _ _
      have hlbk : min b.length (kb - (a.length - o)) ≤ kb - (a.length - o) := min_le_right _ _
      have eb : BODY_CHUNK b ⟨hsSet { ps with
          bodyBytes := some (.num ((kb - (a.length - o) : ℕ) : ℚ)) } h,
          .num ((0 : ℕ) : ℚ)⟩ =
          (⟨(if kb - (a.length - o) - min b.length (kb - (a.length - o)) = 0 then
              { { hsSet { ps with
                  bodyBytes := some (.num ((kb - (a.length - o) : ℕ) : ℚ)) } h with
                  bodyBytes := some (.num ((kb - (a.length - o) -
                    min b.length (kb - (a.length - o)) : ℕ) : ℚ)) } with
                  state := SName.BODY_CHUNKEND }
            else
              { hsSet { ps with
                  bodyBytes := some (.num ((kb - (a.length - o) : ℕ) : ℚ)) } h with
                  bodyBytes := some (.num ((kb - (a.length - o) -
                    min b.length (kb - (a.length - o)) : ℕ) : ℚ)) }),
            .num ((min b.length (kb - (a.length - o)) : ℕ) : ℚ)⟩,
            [Ev.onBody b (.num ((0 : ℕ) : ℚ))
              (.num ((min b.length (kb - (a.length - o)) : ℕ) : ℚ))], .next) := by
        unfold BODY_CHUNK
        dsimp only
        rw [hgetb, jsnum_body_min b.length 0 (kb - (a.length - o)) (Nat.zero_le _),
          Nat.sub_zero,
          jsnum_sub_nat (kb - (a.length - o)) (min b.length (kb - (a.length - o))) hlbk,
          jsnum_seq_zero, jsnum_add_nat 0 (min b.length (kb - (a.length - o))),
          Nat.zero_add]
        by_cases hz : kb - (a.length - o) - min b.length (kb - (a.length - o)) = 0
        · rw [if_pos (show decide (kb - (a.length - o) -
              min b.length (kb - (a.length - o)) = 0) = true by rw [hz]; rfl),
            if_pos hz]
        · rw [if_neg (show ¬decide (kb - (a.length - o) -
              min b.length (kb - (a.length - o)) = 0) = true by
              simp only [decide_eq_true_eq]; exact hz),
            if_neg hz]
      have ec : BODY_CHUNK (a ++ b) ⟨ps, .num (o : ℚ)⟩ =
          (⟨(if kb - (a.length - o) - min b.length (kb - (a.length - o)) = 0 then
              { { ps with bodyBytes := some (.num ((kb - (a.length - o) -
                  min b.length (kb - (a.length - o)) : ℕ) : ℚ)) } with
                  state := SName.BODY_CHUNKEND }
            else
              { ps with bodyBytes := some (.num ((kb - (a.length - o) -
                  min b.length (kb - (a.length - o)) : ℕ) : ℚ)) }),
            .num ((a.length + min b.length (kb - (a.length - o)) : ℕ) : ℚ)⟩,
            [Ev.onBody (a ++ b) (.num (o : ℚ))
              (.num (((a.length - o) + min b.length (kb - (a.length - o)) : ℕ) : ℚ))],
            .next) := by
        unfold BODY_CHUNK
        dsimp only
        rw [hkb, jsnum_body_min (a ++ b).length o kb hdab, hlab,
          show min ((a.length - o) + b.length) kb =
            (a.length - o) + min b.length (kb - (a.length - o)) by omega,
          jsnum_sub_nat kb ((a.length - o) + min b.length (kb - (a.length - o)))
            (by omega),
          show kb - ((a.length - o) + min b.length (kb - (a.length - o))) =
            kb - (a.length - o) - min b.length (kb - (a.length - o)) by omega,
          jsnum_seq_zero,
          jsnum_add_nat o ((a.length - o) + min b.length (kb - (a.length - o))),
          show o + ((a.length - o) + min b.length (kb - (a.length - o))) =
            a.length + min b.length (kb - (a.length - o)) by omega]
        by_cases hz : kb - (a.length - o) - min b.length (kb - (a.length - o)) = 0
        · rw [if_pos (show decide (kb - (a.length - o) -
              min b.length (kb - (a.length - o)) = 0) = true by rw [hz]; rfl),
            if_pos hz]
        · rw [if_neg (show ¬decide (kb - (a.length - o) -
              min b.length (kb - (a.length - o)) = 0) = true by
              simp only [decide_eq_true_eq]; exact hz),
            if_neg hz]
      refine ⟨_, _, min b.length (kb - (a.length - o)), _, _, .next,
        by rw [hdb]; exact eb, by rw [hd1]; exact ec, ?_, hlb, ?_⟩
      · by_cases hz : kb - (a.length - o) - min b.length (kb - (a.length - o)) = 0
        · simp only [if_pos hz]
          rfl
        · simp only [if_neg hz]
          rfl
      · refine Or.inr ⟨a.drop o, b.take (min b.length (kb - (a.length - o))), [], ?_, ?_, ?_⟩
        · simp only [List.map, normEv, List.cons.injEq, and_true]
          congr 1
          rw [sliceArgs_nat (a ++ b) o ((a.length - o) + min b.length (kb - (a.length - o)))
            hdab, List.drop_append_of_le_length hoe,
            show (a.length - o) + min b.length (kb - (a.length - o)) =
              (a.drop o).length + min b.length (kb - (a.length - o)) by
              rw [List.length_drop],
            List.take_append]
        · simp only [List.map, normEv, List.cons.injEq, and_true]
          congr 1
          rw [sliceArgs_nat a o (a.length - o) hoe,
            List.take_of_length_le (by rw [List.length_drop])]
        · simp only [List.map, normEv, List.cons.injEq, and_true]
          congr 1
          rw [sliceArgs_nat b 0 (min b.length (kb - (a.length - o))) (Nat.zero_le _),
            List.drop_zero]
  case BODY_SIZED =>
    obtain ⟨kb, hkb⟩ := goodBB_getD hbb
    have hd1 : stepState cfg (a ++ b) ⟨ps, .num (o : ℚ)⟩ =
        BODY_SIZED (a ++ b) ⟨ps, .num (o : ℚ)⟩ := by
      unfold stepState
      dsimp only
      rw [hstate]
    have hd2 : stepState cfg a ⟨ps, .num (o : ℚ)⟩ = BODY_SIZED a ⟨ps, .num (o : ℚ)⟩ := by
      unfold stepState
      dsimp only
      rw [hstate]
    have hlab : (a ++ b).length - o = (a.length - o) + b.length := by
      rw [List.length_append]
      omega
    by_cases hcr : kb ≤ a.length - o
    · left
      have e1 : BODY_SIZED (a ++ b) ⟨ps, .num (o : ℚ)⟩ =
          (⟨initParser ps.type ps.line, .num ((o + kb : ℕ) : ℚ)⟩,
            [Ev.onBody (a ++ b) (.num (o : ℚ)) (.num ((kb : ℕ) : ℚ)),
              Ev.onMessageComplete], .next) := by
        unfold BODY_SIZED nextRequest
        dsimp only
        rw [hkb, jsnum_body_min (a ++ b).length o kb hdab, hlab,
          show min ((a.length - o) + b.length) kb = kb by omega,
          jsnum_sub_nat kb kb (le_refl _), Nat.sub_self, jsnum_seq_zero 0,
          if_pos (show decide (0 = 0) = true from rfl), jsnum_add_nat o kb]
      have e2 : BODY_SIZED a ⟨ps, .num (o : ℚ)⟩ =
          (⟨initParser ps.type ps.line, .num ((o + kb : ℕ) : ℚ)⟩,
            [Ev.onBody a (.num (o : ℚ)) (.num ((kb : ℕ) : ℚ)),
              Ev.onMessageComplete], .next) := by
        unfold BODY_SIZED nextRequest
        dsimp only
        rw [hkb, jsnum_body_min a.length o kb hoe,
          show min (a.length - o) kb = kb by omega,
          jsnum_sub_nat kb kb (le_refl _), Nat.sub_self, jsnum_seq_zero 0,
          if_pos (show decide (0 = 0) = true from rfl), jsnum_add_nat o kb]
      refine ⟨_, o + kb, _, _, .next, by rw [hd1]; exact e1, by rw [hd2]; exact e2,
        by omega, ?_⟩
      simp only [List.map, normEv, List.cons.injEq, and_true]
      congr 1
      rw [sliceArgs_nat (a ++ b) o kb hdab, sliceArgs_nat a o kb hoe,
        List.drop_append_of_le_length hoe,
        List.take_append_of_le_length (show kb ≤ (a.drop o).length by
          rw [List.length_drop]; omega)]
    · have hd3 : a.length - o < kb := by omega
      right
      have ea : BODY_SIZED a ⟨ps, .num (o : ℚ)⟩ =
          (⟨{ ps with bodyBytes := some (.num ((kb - (a.length - o) : ℕ) : ℚ)) },
            .num (a.length : ℚ)⟩,
            [Ev.onBody a (.num (o : ℚ)) (.num ((a.length - o : ℕ) : ℚ))], .next) := by
        unfold BODY_SIZED
        dsimp only
        rw [hkb, jsnum_body_min a.length o kb hoe,
          show min (a.length - o) kb = a.length - o by omega,
          jsnum_sub_nat kb (a.length - o) (le_of_lt hd3), jsnum_seq_zero,
          if_neg (show ¬decide (kb - (a.length - o) = 0) = true by
            simp only [decide_eq_true_eq]; omega),
          jsnum_add_nat o (a.length - o), show o + (a.length - o) = a.length by omega]
      refine ⟨{ ps with bodyBytes := some (.num ((kb - (a.length - o) : ℕ) : ℚ)) }, _,
        by rw [hd2]; exact ea,
        by simp only [goodBBb, Bool.and_eq_true, decide_eq_true_eq]
           exact ⟨by positivity, Rat.den_natCast _⟩, ?_⟩
      intro h
      have hgetb : (hsSet { ps with
          bodyBytes := some (.num ((kb - (a.length - o) : ℕ) : ℚ)) } h).bodyBytes.getD
          (.num 0) = .num ((kb - (a.length - o) : ℕ) : ℚ) := rfl
      have hdb : stepState cfg b ⟨hsSet { ps with
          bodyBytes := some (.num ((kb - (a.length - o) : ℕ) : ℚ)) } h,
          .num ((0 : ℕ) : ℚ)⟩ = BODY_SIZED b ⟨hsSet { ps with
          bodyBytes := some (.num ((kb - (a.length - o) : ℕ) : ℚ)) } h,
          .num ((0 : ℕ) : ℚ)⟩ := by
        unfold stepState
        dsimp only
        rw [show (hsSet { ps with
          bodyBytes := some (.num ((kb - (a.length - o) : ℕ) : ℚ)) } h).state =
          SName.BODY_SIZED from hstate]
      have hlb : min b.length (kb - (a.length - o)) ≤ b.length := min_le_left _ _
      have hlbk : min b.length (kb - (a.length - o)) ≤ kb - (a.length - o) := min_le_right _ _
      by_cases hz : kb - (a.length - o) - min b.length (kb - (a.length - o)) = 0
      · have eb : BODY_SIZED b ⟨hsSet { ps with
            bodyBytes := some (.num ((kb - (a.length - o) : ℕ) : ℚ)) } h,
            .num ((0 : ℕ) : ℚ)⟩ =
            (⟨initParser ps.type ps.line,
              .num ((min b.length (kb - (a.length - o)) : ℕ) : ℚ)⟩,
              [Ev.onBody b (.num ((0 : ℕ) : ℚ))
                (.num ((min b.length (kb - (a.length - o)) : ℕ) : ℚ)),
                Ev.onMessageComplete], .next) := by
          unfold BODY_SIZED nextRequest
          dsimp only
          rw [hgetb, jsnum_body_min b.length 0 (kb - (a.length - o)) (Nat.zero_le _),
            Nat.sub_zero,
            jsnum_sub_nat (kb - (a.length - o)) (min b.length (kb - (a.length - o))) hlbk,
            jsnum_seq_zero, jsnum_add_nat 0 (min b.length (kb - (a.length - o))),
            Nat.zero_add,
            if_pos (show decide (kb - (a.length - o) -
              min b.length (kb - (a.length - o)) = 0) = true by rw [hz]; rfl)]
          rfl
        have ec : BODY_SIZED (a ++ b) ⟨ps, .num (o : ℚ)⟩ =
            (⟨initParser ps.type ps.line,
              .num ((a.length + min b.length (kb - (a.length - o)) : ℕ) : ℚ)⟩,
              [Ev.onBody (a ++ b) (.num (o : ℚ))
                (.num (((a.length - o) + min b.length (kb - (a.length - o)) : ℕ) : ℚ)),
                Ev.onMessageComplete], .next) := by
          unfold BODY_SIZED nextRequest
          dsimp only
          rw [hkb, jsnum_body_min (a ++ b).length o kb hdab, hlab,
            show min ((a.length - o) + b.length) kb =
              (a.length - o) + min b.length (kb - (a.length - o)) by omega,
            jsnum_sub_nat kb ((a.length - o) + min b.length (kb - (a.length - o)))
              (by omega),
            show kb - ((a.length - o) + min b.length (kb - (a.length - o))) =
              kb - (a.length - o) - min b.length (kb - (a.length - o)) by omega,
            jsnum_seq_zero,
            jsnum_add_nat o ((a.length - o) + min b.length (kb - (a.length - o))),
            show o + ((a.length - o) + min b.length (kb - (a.length - o))) =
              a.length + min b.length (kb - (a.length - o)) by omega,
            if_pos (show decide (kb - (a.length - o) -
              min b.length (kb - (a.length - o)) = 0) = true by rw [hz]; rfl)]
        refine ⟨_, _, min b.length (kb - (a.length - o)), _, _, .next,
          by rw [hdb]; exact eb, by rw [hd1]; exact ec, rfl, hlb, ?_⟩
        refine Or.inr ⟨a.drop o, b.take (min b.length (kb - (a.length - o))),
          [NEv.onMessageComplete], ?_, ?_, ?_⟩
        · simp only [List.map, normEv, List.cons.injEq, and_true]
          congr 1
          rw [sliceArgs_nat (a ++ b) o ((a.length - o) + min b.length (kb - (a.length - o)))
            hdab, List.drop_append_of_le_length hoe,
            show (a.length - o) + min b.length (kb - (a.length - o)) =
              (a.drop o).length + min b.length (kb - (a.length - o)) by
              rw [List.length_drop],
            List.take_append]
        · simp only [List.map, normEv, List.cons.injEq, and_true]
          congr 1
          rw [sliceArgs_nat a o (a.length - o) hoe,
            List.take_of_length_le (by rw [List.length_drop])]
        · simp only [List.map, normEv, List.cons.injEq, and_true]
          congr 1
          rw [sliceArgs_nat b 0 (min b.length (kb - (a.length - o))) (Nat.zero_le _),
            List.drop_zero]
      · have eb : BODY_SIZED b ⟨hsSet { ps with
            bodyBytes := some (.num ((kb - (a.length - o) : ℕ) : ℚ)) } h,
            .num ((0 : ℕ) : ℚ)⟩ =
            (⟨{ hsSet { ps with
                bodyBytes := some (.num ((kb - (a.length - o) : ℕ) : ℚ)) } h with
                bodyBytes := some (.num ((kb - (a.length - o) -
                  min b.length (kb - (a.length - o)) : ℕ) : ℚ)) },
              .num ((min b.length (kb - (a.length - o)) : ℕ) : ℚ)⟩,
              [Ev.onBody b (.num ((0 : ℕ) : ℚ))
                (.num ((min b.length (kb - (a.length - o)) : ℕ) : ℚ))], .next) := by
          unfold BODY_SIZED
          dsimp only
          rw [hgetb, jsnum_body_min b.length 0 (kb - (a.length - o)) (Nat.zero_le _),
            Nat.sub_zero,
            jsnum_sub_nat (kb - (a.length - o)) (min b.length (kb - (a.length - o))) hlbk,
            jsnum_seq_zero, jsnum_add_nat 0 (min b.length (kb - (a.length - o))),
            Nat.zero_add,
            if_neg (show ¬decide (kb - (a.length - o) -
              min b.length (kb - (a.length - o)) = 0) = true by
              simp only [decide_eq_true_eq]; exact hz)]
        have ec : BODY_SIZED (a ++ b) ⟨ps, .num (o : ℚ)⟩ =
            (⟨{ ps with bodyBytes := some (.num ((kb - (a.length - o) -
                min b.length (kb - (a.length - o)) : ℕ) : ℚ)) },
              .num ((a.length + min b.length (kb - (a.length - o)) : ℕ) : ℚ)⟩,
              [Ev.onBody (a ++ b) (.num (o : ℚ))
                (.num (((a.length - o) + min b.length (kb - (a.length - o)) : ℕ) : ℚ))],
              .next) := by
          unfold BODY_SIZED
          dsimp only
          rw [hkb, jsnum_body_min (a ++ b).length o kb hdab, hlab,
            show min ((a.length - o) + b.length) kb =
              (a.length - o) + min b.length (kb - (a.length - o)) by omega,
            jsnum_sub_nat kb ((a.length - o) + min b.length (kb - (a.length - o)))
              (by omega),
            show kb - ((a.length - o) + min b.length (kb - (a.length - o))) =
              kb - (a.length - o) - min b.length (kb - (a.length - o)) by omega,
            jsnum_seq_zero,
            jsnum_add_nat o ((a.length - o) + min b.length (kb - (a.length - o))),
            show o + ((a.length - o) + min b.length (kb - (a.length - o))) =
              a.length + min b.length (kb - (a.length - o)) by omega,
            if_neg (show ¬decide (kb - (a.length - o) -
              min b.length (kb - (a.length - o)) = 0) = true by
              simp only [decide_eq_true_eq]; exact hz)]
        refine ⟨_, _, min b.length (kb - (a.length - o)), _, _, .next,
          by rw [hdb]; exact eb, by rw [hd1]; exact ec, ?_, hlb, ?_⟩
        · rfl
        refine Or.inr ⟨a.drop o, b.take (min b.length (kb - (a.length - o))), [], ?_, ?_, ?_⟩
        · simp only [List.map, normEv, List.cons.injEq, and_true]
          congr 1
          rw [sliceArgs_nat (a ++ b) o ((a.length - o) + min b.length (kb - (a.length - o)))
            hdab, List.drop_append_of_le_length hoe,
            show (a.length - o) + min b.length (kb - (a.length - o)) =
              (a.drop o).length + min b.length (kb - (a.length - o)) by
              rw [List.length_drop],
            List.take_append]
        · simp only [List.map, normEv, List.cons.injEq, and_true]
          congr 1
          rw [sliceArgs_nat a o (a.length - o) hoe,
            List.take_of_length_le (by rw [List.length_drop])]
        · simp only [List.map, normEv, List.cons.injEq, and_true]
          congr 1
          rw [sliceArgs_nat b 0 (min b.length (kb - (a.length - o))) (Nat.zero_le _),
            List.drop_zero]

end HttpTs

namespace HttpTs

/-- Merging is a congruence for appending on the right. -/
theorem mergeBodies_append_congr (X : List NEv) {C D : List NEv}
    (h : mergeBodies C = mergeBodies D) :
    mergeBodies (X ++ C) = mergeBodies (X ++ D) := by
  induction X with
  | nil => simpa using h
  | cons e X ih =>
    cases e <;> simp only [List.cons_append, mergeBodies, List.append_eq] <;> rw [ih]

/-- A body delivery split in two merges back to the unsplit delivery. -/
theorem mergeBodies_body_body (u v : Bytes) (w : List NEv) :
    mergeBodies (.body (u ++ v) :: w) = mergeBodies (.body u :: .body v :: w) := by
  simp only [mergeBodies]
  rcases hm : mergeBodies w with _ | ⟨e, r⟩
  · rfl
  · cases e <;> simp [List.append_assoc]

/-- A loop run that finishes within its fuel is unchanged by more fuel. -/
theorem runLoop_mono (cfg : Cfg) (c : Bytes) :
    ∀ (f : ℕ) (m : M), (runLoop cfg c f m).2.2 ≠ .fuelOut →
      runLoop cfg c (f + 1) m = runLoop cfg c f m := by
  intro f
  induction f with
  | zero => intro m hm; exact absurd rfl hm
  | succ f ih =>
    intro m hm
    rw [runLoop_succ cfg c f m] at hm
    rw [runLoop_succ cfg c (f + 1) m, runLoop_succ cfg c f m]
    by_cases hg : JSNum.lt m.offset (.num c.length) = true
    · rw [if_pos hg] at hm
      rw [if_pos hg, if_pos hg]
      rcases hs : stepState cfg c m with ⟨m', evs, ctl⟩
      cases ctl with
      | next =>
        try rw [hs] at hm
        dsimp only at hm ⊢
        rcases hr : runLoop cfg c f m' with ⟨m2, evs2, x⟩
        try rw [hr] at hm
        dsimp only at hm ⊢
        rw [ih m' (by rw [hr]; exact hm), hr]
      | brk => rfl
      | err c => rfl
      | crash => rfl
    · rw [if_neg hg] at hm
      rw [if_neg hg, if_neg hg]

/-- A benign run stays benign with more fuel. -/
theorem goodRun_mono (cfg : Cfg) (c : Bytes) :
    ∀ (f : ℕ) (m : M), goodRun cfg c f m = true → goodRun cfg c (f + 1) m = true := by
  intro f
  induction f with
  | zero => intro m hm; exact absurd hm (by simp [goodRun])
  | succ f ih =>
    intro m hm
    rw [goodRun_succ] at hm
    rw [goodRun_succ]
    by_cases hg : JSNum.lt m.offset (.num c.length) = true
    · rw [if_pos hg] at hm ⊢
      rcases hs : stepState cfg c m with ⟨m', evs, ctl⟩
      try rw [hs] at hm
      cases ctl with
      | next =>
        dsimp only at hm ⊢
        rw [Bool.and_eq_true] at hm ⊢
        exact ⟨hm.1, ih m' hm.2⟩
      | brk => exact absurd hm (by simp)
      | err c => exact absurd hm (by simp)
      | crash => exact absurd hm (by simp)
    · rw [if_neg hg]

end HttpTs

namespace HttpTs

/-- Splitting the input after a prefix `a`: a benign unsplit loop over
`a ++ b` factors into the loop over `a` (consuming all of it, with no
errors), the `execute` boundary (modelled by an arbitrary header-size
override), and the loop over `b`, with the final states equal up to the
header size and the same callbacks up to body-delivery granularity. -/
theorem runLoop_split (cfg : Cfg) (a b : Bytes) (hbne : b ≠ []) :
    ∀ (f : ℕ) (ps : PState) (o : ℕ), o ≤ a.length →
      goodBBb ps.bodyBytes = true →
      goodRun cfg (a ++ b) f ⟨ps, .num (o : ℚ)⟩ = true →
      ∃ (psa : PState) (evsA : List Ev),
        runLoop cfg a f ⟨ps, .num (o : ℚ)⟩ = (⟨psa, .num (a.length : ℚ)⟩, evsA, .done) ∧
        goodBBb psa.bodyBytes = true ∧
        ∀ h : ℚ, ∃ (psb psc : PState) (evsB evsC : List Ev),
          runLoop cfg b f ⟨hsSet psa h, .num ((0 : ℕ) : ℚ)⟩ =
            (⟨psb, .num (b.length : ℚ)⟩, evsB, .done) ∧
          goodRun cfg b f ⟨hsSet psa h, .num ((0 : ℕ) : ℚ)⟩ = true ∧
          goodBBb psb.bodyBytes = true ∧
          runLoop cfg (a ++ b) f ⟨ps, .num (o : ℚ)⟩ =
            (⟨psc, .num ((a ++ b).length : ℚ)⟩, evsC, .done) ∧
          hsErase psc = hsErase psb ∧
          mergeBodies (evsC.map normEv) =
            mergeBodies (evsA.map normEv ++ evsB.map normEv) := by
  intro f
  induction f with
  | zero =>
    intro ps o hoe hbb hgood
    exact absurd hgood (by simp [goodRun])
  | succ f ih =>
    intro ps o hoe hbb hgood
    rw [goodRun_succ] at hgood
    by_cases ho : o < a.length
    · have hguardab : JSNum.lt (.num (o : ℚ)) (.num ((a ++ b).length : ℚ)) = true := by
        rw [jsnum_lt_nat]
        exact decide_eq_true (by rw [List.length_append]; omega)
      have hguarda : JSNum.lt (.num (o : ℚ)) (.num (a.length : ℚ)) = true := by
        rw [jsnum_lt_nat]
        exact decide_eq_true ho
      rw [if_pos hguardab] at hgood
      rcases stepState_prefix cfg a b ps o ho hbne hbb with
        ⟨ps', o', evsC, evsA, ctl, eC, eA, ho', hne⟩ | ⟨psa0, evsA0, eA, hbbA0, hall⟩
      · rw [eC] at hgood
        cases ctl with
        | brk => exact absurd hgood (by simp)
        | err c => exact absurd hgood (by simp)
        | crash => exact absurd hgood (by simp)
        | next =>
          dsimp only at hgood
          rw [Bool.and_eq_true] at hgood
          obtain ⟨hbb', hgood'⟩ := hgood
          obtain ⟨psa, evsA', eA', hbbA, hall'⟩ := ih ps' o' ho' hbb' hgood'
          refine ⟨psa, evsA ++ evsA', ?_, hbbA, ?_⟩
          · rw [runLoop_succ, if_pos hguarda, eA]
            dsimp only
            rw [eA']
          · intro h
            obtain ⟨psb, psc, evsB, evsC', eB, gB, hbbB, eC', hrel, htr⟩ := hall' h
            refine ⟨psb, psc, evsB, evsC ++ evsC', ?_, ?_, hbbB, ?_, hrel, ?_⟩
            · rw [runLoop_mono cfg b f _ (by rw [eB]; intro hx; cases hx), eB]
            · exact goodRun_mono cfg b f _ gB
            · rw [runLoop_succ, if_pos hguardab, eC]
              dsimp only
              rw [eC']
            · rw [List.map_append, List.map_append, hne]
              have hassoc : (evsA.map normEv ++ evsA'.map normEv) ++ evsB.map normEv =
                  evsA.map normEv ++ (evsA'.map normEv ++ evsB.map normEv) := by
                rw [List.append_assoc]
              rw [hassoc]
              exact mergeBodies_append_congr (evsA.map normEv) htr
      · obtain ⟨psb0, psc0, j0, evsB0, evsC0, ctl0, eb0, ec0, hrel0, hj0, htr0⟩ := hall 0
        rw [ec0] at hgood
        cases ctl0 with
        | brk => exact absurd hgood (by simp)
        | err c => exact absurd hgood (by simp)
        | crash => exact absurd hgood (by simp)
        | next =>
          dsimp only at hgood
          rw [Bool.and_eq_true] at hgood
          obtain ⟨hbbc, hgood'⟩ := hgood
          have hfpos : f ≠ 0 := by
            intro h0
            rw [h0] at hgood'
            exact absurd hgood' (by simp [goodRun])
          refine ⟨psa0, evsA0, ?_, hbbA0, ?_⟩
          · rw [runLoop_succ, if_pos hguarda, eA]
            dsimp only
            obtain ⟨f', rfl⟩ := Nat.exists_eq_succ_of_ne_zero hfpos
            rw [runLoop_succ, if_neg (by rw [jsnum_lt_nat]; simp)]
            rw [List.append_nil]
          · intro h
            obtain ⟨psb1, psc1, j1, evsB1, evsC1, ctl1, eb1, ec1, hrel1, hj1, htr1⟩ := hall h
            rw [ec0] at ec1
            simp only [Prod.mk.injEq, M.mk.injEq, JSNum.num.injEq, Nat.cast_inj] at ec1
            obtain ⟨⟨hpsc, hj⟩, hevc, hctl⟩ := ec1
            have hj01 : j1 = j0 := by omega
            subst hj01
            subst hpsc
            subst hevc
            subst hctl
            have hps1 : psc0 = hsSet psb1 psc0.headerSize := hsSet_of_hsErase hrel1
            have hbbb1 : goodBBb psb1.bodyBytes = true := by
              have := congrArg PState.bodyBytes hrel1
              simp only [hsErase] at this
              rwa [show psc0.bodyBytes = psb1.bodyBytes from this] at hbbc
            have hgood'' : goodRun cfg (a ++ b) f
                ⟨hsSet psb1 psc0.headerSize, .num ((a.length + j1 : ℕ) : ℚ)⟩ = true := by
              rw [← hps1]
              exact hgood'
            have hdropeq : (a ++ b).drop (a.length + j1) = b.drop j1 := List.drop_append j1
            obtain ⟨q1, q2, E1, E2, r1, r2, rrel, rne, rgood, rbb⟩ :=
              runLoop_dropEq cfg (a ++ b) b f psb1 psc0.headerSize (a.length + j1) j1
                (by rw [List.length_append]; omega) hj0 hdropeq hbbb1 hgood''
            have r1' : runLoop cfg (a ++ b) f ⟨psc0, .num ((a.length + j1 : ℕ) : ℚ)⟩ =
                (⟨q1, .num ((a ++ b).length : ℚ)⟩, E1, .done) := by
              rw [hps1]
              exact r1
            refine ⟨q2, q1, evsB1 ++ E2, evsC0 ++ E1, ?_, ?_, rbb, ?_, rrel, ?_⟩
            · rw [runLoop_succ,
                if_pos (by rw [jsnum_lt_nat]
                           exact decide_eq_true (List.length_pos.mpr hbne)), eb1]
              dsimp only
              rw [r2]
            · rw [goodRun_succ,
                if_pos (by rw [jsnum_lt_nat]
                           exact decide_eq_true (List.length_pos.mpr hbne)), eb1]
              dsimp only
              rw [Bool.and_eq_true]
              exact ⟨hbbb1, rgood⟩
            · rw [runLoop_succ, if_pos hguardab, ec0]
              dsimp only
              rw [r1']
            · rw [List.map_append, List.map_append, rne]
              rcases htr1 with ⟨hA0, hCB⟩ | ⟨u, v, t, hC, hA, hB⟩
              · rw [hA0, hCB]
                simp only [List.map_nil, List.nil_append]
              · rw [hC, hA, hB]
                simp only [List.cons_append, List.singleton_append]
                exact mergeBodies_body_body u v (t ++ E2.map normEv)
    · have hoeq : o = a.length := by omega
      subst hoeq
      have hguarda : JSNum.lt (.num (a.length : ℚ)) (.num (a.length : ℚ)) = false := by
        rw [jsnum_lt_nat]
        simp
      refine ⟨ps, [], ?_, hbb, ?_⟩
      · rw [runLoop_succ, hguarda]
        simp
      · intro h
        have hdropeq : (a ++ b).drop (a.length + 0) = b.drop 0 := List.drop_append 0
        rw [Nat.add_zero] at hdropeq
        have hgood2 : goodRun cfg (a ++ b) (f + 1)
            ⟨hsSet (hsSet ps h) ps.headerSize, .num ((a.length : ℕ) : ℚ)⟩ = true := by
          rw [goodRun_succ]
          exact hgood
        obtain ⟨q1, q2, E1, E2, r1, r2, rrel, rne, rgood, rbb⟩ :=
          runLoop_dropEq cfg (a ++ b) b (f + 1) (hsSet ps h) ps.headerSize a.length 0
            (by rw [List.length_append]; omega) (Nat.zero_le _)
            (by rw [List.drop_zero]; exact hdropeq) hbb hgood2
        have r1' : runLoop cfg (a ++ b) (f + 1) ⟨ps, .num ((a.length : ℕ) : ℚ)⟩ =
            (⟨q1, .num ((a ++ b).length : ℚ)⟩, E1, .done) := r1
        refine ⟨q2, q1, E2, E1, r2, rgood, rbb, r1', rrel, ?_⟩
        rw [rne]
        simp only [List.map_nil, List.nil_append]

end HttpTs

namespace HttpTs

/-- Flattening a non-empty partition into non-empty chunks is non-empty. -/
theorem flatten_ne_nil {rest : List Bytes} (h : rest ≠ []) (h2 : ∀ c ∈ rest, c ≠ []) :
    rest.flatten ≠ [] := by
  cases rest with
  | nil => exact absurd rfl h
  | cons d r =>
    rw [List.flatten_cons]
    intro hc
    rcases List.append_eq_nil.mp hc with ⟨hd, _⟩
    exact h2 d (by simp) hd

/-- Feeding a partition chunk-by-chunk through `execute` reproduces the
unsplit loop run over the concatenation: the final states agree up to the
header size and the callbacks agree up to body-delivery granularity,
provided the unsplit run is benign. -/
theorem executeSeq_split (cfg : Cfg) :
    ∀ (parts : List Bytes), (∀ c ∈ parts, c ≠ []) →
    ∀ (f : ℕ) (ps : PState),
      goodBBb ps.bodyBytes = true →
      goodRun cfg parts.flatten f ⟨ps, .num ((0 : ℕ) : ℚ)⟩ = true →
      ∃ (psc psM : PState) (evsC evsM : List Ev),
        runLoop cfg parts.flatten f ⟨ps, .num ((0 : ℕ) : ℚ)⟩ =
          (⟨psc, .num (parts.flatten.length : ℚ)⟩, evsC, .done) ∧
        executeSeq cfg f ps parts = some (psM, evsM) ∧
        hsErase psM = hsErase psc ∧
        mergeBodies (evsM.map normEv) = mergeBodies (evsC.map normEv) := by
  intro parts
  induction parts with
  | nil =>
    intro hne f ps hbb hgood
    cases f with
    | zero => exact absurd hgood (by simp [goodRun])
    | succ f =>
      refine ⟨ps, ps, [], [], ?_, rfl, rfl, rfl⟩
      rw [runLoop_succ]
      have hg : JSNum.lt (.num ((0 : ℕ) : ℚ))
          (.num (((List.nil : List Bytes).flatten).length : ℚ)) = false := by
        with_unfolding_all decide
      dsimp only
      rw [hg, if_neg Bool.false_ne_true]
      rfl
  | cons c rest ih =>
    intro hne f ps hbb hgood
    have hrne : ∀ d ∈ rest, d ≠ [] := fun d hd => hne d (by simp [hd])
    by_cases hrest : rest = []
    · subst hrest
      have hflat : (c :: (List.nil : List Bytes)).flatten = c := by simp
      rw [hflat] at hgood ⊢
      have hg1 : goodRun cfg c f ⟨hsSet ps ps.headerSize, .num ((0 : ℕ) : ℚ)⟩ = true := hgood
      obtain ⟨ps1, ps2, evs1, evs2, e1, e2, hrel, hevne, hgood2, hbb2⟩ :=
        runLoop_dropEq cfg c c f ps ps.headerSize 0 0 (Nat.zero_le _) (Nat.zero_le _) rfl hbb hg1
      have e1' : runLoop cfg c f ⟨ps, .num 0⟩ = (⟨ps1, .num (c.length : ℚ)⟩, evs1, .done) := by
        rw [Nat.cast_zero] at e1
        exact e1
      have hex : ∃ (r : ExecResult) (hh : ℚ),
          execute cfg f ps c = some (r, hsSet ps1 hh, evs1) := by
        unfold execute
        rw [e1']
        simp only
        by_cases hst : ps1.state ∈ HEADER_STATES
        · rw [if_pos hst]
          by_cases hov : ps1.headerSize + (c.length : ℚ) > cfg.maxHeaderSize
          · rw [if_pos hov]
            exact ⟨.parseError .HPE_HEADER_OVERFLOW, ps1.headerSize + (c.length : ℚ), rfl⟩
          · rw [if_neg hov]
            exact ⟨.consumed (.num (c.length : ℚ)), ps1.headerSize + (c.length : ℚ), rfl⟩
        · rw [if_neg hst]
          exact ⟨.consumed (.num (c.length : ℚ)), ps1.headerSize, rfl⟩
      obtain ⟨r, hh, hex⟩ := hex
      refine ⟨ps2, hsSet ps1 hh, evs2, evs1 ++ [], e2, ?_, ?_, ?_⟩
      · unfold executeSeq
        rw [hex]
        rfl
      · exact ((hsErase_set ps1 hh).trans hrel).symm.symm
      · rw [List.append_nil, hevne]
    · have hbflat : rest.flatten ≠ [] := flatten_ne_nil hrest hrne
      have hflat : (c :: rest).flatten = c ++ rest.flatten := List.flatten_cons
      rw [hflat] at hgood ⊢
      obtain ⟨psa, evsA, heA, hbbA, hall⟩ :=
        runLoop_split cfg c rest.flatten hbflat f ps 0 (Nat.zero_le _) hbb hgood
      have heA' : runLoop cfg c f ⟨ps, .num 0⟩ =
          (⟨psa, .num (c.length : ℚ)⟩, evsA, .done) := by
        rw [Nat.cast_zero] at heA
        exact heA
      have hex : ∃ (r : ExecResult) (hh : ℚ),
          execute cfg f ps c = some (r, hsSet psa hh, evsA) := by
        unfold execute
        rw [heA']
        simp only
        by_cases hst : psa.state ∈ HEADER_STATES
        · rw [if_pos hst]
          by_cases hov : psa.headerSize + (c.length : ℚ) > cfg.maxHeaderSize
          · rw [if_pos hov]
            exact ⟨.parseError .HPE_HEADER_OVERFLOW, psa.headerSize + (c.length : ℚ), rfl⟩
          · rw [if_neg hov]
            exact ⟨.consumed (.num (c.length : ℚ)), psa.headerSize + (c.length : ℚ), rfl⟩
        · rw [if_neg hst]
          exact ⟨.consumed (.num (c.length : ℚ)), psa.headerSize, rfl⟩
      obtain ⟨r, hh, hex⟩ := hex
      obtain ⟨psb, psc, evsB, evsC, eB, hgoodB, hbbB, eC, hrelCB, hmerge⟩ := hall hh
      obtain ⟨psc1, psM, evsC1, evsM, eB1, hseq, hrelM, hmergeM⟩ :=
        ih hrne f (hsSet psa hh) hbbA hgoodB
      rw [eB] at eB1
      simp only [Prod.mk.injEq, M.mk.injEq, JSNum.num.injEq] at eB1
      obtain ⟨⟨hpsb, _⟩, hevsB, _⟩ := eB1
      refine ⟨psc, psM, evsC, evsA ++ evsM, eC, ?_, ?_, ?_⟩
      · unfold executeSeq
        rw [hex]
        simp only
        rw [hseq]
      · exact (hrelM.trans (congrArg hsErase hpsb.symm)).trans hrelCB.symm
      · rw [List.map_append, hmerge]
        exact mergeBodies_append_congr (evsA.map normEv)
          (hmergeM.trans (congrArg (fun l => mergeBodies (List.map normEv l)) hevsB.symm))

end HttpTs

namespace HttpTs

/-- C1, amended: partition invariance holds up to `on_body` granularity and
header-size accounting, on benign runs.  For any start state with a
well-formed `body_remaining` and any partition of the input into non-empty
chunks whose unsplit run is benign — the `execute` loop finishes within the
fuel, no handler raises a `ParseError` or a `TypeError`, no upgrade pause,
and `body_remaining` stays a non-negative integer throughout — feeding the
chunks in order produces the same callbacks in the same order with the same
argument values as feeding the concatenation at once, except that one
`on_body` may be delivered as several adjacent `on_body` calls covering the
same bytes (with per-call buffer/start/length arguments), and the final
parser states agree except in `header_size`.  The whole-input call returns
its consumed count (or `HPE_HEADER_OVERFLOW`); the per-chunk return values
are partition-dependent and are not compared. -/
theorem C1_amended (cfg : Cfg) (parts : List Bytes) (f : ℕ) (ps : PState)
    (hne : ∀ c ∈ parts, c ≠ [])
    (hbb : goodBBb ps.bodyBytes = true)
    (hgood : goodRun cfg parts.flatten f ⟨ps, .num ((0 : ℕ) : ℚ)⟩ = true) :
    ∃ (r : ExecResult) (psS psM : PState) (evsS evsM : List Ev),
      execute cfg f ps parts.flatten = some (r, psS, evsS) ∧
      (r = .consumed (.num (parts.flatten.length : ℚ)) ∨
        r = .parseError .HPE_HEADER_OVERFLOW) ∧
      executeSeq cfg f ps parts = some (psM, evsM) ∧
      hsErase psM = hsErase psS ∧
      mergeBodies (evsM.map normEv) = mergeBodies (evsS.map normEv) := by
  obtain ⟨psc, psM, evsC, evsM, eC, hseq, hrel, hmerge⟩ :=
    executeSeq_split cfg parts hne f ps hbb hgood
  have eC' : runLoop cfg parts.flatten f ⟨ps, .num 0⟩ =
      (⟨psc, .num (parts.flatten.length : ℚ)⟩, evsC, .done) := by
    rw [Nat.cast_zero] at eC
    exact eC
  by_cases hst : psc.state ∈ HEADER_STATES
  · by_cases hov : psc.headerSize + (parts.flatten.length : ℚ) > cfg.maxHeaderSize
    · refine ⟨.parseError .HPE_HEADER_OVERFLOW,
        hsSet psc (psc.headerSize + (parts.flatten.length : ℚ)), psM, evsC, evsM,
        ?_, Or.inr rfl, hseq, ?_, hmerge⟩
      · unfold execute
        rw [eC']
        dsimp only
        rw [if_pos hst, if_pos hov]
        rfl
      · exact hrel.trans (hsErase_set psc (psc.headerSize + (parts.flatten.length : ℚ))).symm
    · refine ⟨.consumed (.num (parts.flatten.length : ℚ)),
        hsSet psc (psc.headerSize + (parts.flatten.length : ℚ)), psM, evsC, evsM,
        ?_, Or.inl rfl, hseq, ?_, hmerge⟩
      · unfold execute
        rw [eC']
        dsimp only
        rw [if_pos hst, if_neg hov]
        rfl
      · exact hrel.trans (hsErase_set psc (psc.headerSize + (parts.flatten.length : ℚ))).symm
  · refine ⟨.consumed (.num (parts.flatten.length : ℚ)), psc, psM, evsC, evsM,
      ?_, Or.inl rfl, hseq, hrel, hmerge⟩
    unfold execute
    rw [eC']
    dsimp only
    rw [if_neg hst]

end HttpTs

namespace HttpTs

/-- Concrete instance of `C1_amended`: the counterexample request split
before its last body byte satisfies every premise, and the conclusion holds
there. -/
theorem C1_amended_witness :
    (∀ c ∈ [js "POST / HTTP/1.1\r\nContent-Length: 2\r\n\r\na", js "b"], c ≠ []) ∧
    goodBBb (freshParser .request).bodyBytes = true ∧
    goodRun cfg0 [js "POST / HTTP/1.1\r\nContent-Length: 2\r\n\r\na", js "b"].flatten 80
      ⟨freshParser .request, .num ((0 : ℕ) : ℚ)⟩ = true ∧
    ∃ (r : ExecResult) (psS psM : PState) (evsS evsM : List Ev),
      execute cfg0 80 (freshParser .request)
          [js "POST / HTTP/1.1\r\nContent-Length: 2\r\n\r\na", js "b"].flatten =
        some (r, psS, evsS) ∧
      (r = .consumed (.num (([js "POST / HTTP/1.1\r\nContent-Length: 2\r\n\r\na",
          js "b"].flatten.length : ℕ) : ℚ)) ∨
        r = .parseError .HPE_HEADER_OVERFLOW) ∧
      executeSeq cfg0 80 (freshParser .request)
          [js "POST / HTTP/1.1\r\nContent-Length: 2\r\n\r\na", js "b"] = some (psM, evsM) ∧
      hsErase psM = hsErase psS ∧
      mergeBodies (evsM.map normEv) = mergeBodies (evsS.map normEv) :=
  ⟨by with_unfolding_all decide, by with_unfolding_all decide, by with_unfolding_all decide,
   C1_amended cfg0 [js "POST / HTTP/1.1\r\nContent-Length: 2\r\n\r\na", js "b"] 80
     (freshParser .request) (by with_unfolding_all decide) (by with_unfolding_all decide)
     (by with_unfolding_all decide)⟩

end HttpTs
